import Mathlib

/-!
MPICommPattern: index registry and element store.

Shallow embedding of `src/Common/MPI/MPICommPattern.hh` (COOLFluiD).

* `IndexType` values are natural numbers; the width of `IndexType`
  (`ArrayAllocator<T>::IndexType`, declared outside the translated header) is the
  field `bits` of `Config`.
* `_MetaData` is the list of the `GlobalIndex` fields, one per slot; its length
  is `m_data->size()`, the number of slots of the store.
* `std::map<IndexType,IndexType>` is a key-ordered association list.
* A C++ exception is an `Except.error`; a method that can throw after it has
  already changed the object returns the result together with the state the
  object is left in.
* `cf_assert` is modelled as a check that fails with `Error.AssertionFailed`.
* `CFuint` (declared outside the translated header) is taken to have the width
  of `IndexType`, and `int` the width of `CFuint`: the sums `scount` and `rcount`
  of the displacement loops wrap at `2^bits`, and a count or a displacement of
  `2^(bits-1)` or more is a negative `int` in a call of `MPI_Alltoallv`. The
  counts themselves (a number of points times `elemsize`) are kept exact.
-/

namespace MPICommPattern

deriving instance DecidableEq for Except

/-- What the translated file takes from outside: the width in bits of
`IndexType`, the size `m_data->size()` reports after `m_data->grow()` as a
function of the size before it, and the memory past the end of the vector
`_CGlobal`: the value that the read `_CGlobal[LocalID]`, which no check guards,
finds on the process of a rank for a local index outside the vector. -/
structure Config where
  bits : Nat
  growTo : Nat → Nat
  beyond : Nat → Nat → Nat

/-- The exceptions of `ParVectorException.hh` raised by the registry, the failure
of a `cf_assert`, and a loop that does not end. -/
inductive Error where
  | DoubleElementException
  | StorageException
  | NotFoundException
  | AssertionFailed
  | NoTermination
deriving DecidableEq, Repr

/-- The constant `_NO_MORE_FREE`: `std::numeric_limits<IndexType>::max()`. -/
def _NO_MORE_FREE (c : Config) : Nat := 2 ^ c.bits - 1

/-- The constant `_FLAG_DELETED`: `(std::numeric_limits<IndexType>::max() / 2) + 1`. -/
def _FLAG_DELETED (c : Config) : Nat := (2 ^ c.bits - 1) / 2 + 1

/-- The constant `_FLAG_GHOST`: `_FLAG_DELETED >> 1`. -/
def _FLAG_GHOST (c : Config) : Nat := _FLAG_DELETED c >>> 1

/-- The constant `_NOT_FOUND`: `std::numeric_limits<IndexType>::max()`. -/
def _NOT_FOUND (c : Config) : Nat := 2 ^ c.bits - 1

/-- The function `ClearFlag`: `Global & (~Flag)`; the complement is taken inside `IndexType`. -/
def ClearFlag (c : Config) (Global Flag : Nat) : Nat :=
  Global &&& ((2 ^ c.bits - 1) ^^^ Flag)

/-- The function `SetFlag`: `Global | Flag`. -/
def SetFlag (Global Flag : Nat) : Nat := Global ||| Flag

/-- The function `IsFlagSet`: `Global & Flag`, converted to `bool`. -/
def IsFlagSet (Global Flag : Nat) : Bool := (Global &&& Flag) != 0

/-- The function `NormalIndex`: `ClearFlag (Global, _FLAG_DELETED|_FLAG_GHOST)`. -/
def NormalIndex (c : Config) (Global : Nat) : Nat :=
  ClearFlag c Global (_FLAG_DELETED c ||| _FLAG_GHOST c)

/-- The type `std::map<IndexType,IndexType>` of `_GhostMap` and `_IndexMap`. -/
abbrev TMap := List (Nat × Nat)

/-- Lookup `m.find(k)`: the mapped value, `none` for `m.end()`. -/
def mapFind : TMap → Nat → Option Nat
  | [], _ => none
  | (k', v) :: rest, k => if k' = k then some v else mapFind rest k

/-- Assignment `m[k] = v`: overwrite the entry of `k`, or insert it at its place in key order. -/
def mapSet : TMap → Nat → Nat → TMap
  | [], k, v => [(k, v)]
  | (k', v') :: rest, k, v =>
    if k' = k then (k, v) :: rest
    else if k < k' then (k, v) :: (k', v') :: rest
    else (k', v') :: mapSet rest k v

/-- The data members of `MPICommPattern` that the registry and the store use. -/
structure State where
  _ElementSize : Nat
  _LocalSize : Nat
  _GhostSize : Nat
  _NextFree : Nat
  _MetaData : List Nat
  _IsIndexed : Bool
  _InitMPIOK : Bool
  _CGlobalValid : Bool
  _CGlobal : List Nat
  _GhostMap : TMap
  _IndexMap : TMap
deriving DecidableEq, Repr

/-- The constructor `MPICommPattern (nspaceName, data, Init, Size, ESize)` on an
empty store: `InitMPI` runs only for `ESize > 0`. -/
def fresh (c : Config) (ESize : Nat) : State :=
  { _ElementSize := ESize, _LocalSize := 0, _GhostSize := 0,
    _NextFree := _NO_MORE_FREE c, _MetaData := [], _IsIndexed := false,
    _InitMPIOK := decide (0 < ESize), _CGlobalValid := false, _CGlobal := [],
    _GhostMap := [], _IndexMap := [] }

/-- The method `GetLocalSize ()`. -/
def GetLocalSize (s : State) : Nat := s._LocalSize

/-- The method `GetGhostSize ()`. -/
def GetGhostSize (s : State) : Nat := s._GhostSize

/-- The method `size ()`: `GetLocalSize() + GetGhostSize()`. -/
def size (s : State) : Nat := GetLocalSize s + GetGhostSize s

/-- The access `_MetaData(i).GlobalIndex`. A read outside the store is undefined in the
source; the embedding reads 0 there. -/
def metaAt (s : State) (i : Nat) : Nat := s._MetaData.getD i 0

/-- The walk over the free list in `grow`:
`while (Current!=_NO_MORE_FREE && _MetaData(Current).GlobalIndex!=_NO_MORE_FREE)
   Current=_MetaData(Current).GlobalIndex;`
with a bound on the number of iterations; `none` when the bound is reached. -/
def walkFree (c : Config) (md : List Nat) : Nat → Nat → Option Nat
  | 0, _ => none
  | fuel + 1, Current =>
    if Current ≠ _NO_MORE_FREE c ∧ md.getD Current 0 ≠ _NO_MORE_FREE c then
      walkFree c md fuel (md.getD Current 0)
    else some Current

/-- The loop `for (i=OldSize; i<(NewSize-1); i++) _MetaData(i).GlobalIndex=i+1;`
of `grow`, as `count` iterations from `i`. -/
def linkNew (md : List Nat) : Nat → Nat → List Nat
  | 0, _ => md
  | count + 1, i => linkNew (md.set i (i + 1)) count (i + 1)

/-- The method `grow (growBy)`: `growBy = 0` asks the store for its own enlargement. The
new slots are appended to the free list. -/
def grow (c : Config) (s : State) (growBy : Nat) : Except Error State :=
  let OldSize := s._MetaData.length
  let NewSize := if growBy ≠ 0 then OldSize + growBy else c.growTo OldSize
  if ¬ (NewSize > OldSize) then .error .AssertionFailed
  else
    let md1 := s._MetaData ++ List.replicate (NewSize - OldSize) 0
    match walkFree c md1 (md1.length + 1) s._NextFree with
    | none => .error .NoTermination
    | some Current =>
      let md2 := (linkNew md1 (NewSize - 1 - OldSize) OldSize).set (NewSize - 1) (_NO_MORE_FREE c)
      if Current ≠ _NO_MORE_FREE c ∧ md2.getD Current 0 ≠ _NO_MORE_FREE c then
        .error .AssertionFailed
      else
        let md3 := if Current ≠ _NO_MORE_FREE c then md2.set Current OldSize else md2
        .ok { s with
          _MetaData := md3
          _NextFree := if s._NextFree = _NO_MORE_FREE c then OldSize else s._NextFree }

/-- The method `AllocNext ()`: the returned index (possibly `_NO_MORE_FREE`) and the state. -/
def AllocNext (c : Config) (s : State) : Except Error (Nat × State) :=
  if IsFlagSet ((size s + 1) % 2 ^ c.bits) (_FLAG_DELETED c ||| _FLAG_GHOST c) then
    .ok (_NO_MORE_FREE c, s)
  else
    match (if s._NextFree = _NO_MORE_FREE c then grow c s 0 else .ok s) with
    | .error e => .error e
    | .ok s1 =>
      if s1._NextFree = _NO_MORE_FREE c then .error .AssertionFailed
      else
        let NewID := s1._NextFree
        .ok (NewID, { s1 with _NextFree := s1._MetaData.getD NewID 0 })

/-- The method `AddGhostPoint (GlobalIndex)`: the result and the state the call leaves. -/
def AddGhostPoint (c : Config) (s : State) (GlobalIndex : Nat) : Except Error Nat × State :=
  if (mapFind s._GhostMap GlobalIndex).isSome then (.error .DoubleElementException, s)
  else if (mapFind s._IndexMap GlobalIndex).isSome then (.error .DoubleElementException, s)
  else
    match AllocNext c s with
    | .error e => (.error e, s)
    | .ok (NewLocalID, s1) =>
      if NewLocalID = _NO_MORE_FREE c then (.error .AssertionFailed, s1)
      else
        (.ok NewLocalID,
          { s1 with
            _MetaData := s1._MetaData.set NewLocalID (SetFlag GlobalIndex (_FLAG_GHOST c))
            _GhostSize := s1._GhostSize + 1
            _GhostMap := mapSet s1._GhostMap GlobalIndex NewLocalID })

/-- The method `AddLocalPoint (GlobalIndex)`: the result and the state the call leaves. -/
def AddLocalPoint (c : Config) (s : State) (GlobalIndex : Nat) : Except Error Nat × State :=
  match AllocNext c s with
  | .error e => (.error e, s)
  | .ok (NewLocalID, s1) =>
    if NewLocalID = _NO_MORE_FREE c then (.error .StorageException, s1)
    else
      let s2 : State :=
        { s1 with
          _MetaData := s1._MetaData.set NewLocalID (ClearFlag c GlobalIndex (_FLAG_GHOST c))
          _LocalSize := s1._LocalSize + 1 }
      if (mapFind s2._IndexMap GlobalIndex).isSome then (.error .DoubleElementException, s2)
      else (.ok NewLocalID, { s2 with _IndexMap := mapSet s2._IndexMap GlobalIndex NewLocalID })

/-- The method `LocalToGlobal (LocalIndex)`. -/
def LocalToGlobal (c : Config) (s : State) (LocalIndex : Nat) : Nat :=
  NormalIndex c (metaAt s LocalIndex)

/-- The method `IsGhost (LocalID)`. -/
def IsGhost (c : Config) (s : State) (LocalID : Nat) : Bool :=
  IsFlagSet (metaAt s LocalID) (_FLAG_GHOST c)

/-- The method `GlobalToLocal (GlobalIndex)`: `_IndexMap` first, then `_GhostMap`. -/
def GlobalToLocal (s : State) (GlobalIndex : Nat) : Except Error Nat :=
  match mapFind s._IndexMap GlobalIndex with
  | some i => .ok i
  | none =>
    match mapFind s._GhostMap GlobalIndex with
    | some i => .ok i
    | none => .error .NotFoundException

/-- The method `FindLocal (GlobalIndex)`: the map when an index exists, otherwise the scan
over the slots `0 .. size()-1`. -/
def FindLocal (c : Config) (s : State) (GlobalIndex : Nat) : Except Error Nat :=
  if IsFlagSet GlobalIndex (_FLAG_GHOST c ||| _FLAG_DELETED c) then .error .AssertionFailed
  else if s._IsIndexed then
    match mapFind s._IndexMap GlobalIndex with
    | none => .ok (_NOT_FOUND c)
    | some i => .ok i
  else
    match (List.range (size s)).find? (fun i =>
        !IsFlagSet (metaAt s i) (_FLAG_DELETED c ||| _FLAG_GHOST c)
          && NormalIndex c (metaAt s i) == GlobalIndex) with
    | some i => .ok i
    | none => .ok (_NOT_FOUND c)

/-- The method `FindGhost (GlobalIndex)`: the map when an index exists, otherwise the scan
over the slots `0 .. size()-1`. -/
def FindGhost (c : Config) (s : State) (GlobalIndex : Nat) : Except Error Nat :=
  if IsFlagSet GlobalIndex (_FLAG_GHOST c ||| _FLAG_DELETED c) then .error .AssertionFailed
  else if s._IsIndexed then
    match mapFind s._GhostMap GlobalIndex with
    | none => .ok (_NOT_FOUND c)
    | some i => .ok i
  else
    match (List.range (size s)).find? (fun i =>
        IsFlagSet (metaAt s i) (_FLAG_GHOST c)
          && !IsFlagSet (metaAt s i) (_FLAG_DELETED c)
          && NormalIndex c (metaAt s i) == GlobalIndex) with
    | some i => .ok i
    | none => .ok (_NOT_FOUND c)

/-- One iteration of the loop of `CreateIndex` on slot `i`, on the pair
(`_GhostMap`, `_IndexMap`). -/
def indexSlot (c : Config) (s : State) (maps : TMap × TMap) (i : Nat) : TMap × TMap :=
  let Global := metaAt s i
  if IsFlagSet Global (_FLAG_DELETED c) then maps
  else if IsFlagSet Global (_FLAG_GHOST c) then (mapSet maps.1 (NormalIndex c Global) i, maps.2)
  else (maps.1, mapSet maps.2 (NormalIndex c Global) i)

/-- The method `CreateIndex ()`: both maps are rebuilt from the slots `0 .. m_data->size()-1`. -/
def CreateIndex (c : Config) (s : State) : Except Error State :=
  if s._IsIndexed then .error .AssertionFailed
  else
    let maps := (List.range s._MetaData.length).foldl (indexSlot c s) ([], [])
    .ok { s with _GhostMap := maps.1, _IndexMap := maps.2, _IsIndexed := true }

/-- The method `DestroyIndex ()`: both maps are cleared. -/
def DestroyIndex (s : State) : Except Error State :=
  if ¬ s._IsIndexed then .error .AssertionFailed
  else .ok { s with _IndexMap := [], _GhostMap := [], _IsIndexed := false }

/-- The method `reserve (reservesize, elementSize, nspaceName)`: without `InitMPI` the store
is freed and set up empty first. -/
def reserve (c : Config) (s : State) (reservesize elementSize : Nat) : Except Error State :=
  let r1 : Except Error State :=
    if ¬ s._InitMPIOK then
      if s._ElementSize ≠ 0 then .error .AssertionFailed
      else .ok { s with _MetaData := [], _ElementSize := elementSize, _InitMPIOK := true }
    else .ok s
  match r1 with
  | .error e => .error e
  | .ok s1 =>
    if reservesize ≤ s1._MetaData.length then .ok s1
    else grow c s1 (reservesize - s1._MetaData.length)

/-- A call of one of the two registration methods. -/
inductive AddCall where
  | AddLocalPoint (GlobalIndex : Nat)
  | AddGhostPoint (GlobalIndex : Nat)
deriving DecidableEq, Repr

/-- Run one registration call. -/
def AddCall.run (c : Config) (s : State) : AddCall → Except Error Nat × State
  | .AddLocalPoint g => MPICommPattern.AddLocalPoint c s g
  | .AddGhostPoint g => MPICommPattern.AddGhostPoint c s g

/-- Run a sequence of registration calls, a failed call included (the caller
catches the exception and goes on): the calls with their results, and the final
state. -/
def runCalls (c : Config) : State → List AddCall → List (AddCall × Except Error Nat) × State
  | s, [] => ([], s)
  | s, call :: rest =>
    let r := call.run c s
    let t := runCalls c r.2 rest
    ((call, r.1) :: t.1, t.2)

/-- A 32-bit `IndexType` (`CFuint` as `unsigned int`) over a store that doubles,
with the word 0 in the memory past the end of `_CGlobal`. -/
def cfg32 : Config := { bits := 32, growTo := fun n => 2 * n + 1, beyond := fun _ _ => 0 }

/-- The 32-bit configuration in which the memory past the end of `_CGlobal`
holds the value `v`. -/
def cfg32Mem (v : Nat) : Config := { cfg32 with beyond := fun _ _ => v }

/-- What the registry needs from the store outside the translated file: the
index type has room for the two flag bits, and as long as the index space is not
used up `m_data->grow()` enlarges the store to a size that `IndexType` holds. -/
def GrowOk (c : Config) : Prop :=
  2 ≤ c.bits ∧ ∀ n, n < _FLAG_GHOST c → n < c.growTo n ∧ c.growTo n < 2 ^ c.bits

/-- The shape of the store when no slot has been released: the slots
`0 .. size()-1` are allocated, and the free list runs through the remaining
slots in increasing order. -/
structure WF (c : Config) (s : State) : Prop where
  size_le : size s ≤ s._MetaData.length
  size_lt : size s < _FLAG_GHOST c
  cap_lt : s._MetaData.length < 2 ^ c.bits
  next : s._NextFree = if size s < s._MetaData.length then size s else _NO_MORE_FREE c
  link : ∀ i, size s ≤ i → i + 1 < s._MetaData.length → metaAt s i = i + 1
  last : size s < s._MetaData.length → metaAt s (s._MetaData.length - 1) = _NO_MORE_FREE c

/-- The value a successful call writes into `_MetaData(NewLocalID).GlobalIndex`. -/
def AddCall.stored (c : Config) : AddCall → Nat
  | .AddLocalPoint g => ClearFlag c g (_FLAG_GHOST c)
  | .AddGhostPoint g => SetFlag g (_FLAG_GHOST c)

/-- The state `s` agrees with the calls made so far and their results: the two
maps hold exactly the successful registrations, and every returned index is an
allocated slot holding what its call stored. -/
structure Hist (c : Config) (s : State) (tr : List (AddCall × Except Error Nat)) : Prop where
  wf : WF c s
  imap : ∀ g i, mapFind s._IndexMap g = some i ↔ (AddCall.AddLocalPoint g, Except.ok i) ∈ tr
  gmap : ∀ g i, mapFind s._GhostMap g = some i ↔ (AddCall.AddGhostPoint g, Except.ok i) ∈ tr
  slot : ∀ call i, (call, Except.ok i) ∈ tr → i < size s ∧ metaAt s i = call.stored c

/-- The state after a sequence of registration calls. -/
def stateAfter (c : Config) (s : State) (calls : List AddCall) : State := (runCalls c s calls).2

/-- The calls of a sequence, each with its result. -/
def traceOf (c : Config) (s : State) (calls : List AddCall) : List (AddCall × Except Error Nat) :=
  (runCalls c s calls).1

/-- The classification a call gives the slot it registers. -/
def AddCall.ghost : AddCall → Bool
  | .AddLocalPoint _ => false
  | .AddGhostPoint _ => true

/-- A call that changes the registry or the store: one of the two registration
methods, or `reserve (reservesize, elementSize, nspaceName)`. -/
inductive StoreCall where
  | add (call : AddCall)
  | reserve (reservesize elementSize : Nat)
deriving DecidableEq, Repr

/-- The state one call leaves; a `reserve` that fails a `cf_assert` leaves the
state it found. -/
def StoreCall.run (c : Config) (s : State) : StoreCall → State
  | .add call => (call.run c s).2
  | .reserve reservesize elementSize =>
    match MPICommPattern.reserve c s reservesize elementSize with
    | .ok s1 => s1
    | .error _ => s

/-- The state after a sequence of registration and `reserve` calls. -/
def runStore (c : Config) : State → List StoreCall → State
  | s, [] => s
  | s, call :: rest => runStore c (call.run c s) rest

/-- The arguments of the `reserve` calls of a sequence are `IndexType` values. -/
def TypedCalls (c : Config) (calls : List StoreCall) : Prop :=
  ∀ n e, StoreCall.reserve n e ∈ calls → n < 2 ^ c.bits

/-- The test at the head of `AllocNext`: `size()+1`, as an `IndexType`, has the
ghost or the deleted flag bit set. -/
def Exhausted (c : Config) (s : State) : Bool :=
  IsFlagSet ((size s + 1) % 2 ^ c.bits) (_FLAG_DELETED c ||| _FLAG_GHOST c)

/-- One process of the communicator: its registry, the relation
`m_mapGhost2Donor` (global ID of a ghost, rank of its donor), the payload array
`m_data->ptr()`, and the members that hold the communication pattern and the
buffers of `synchronize`. The rank of a process is its position in the list of
processes, and `_CommSize` is the length of that list. The payload type `T` is
taken to be the integers. -/
structure Proc where
  reg : State
  m_mapGhost2Donor : TMap
  data : List Int
  _GhostSendList : List (List Nat)
  _GhostReceiveList : List (List Nat)
  m_sendCount : List Nat
  m_recvCount : List Nat
  m_sendDispl : List Nat
  m_recvDispl : List Nat
  m_sendLocalIDs : List Nat
  m_recvLocalIDs : List Nat
  m_sendBuf : List Int
  m_recvBuf : List Int
deriving DecidableEq, Repr

/-- A process right after the registration calls `calls` on a fresh pattern of
element size `ESize`, with donor relation `donors` and payload `data`; no pattern
has been built. -/
def mkProc (c : Config) (ESize : Nat) (calls : List AddCall) (donors : TMap) (data : List Int) :
    Proc :=
  { reg := stateAfter c (fresh c ESize) calls, m_mapGhost2Donor := donors, data := data,
    _GhostSendList := [], _GhostReceiveList := [], m_sendCount := [], m_recvCount := [],
    m_sendDispl := [], m_recvDispl := [], m_sendLocalIDs := [], m_recvLocalIDs := [],
    m_sendBuf := [], m_recvBuf := [] }

/-- The results of one step of a collective operation, when every process has
passed it. -/
def allOk {α : Type} : List (Except Error α) → Option (List α)
  | [] => some []
  | .ok a :: rest => (allOk rest).map (fun as => a :: as)
  | .error _ :: _ => none

/-- The outcome of a collective operation in which some process has raised: that
process reports what it raised, and a process that has not raised waits for it for
ever in the next communication. -/
def blocked {α β : Type} (rs : List (Except Error α)) : List (Except Error β) :=
  rs.map (fun r => match r with
    | .error e => .error e
    | .ok _ => .error .NoTermination)

/-- The results of a sequence of steps of one process, up to the first one that
raises. -/
def sequenceE {α : Type} : List (Except Error α) → Except Error (List α)
  | [] => .ok []
  | .error e :: _ => .error e
  | .ok a :: rest =>
    match sequenceE rest with
    | .ok as => .ok (a :: as)
    | .error e => .error e

/-- The keys of a map, in the order of its iterator. -/
def mapKeys (m : TMap) : List Nat := m.map Prod.fst

/-- The lookups `m.find(x)->second` for the elements of a list, `none` when one of
them gives `m.end()`. -/
def lookupAll (m : TMap) : List Nat → Option (List Nat)
  | [] => some []
  | x :: xs =>
    match mapFind m x, lookupAll m xs with
    | some l, some ls => some (l :: ls)
    | _, _ => none

/-- The result of `MPI_Allreduce (&_GhostSize, &MaxGhostSize, 1, ..., MPI_MAX, ...)`. -/
def maxGhostSize (procs : List Proc) : Nat :=
  (procs.map (fun p => p.reg._GhostSize)).foldl max 0

/-- `Sync_BroadcastNeeded ()` on the process `me` of rank `rank`: the new
`_GhostSendList`. In its turn every process broadcasts the keys of its
`_GhostMap`; the others keep, for that rank, the local index of every key they
find in their `_IndexMap`. A list of keys longer than the buffer of
`MaxGhostSize+1` entries fails the `cf_assert` of the receivers (and overruns
the buffer of the sender). -/
def Sync_BroadcastNeeded (procs : List Proc) (rank : Nat) (me : Proc) :
    Except Error (List (List Nat)) :=
  let MaxGhostSize := maxGhostSize procs
  if MaxGhostSize = 0 then .ok (List.replicate procs.length [])
  else if procs.any (fun root => decide (MaxGhostSize < root.reg._GhostMap.length)) then
    .error .AssertionFailed
  else
    .ok (procs.enum.map (fun tr =>
      if tr.1 = rank then [] else (mapKeys tr.2.reg._GhostMap).filterMap (mapFind me.reg._IndexMap)))

/-- The message process `sender` sends to rank `dest` in `Sync_BuildReceiveList`:
`NormalIndex(_MetaData(*iter).GlobalIndex)` for the entries of its
`_GhostSendList[dest]`. -/
def sendStorage (c : Config) (sender : Proc) (sendList : List (List Nat)) (dest : Nat) : List Nat :=
  (sendList.getD dest []).map (fun l => NormalIndex c (metaAt sender.reg l))

/-- The part of `Sync_BuildReceiveList ()` that handles the message of one rank:
the new `_GhostReceiveList[Current]`. -/
def receiveFrom (me : Proc) (msg : List Nat) : Except Error (List Nat) :=
  if me.reg._GhostSize < msg.length then .error .AssertionFailed
  else
    match lookupAll me.reg._GhostMap msg with
    | some ls => .ok ls
    | none => .error .AssertionFailed

/-- `Sync_BuildReceiveList ()` on the process `me` of rank `rank`, given the
`_GhostSendList` of every process: the new `_GhostReceiveList`. -/
def Sync_BuildReceiveList (c : Config) (procs : List Proc) (sends : List (List (List Nat)))
    (rank : Nat) (me : Proc) : Except Error (List (List Nat)) :=
  sequenceE (procs.enum.map (fun iq =>
    if iq.1 = rank then .ok []
    else receiveFrom me (sendStorage c iq.2 (sends.getD iq.1 []) rank)))

/-- The end of `BuildGhostMapOld ()` on one process: the count of the ghosts found
against `_GhostSize`. -/
def checkGhostFound (me : Proc) (sendList recvList : List (List Nat)) : Except Error Proc :=
  let GhostFound := (recvList.map List.length).sum
  if me.reg._GhostSize ≠ me.reg._GhostMap.length then .error .AssertionFailed
  else if GhostFound ≠ me.reg._GhostSize then .error .NotFoundException
  else .ok { me with _GhostSendList := sendList, _GhostReceiveList := recvList }

/-- The start of `BuildGhostMapOld ()` on the process `me` of rank `rank`, up to
and including `Sync_BroadcastNeeded ()`: the new `_GhostSendList`. -/
def oldPhase1 (procs : List Proc) (rank : Nat) (me : Proc) : Except Error (List (List Nat)) :=
  if me.reg._InitMPIOK then Sync_BroadcastNeeded procs rank me
  else .error .AssertionFailed

/-- The rest of `BuildGhostMapOld ()` on the process `me` of rank `rank`, from
`Sync_BuildReceiveList ()` on, given the `_GhostSendList` of every process. -/
def oldPhase2 (c : Config) (procs : List Proc) (sends : List (List (List Nat))) (rank : Nat)
    (me : Proc) (sendList : List (List Nat)) : Except Error Proc :=
  match Sync_BuildReceiveList c procs sends rank me with
  | .error e => .error e
  | .ok recvList => checkGhostFound me sendList recvList

/-- `BuildGhostMapOld ()` run by every process of the communicator: for each
rank, the process with its new lists, or what it raised. -/
def BuildGhostMapOld (c : Config) (procs : List Proc) : List (Except Error Proc) :=
  match allOk (procs.enum.map (fun rp => oldPhase1 procs rp.1 rp.2)) with
  | none => blocked (procs.enum.map (fun rp => oldPhase1 procs rp.1 rp.2))
  | some sends =>
    procs.enum.map (fun rp => oldPhase2 c procs sends rp.1 rp.2 (sends.getD rp.1 []))

/-- The two-process scenario, process 0: it owns the global IDs 0, 1, 2 with the
values 10, 20, 30 and registers a ghost for the global ID 3, with donor rank 1. -/
def scenario0 : Proc :=
  mkProc cfg32 8 [.AddLocalPoint 0, .AddLocalPoint 1, .AddLocalPoint 2, .AddGhostPoint 3]
    [(3, 1)] [10, 20, 30, 0, 0, 0, 0]

/-- The two-process scenario, process 1: it owns the global IDs 3, 4, 5 with the
values 40, 50, 60 and has no ghost. -/
def scenario1 : Proc :=
  mkProc cfg32 8 [.AddLocalPoint 3, .AddLocalPoint 4, .AddLocalPoint 5] [] [40, 50, 60]

/-- What the pattern builders and `synchronize` take from outside the translated
file: `sizeof(T)` for the payload type `T`, and `CFMultiMap::sortKeys` on the
pairs (donor rank, global ID). -/
structure Ext where
  sizeofT : Nat
  sortKeys : List (Nat × Nat) → List (Nat × Nat)

/-- A payload type of 8 bytes (`T = double`), and a stable sort by donor rank. -/
def ext8 : Ext :=
  { sizeofT := 8, sortKeys := fun l => l.insertionSort (fun a b => a.1 ≤ b.1) }

/-- The local `elemsize = _ElementSize/sizeof(T)`. -/
def elemsize (x : Ext) (s : State) : Nat := s._ElementSize / x.sizeofT

/-- The pairs `donor2GhostGlobalID` after `sortKeys()`: for every key of
`_GhostMap`, in the order of its iterator, the donor rank
`m_mapGhost2Donor->find(globalID, flag)` with the global ID. A ghost without an
entry in the donor relation fails `cf_assert(flag)`. -/
def donorPairs (x : Ext) (me : Proc) : Except Error (List (Nat × Nat)) :=
  match lookupAll me.m_mapGhost2Donor (mapKeys me.reg._GhostMap) with
  | none => .error .AssertionFailed
  | some donors => .ok (x.sortKeys (donors.zip (mapKeys me.reg._GhostMap)))

/-- The local indices `_GhostMap.find(globalID)->second` of the sorted pairs, each
under `cf_assert(localID < size())`. -/
def ghostSlots (me : Proc) (pairs : List (Nat × Nat)) : Except Error (List Nat) :=
  match lookupAll me.reg._GhostMap (pairs.map Prod.snd) with
  | none => .error .AssertionFailed
  | some ls =>
    if ls.all (fun l => decide (l < size me.reg)) then .ok ls else .error .AssertionFailed

/-- The statement `sendCount[donorID]++`. -/
def bump (count : List Nat) (donorID : Nat) : List Nat :=
  count.set donorID (count.getD donorID 0 + 1)

/-- The local vectors of `BuildGhostMapAllToAll` at the call of `MPI_Alltoall`,
with the new `m_recvLocalIDs`. -/
structure Requests where
  sendCount : List Nat
  sendGhostGlobalIDs : List Nat
  recvLocalIDs : List Nat
deriving DecidableEq, Repr, Inhabited

/-- `BuildGhostMapAllToAll ()` on the process `me` of rank `rank`, up to
`MPI_Alltoall`. A donor rank equal to `_CommRank` fails the `cf_assert`; a donor
rank outside the communicator indexes `sendCount` out of bounds. -/
def a2aRequests (x : Ext) (CommSize rank : Nat) (me : Proc) : Except Error Requests :=
  if me.reg._InitMPIOK = false then .error .AssertionFailed
  else if me.reg._GhostMap.length = 0 then .error .AssertionFailed
  else
    match donorPairs x me with
    | .error e => .error e
    | .ok pairs =>
      if pairs.any (fun dg => decide (dg.1 = rank) || decide (CommSize ≤ dg.1)) then
        .error .AssertionFailed
      else
        match ghostSlots me pairs with
        | .error e => .error e
        | .ok ls =>
          .ok { sendCount := (pairs.map Prod.fst).foldl bump (List.replicate CommSize 0),
                sendGhostGlobalIDs := pairs.map Prod.snd,
                recvLocalIDs := ls }

/-- The result of `MPI_Alltoall` with one entry per rank, on rank `rank`: entry
`i` is what rank `i` holds for `rank`. -/
def alltoall (counts : List (List Nat)) (rank : Nat) : List Nat :=
  counts.map (fun sc => sc.getD rank 0)

/-- The loop that fills the send displacements: `sendDispl[i] = scount;
scount += sendCount[i]`, from `sendDispl[0] = 0`. The sum `scount` is a `CFuint`,
which is taken to have the width of `IndexType`, and wraps. An entry of a
`vector<int>` is kept as its bit pattern: `int` has the width of `unsigned int`,
which `CFuint` is, so the store of `scount` keeps all its bits, and an entry of
`2^(bits-1)` or more is a negative `int`. -/
def sendDisplLoop (c : Config) : Nat → List Nat → List Nat
  | _, [] => []
  | scount, n :: rest => scount :: sendDisplLoop c ((scount + n) % 2 ^ c.bits) rest

/-- The loop that fills the receive displacements from index 1 on:
`if (recvCount[i] > 0) recvDispl[i] = rcount; rcount += recvCount[i]`; an entry
with a zero count keeps what the vector held. The sum `rcount` is a `CFuint` and
wraps, and the entries are kept as for the send displacements. -/
def recvDisplLoop (c : Config) : Nat → List Nat → List Nat → List Nat
  | _, [], _ => []
  | rcount, n :: rest, old =>
    (if 0 < n then rcount else old.headD 0) ::
      recvDisplLoop c ((rcount + n) % 2 ^ c.bits) rest old.tail

/-- The receive displacements: `recvDispl[0] = 0` and `rcount = recvCount[0]`,
then the loop. -/
def recvDispls (c : Config) (old recvCount : List Nat) : List Nat :=
  match recvCount with
  | [] => []
  | n :: rest => 0 :: recvDisplLoop c (n % 2 ^ c.bits) rest old.tail

/-- The value of the `CFuint` sum `scount` (or `rcount`) when the loop over the
counts has ended. -/
def countEnd (c : Config) (count : List Nat) : Nat :=
  count.foldl (fun scount n => (scount + n) % 2 ^ c.bits) 0

/-- The arguments of one process in a call of `MPI_Alltoallv`. -/
structure Exchange (α : Type) where
  sendBuf : List α
  sendCount : List Nat
  sendDispl : List Nat
  recvCount : List Nat
  recvDispl : List Nat
  recvBuf : List α
deriving DecidableEq, Repr, Inhabited

/-- The entries `displ .. displ+count-1` of a buffer. -/
def segment {α : Type} (buf : List α) (displ count : Nat) : List α :=
  (buf.drop displ).take count

/-- The rules of `MPI_Alltoallv` for the arguments of all processes: every vector
of counts and displacements has one entry per rank; what rank `i` sends to rank
`j` lies inside the send buffer of `i` and has the length rank `j` expects from
`i`; what rank `j` receives lies inside its receive buffer, and no two non-empty
receive segments overlap. -/
def alltoallvOk {α : Type} (xs : List (Exchange α)) : Bool :=
  xs.all (fun a =>
    decide (a.sendCount.length = xs.length) && decide (a.sendDispl.length = xs.length)
      && decide (a.recvCount.length = xs.length) && decide (a.recvDispl.length = xs.length)
      && (a.sendDispl.zip a.sendCount).all (fun dn =>
            decide (dn.2 = 0) || decide (dn.1 + dn.2 ≤ a.sendBuf.length))
      && (a.recvDispl.zip a.recvCount).all (fun dn =>
            decide (dn.2 = 0) || decide (dn.1 + dn.2 ≤ a.recvBuf.length))
      && decide ((a.recvDispl.zip a.recvCount).Pairwise (fun s t =>
            s.2 = 0 ∨ t.2 = 0 ∨ s.1 + s.2 ≤ t.1 ∨ t.1 + t.2 ≤ s.1)))
  && xs.enum.all (fun ia => xs.enum.all (fun jb =>
      decide (ia.2.sendCount.getD jb.1 0 = jb.2.recvCount.getD ia.1 0)))

/-- The messages that reach rank `rank` in `MPI_Alltoallv`, each with the
displacement at which it is received. -/
def incoming {α : Type} (xs : List (Exchange α)) (rank : Nat) (me : Exchange α) :
    List (Nat × List α) :=
  xs.enum.map (fun ia =>
    (me.recvDispl.getD ia.1 0,
      segment ia.2.sendBuf (ia.2.sendDispl.getD rank 0) (ia.2.sendCount.getD rank 0)))

/-- The entry `pos` of a receive buffer after `MPI_Alltoallv`: the entry of the
message whose segment covers `pos`, or what the buffer held. -/
def recvAt {α : Type} (dflt : α) (msgs : List (Nat × List α)) (old : List α) (pos : Nat) : α :=
  match msgs.find? (fun dm => decide (dm.1 ≤ pos) && decide (pos < dm.1 + dm.2.length)) with
  | some dm => dm.2.getD (pos - dm.1) dflt
  | none => old.getD pos dflt

/-- The receive buffers after `MPI_Alltoallv`, one per rank; `none` for a call
that breaks the rules of `MPI_Alltoallv`. -/
def alltoallv {α : Type} (dflt : α) (xs : List (Exchange α)) : Option (List (List α)) :=
  if alltoallvOk xs then
    some (xs.enum.map (fun jb =>
      (List.range jb.2.recvBuf.length).map (recvAt dflt (incoming xs jb.1 jb.2) jb.2.recvBuf)))
  else none

/-- The counts and the displacements that `MPI_Alltoallv` takes are `int`, and an
entry of `2^(bits-1)` or more is a negative `int`: a negative count breaks the
rules of the call, and with a negative displacement a segment that is not empty
lies outside the buffer. -/
def intArgsOk {α : Type} (c : Config) (a : Exchange α) : Bool :=
  (a.sendDispl.zip a.sendCount).all (fun dn =>
      decide (dn.2 < 2 ^ (c.bits - 1))
        && (decide (dn.2 = 0) || decide (dn.1 < 2 ^ (c.bits - 1))))
    && (a.recvDispl.zip a.recvCount).all (fun dn =>
      decide (dn.2 < 2 ^ (c.bits - 1))
        && (decide (dn.2 = 0) || decide (dn.1 < 2 ^ (c.bits - 1))))

/-- The call `MPI_Alltoallv (...)` with its `int` arguments: the receive buffers,
one per rank; `none` for a call that breaks the rules. -/
def MPI_Alltoallv {α : Type} (c : Config) (dflt : α) (xs : List (Exchange α)) :
    Option (List (List α)) :=
  if xs.all (intArgsOk c) then alltoallv dflt xs else none

/-- The part of `BuildGhostMapAllToAll ()` between `MPI_Alltoall` and
`MPI_Alltoallv`: the displacements, `cf_assert(recvCount[_CommRank] == 0)` and
`cf_assert(scount == m_recvLocalIDs.size())`, and the vector
`recvGhostGlobalIDs(rcount)`. The last check, `cf_assert(rcount ==
std::accumulate(recvCount.begin(), recvCount.end(), 0))`, compares two sums of the
same entries taken modulo `2^bits`, and holds. -/
def a2aExchange (c : Config) (rank : Nat) (rq : Requests) (recvCount : List Nat) :
    Except Error (Exchange Nat) :=
  if recvCount.getD rank 0 ≠ 0 then .error .AssertionFailed
  else if countEnd c rq.sendCount ≠ rq.recvLocalIDs.length then .error .AssertionFailed
  else
    .ok { sendBuf := rq.sendGhostGlobalIDs, sendCount := rq.sendCount,
          sendDispl := sendDisplLoop c 0 rq.sendCount,
          recvCount := recvCount,
          recvDispl := recvDispls c (List.replicate recvCount.length 0) recvCount,
          recvBuf := List.replicate (countEnd c recvCount) 0 }

/-- The statement `localGhostID = GlobalToLocal(globalGhostID)` followed by
`cf_assert(localGhostID < size())`. -/
def resolve (me : Proc) (globalGhostID : Nat) : Except Error Nat :=
  match GlobalToLocal me.reg globalGhostID with
  | .error e => .error e
  | .ok l => if l < size me.reg then .ok l else .error .AssertionFailed

/-- The end of `BuildGhostMapAllToAll ()`, after `MPI_Alltoallv`: the local
indices to send, and the counts and displacements in units of `T`. -/
def a2aFinish (x : Ext) (me : Proc) (rq : Requests) (ex : Exchange Nat)
    (recvGhostGlobalIDs : List Nat) : Except Error Proc :=
  match sequenceE (recvGhostGlobalIDs.map (resolve me)) with
  | .error e => .error e
  | .ok sendLocalIDs =>
    .ok { me with
      m_sendLocalIDs := sendLocalIDs,
      m_recvLocalIDs := rq.recvLocalIDs,
      m_sendCount := ex.recvCount.map (fun n => n * elemsize x me.reg),
      m_sendDispl := ex.recvDispl.map (fun n => n * elemsize x me.reg),
      m_recvCount := ex.sendCount.map (fun n => n * elemsize x me.reg),
      m_recvDispl := ex.sendDispl.map (fun n => n * elemsize x me.reg) }

/-- `BuildGhostMapAllToAll ()` run by every process of the communicator: for each
rank, the process with its new pattern, or what it raised. A process that raises
before a collective call leaves the others waiting in it; a call of
`MPI_Alltoallv` that breaks its rules is an error on every process. -/
def BuildGhostMapAllToAll (c : Config) (x : Ext) (procs : List Proc) :
    List (Except Error Proc) :=
  let r1 := procs.enum.map (fun rp => a2aRequests x procs.length rp.1 rp.2)
  match allOk r1 with
  | none => blocked r1
  | some rqs =>
    let r2 := rqs.enum.map (fun rq =>
      a2aExchange c rq.1 rq.2 (alltoall (rqs.map Requests.sendCount) rq.1))
    match allOk r2 with
    | none => blocked r2
    | some exs =>
      match MPI_Alltoallv c 0 exs with
      | none => procs.map (fun _ => .error .AssertionFailed)
      | some bufs =>
        procs.enum.map (fun rp =>
          a2aFinish x rp.2 (rqs.getD rp.1 default) (exs.getD rp.1 default) (bufs.getD rp.1 []))

/-- The values a process copies into `m_sendBuf`: for every local index of the
list, the `elemsize` values of its slot in `m_data->ptr()`. A read beyond the
payload array reads 0. -/
def gather (e : Nat) (data : List Int) (ids : List Nat) : List Int :=
  ids.flatMap (fun l => (List.range e).map (fun k => data.getD (l * e + k) 0))

/-- The positions `startLocalID+e` of `m_data->ptr()` that the loops of
`synchronize` visit, in their order. -/
def positions (e : Nat) (ids : List Nat) : List Nat :=
  ids.flatMap (fun l => (List.range e).map (fun k => l * e + k))

/-- The loop `m_data->ptr()[localID] = m_recvBuf[rcounter]` of `synchronize`. -/
def scatter (e : Nat) (data : List Int) (ids : List Nat) (buf : List Int) : List Int :=
  ((positions e ids).zip buf).foldl (fun d w => d.set w.1 w.2) data

/-- The call `v.resize(n)` on a vector of payload values. -/
def resize (v : List Int) (n : Nat) : List Int :=
  v.take n ++ List.replicate (n - v.length) 0

/-- The arguments one process passes to `MPI_Alltoallv` in `synchronize ()`:
`m_sendBuf` holds the gathered values, `m_recvBuf` has been resized. -/
def syncExchange (x : Ext) (me : Proc) : Exchange Int :=
  { sendBuf := gather (elemsize x me.reg) me.data me.m_sendLocalIDs,
    sendCount := me.m_sendCount, sendDispl := me.m_sendDispl,
    recvCount := me.m_recvCount, recvDispl := me.m_recvDispl,
    recvBuf := resize me.m_recvBuf (me.m_recvLocalIDs.length * elemsize x me.reg) }

/-- `synchronize ()` on one process, up to `MPI_Alltoallv`: the two `cf_assert`
on the sizes of the buffers, and `cf_assert(localID < totalSize)` in the loop
that copies the values to send into `m_sendBuf`. -/
def syncGather (x : Ext) (me : Proc) : Except Error (Exchange Int) :=
  if me.m_sendLocalIDs.length * elemsize x me.reg = 0 then .error .AssertionFailed
  else if me.m_recvLocalIDs.length * elemsize x me.reg = 0 then .error .AssertionFailed
  else if (positions (elemsize x me.reg) me.m_sendLocalIDs).all
      (fun p => decide (p < size me.reg * elemsize x me.reg)) then
    .ok (syncExchange x me)
  else .error .AssertionFailed

/-- The process after `synchronize ()`, given what `MPI_Alltoallv` has put into
`m_recvBuf`: the received values are copied into the slots of `m_recvLocalIDs`. -/
def syncResult (x : Ext) (me : Proc) (recvBuf : List Int) : Proc :=
  { me with
    m_sendBuf := gather (elemsize x me.reg) me.data me.m_sendLocalIDs,
    m_recvBuf := recvBuf,
    data := scatter (elemsize x me.reg) me.data me.m_recvLocalIDs recvBuf }

/-- `synchronize ()` on one process, after `MPI_Alltoallv`, with
`cf_assert(localID < totalSize)` in the loop over `m_recvLocalIDs`. -/
def syncScatter (x : Ext) (me : Proc) (recvBuf : List Int) : Except Error Proc :=
  if (positions (elemsize x me.reg) me.m_recvLocalIDs).all
      (fun p => decide (p < size me.reg * elemsize x me.reg)) then
    .ok (syncResult x me recvBuf)
  else .error .AssertionFailed

/-- `synchronize ()` run by every process of the communicator: for each rank, the
process with its new payload and buffers, or what it raised. -/
def synchronize (c : Config) (x : Ext) (procs : List Proc) : List (Except Error Proc) :=
  if procs.length ≤ 1 then procs.map .ok
  else
    match allOk (procs.map (syncGather x)) with
    | none => blocked (procs.map (syncGather x))
    | some exs =>
      match MPI_Alltoallv c 0 exs with
      | none => procs.map (fun _ => .error .AssertionFailed)
      | some bufs => procs.enum.map (fun rp => syncScatter x rp.2 (bufs.getD rp.1 []))

/-- A collective call made by the processes that have returned from an earlier
one. A process that raised in the earlier call does not go on, and the others
wait for it for ever. -/
def andThen (r : List (Except Error Proc)) (f : List Proc → List (Except Error Proc)) :
    List (Except Error Proc) :=
  match allOk r with
  | some ps => f ps
  | none => blocked r

/-- The value of the last write to position `pos` in a sequence of writes
(position, value). -/
def lastWrite : List (Nat × Int) → Nat → Option Int
  | [], _ => none
  | w :: rest, pos =>
    match lastWrite rest pos with
    | some v => some v
    | none => if w.1 = pos then some w.2 else none

/-- What `BuildGhostMapBcast` accumulates over the rounds: `m_sendCount` and the
local vectors `sendLocalIDs` and `recvLocalIDs`. -/
structure BcastAcc where
  m_sendCount : List Nat
  sendLocalIDs : List Nat
  recvLocalIDs : List Nat
deriving DecidableEq, Repr, Inhabited

/-- The call `v.resize(n, 0)` on a vector of counts. -/
def resizeN (v : List Nat) (n : Nat) : List Nat :=
  v.take n ++ List.replicate (n - v.length) 0

/-- `BuildGhostMapBcast ()` on one process, up to `MPI_Allreduce`. -/
def bcastStart (CommSize : Nat) (me : Proc) : Except Error BcastAcc :=
  if me.reg._InitMPIOK = false then .error .AssertionFailed
  else if me.reg._GhostMap.length = 0 then .error .AssertionFailed
  else .ok { m_sendCount := resizeN me.m_sendCount CommSize, sendLocalIDs := [],
             recvLocalIDs := [] }

/-- The round of `BuildGhostMapBcast ()` in which the process is the root: the
sorted pairs (donor rank, global ID) it broadcasts, and the local indices it
appends to `recvLocalIDs`. The buffer `gGlobalDonorIDs` carries the number of
entries and then, pair by pair, the global ID and the donor rank; the embedding
hands over the list of pairs. -/
def bcastMessage (x : Ext) (me : Proc) : Except Error (List (Nat × Nat) × List Nat) :=
  match donorPairs x me with
  | .error e => .error e
  | .ok pairs =>
    match ghostSlots me pairs with
    | .error e => .error e
    | .ok ls => .ok (pairs, ls)

/-- The loop of `BuildGhostMapBcast ()` over the pairs of the root, on a process
of rank `rank` other than the root: for every pair that names `rank` as donor,
`m_sendCount[root] += elemsize` and the local index of the global ID is appended
to `sendLocalIDs`. -/
def bcastScan (x : Ext) (rank root : Nat) (me : Proc) :
    BcastAcc → List (Nat × Nat) → Except Error BcastAcc
  | acc, [] => .ok acc
  | acc, dg :: rest =>
    if dg.1 = rank then
      match resolve me dg.2 with
      | .error e => .error e
      | .ok l =>
        bcastScan x rank root me
          { acc with
            m_sendCount :=
              acc.m_sendCount.set root (acc.m_sendCount.getD root 0 + elemsize x me.reg),
            sendLocalIDs := acc.sendLocalIDs ++ [l] } rest
    else bcastScan x rank root me acc rest

/-- One round of `BuildGhostMapBcast ()` on every process. A process that has
raised stays as it is; when the root has raised or left, the others wait in
`MPI_Bcast` for ever. -/
def bcastRound (x : Ext) (procs : List Proc) (states : List (Except Error BcastAcc))
    (root : Nat) : List (Except Error BcastAcc) :=
  let msg : Except Error (List (Nat × Nat) × List Nat) :=
    match procs[root]?, (states[root]? : Option (Except Error BcastAcc)) with
    | some p, some (Except.ok _) => bcastMessage x p
    | _, _ => .error .NoTermination
  procs.enum.map (fun rp =>
    match (states[rp.1]? : Option (Except Error BcastAcc)) with
    | some (Except.ok acc) =>
      if rp.1 = root then
        match msg with
        | .ok m => .ok { acc with recvLocalIDs := acc.recvLocalIDs ++ m.2 }
        | .error e => .error e
      else
        match msg with
        | .ok m => bcastScan x rp.1 root rp.2 acc m.1
        | .error _ => .error .NoTermination
    | some (Except.error e) => .error e
    | none => .error .NoTermination)

/-- The end of `BuildGhostMapBcast ()`, after `MPI_Alltoall`: the displacements
and the two `cf_assert` on the sizes of the lists. -/
def bcastFinish (c : Config) (x : Ext) (me : Proc) (acc : BcastAcc)
    (recvCount : List Nat) : Except Error Proc :=
  if acc.sendLocalIDs.length * elemsize x me.reg ≠ acc.m_sendCount.sum then
    .error .AssertionFailed
  else if acc.recvLocalIDs.length * elemsize x me.reg ≠ recvCount.sum then
    .error .AssertionFailed
  else
    .ok { me with
      m_sendLocalIDs := acc.sendLocalIDs,
      m_recvLocalIDs := acc.recvLocalIDs,
      m_sendCount := acc.m_sendCount,
      m_recvCount := recvCount,
      m_sendDispl := sendDisplLoop c 0 acc.m_sendCount,
      m_recvDispl := recvDispls c (resizeN me.m_recvDispl recvCount.length) recvCount }

/-- `BuildGhostMapBcast ()` run by every process of the communicator: for each
rank, the process with its new pattern, or what it raised. A process that raises
before a collective call leaves the others waiting in it. -/
def BuildGhostMapBcast (c : Config) (x : Ext) (procs : List Proc) :
    List (Except Error Proc) :=
  let r0 := procs.map (bcastStart procs.length)
  match allOk r0 with
  | none => blocked r0
  | some _ =>
    let r1 := (List.range procs.length).foldl (bcastRound x procs) r0
    match allOk r1 with
    | none => blocked r1
    | some accs =>
      procs.enum.map (fun rp =>
        bcastFinish c x rp.2 (accs.getD rp.1 default)
          (alltoall (accs.map BcastAcc.m_sendCount) rp.1))

/-- The method `BuildGhostMap (algo)` run by every process of the communicator
with the same argument. -/
def BuildGhostMap (c : Config) (x : Ext) (algo : String) (procs : List Proc) :
    List (Except Error Proc) :=
  if algo = "Old" then BuildGhostMapOld c procs
  else if algo = "Bcast" then
    if 1 < procs.length then BuildGhostMapBcast c x procs else procs.map .ok
  else if algo = "AllToAll" then
    if 1 < procs.length then BuildGhostMapAllToAll c x procs else procs.map .ok
  else procs.map (fun _ => .error .AssertionFailed)

/-- The three-process scenario in which a donor relation names a process that
holds the global ID as a ghost, rank 0: it owns 5 and has the ghosts 6 (donor 1)
and 7 (donor 2). -/
def chain0 : Proc :=
  mkProc cfg32 8 [.AddLocalPoint 5, .AddGhostPoint 6, .AddGhostPoint 7] [(6, 1), (7, 2)]
    [100, 0, 0]

/-- The three-process scenario, rank 1: it owns 6 and has the ghost 5 (donor 0). -/
def chain1 : Proc :=
  mkProc cfg32 8 [.AddLocalPoint 6, .AddGhostPoint 5] [(5, 0)] [200, 0, 0]

/-- The three-process scenario, rank 2: it owns 7 and has the ghost 5, for which
the donor relation names rank 1. -/
def chain2 : Proc :=
  mkProc cfg32 8 [.AddLocalPoint 7, .AddGhostPoint 5] [(5, 1)] [300, 0, 0]

/-- The scenario of a ghost without owner, rank 0: it owns the global ID 0 and
has the ghost 9, which no process owns; the donor relation names rank 1. -/
def lost0 : Proc := mkProc cfg32 8 [.AddLocalPoint 0, .AddGhostPoint 9] [(9, 1)] [10, 0, 0]

/-- The scenario of a ghost without owner, rank 1: it owns the global ID 3 and
has the ghost 0, owned by rank 0. -/
def lost1 : Proc := mkProc cfg32 8 [.AddLocalPoint 3, .AddGhostPoint 0] [(0, 0)] [40, 0, 0]

/-- The arguments of rank `ia.1` in a call of `MPI_Alltoallv`, with the receive
buffer holding what the call delivers. -/
def refill {α : Type} (dflt : α) (xs : List (Exchange α)) (ia : Nat × Exchange α) :
    Exchange α :=
  { ia.2 with
    recvBuf := (List.range ia.2.recvBuf.length).map
      (recvAt dflt (incoming xs ia.1 ia.2) ia.2.recvBuf) }

/-- The processes that have returned from a collective call. -/
def completed (r : List (Except Error Proc)) : List Proc :=
  r.filterMap (fun q => match q with
    | .ok p => some p
    | .error _ => none)

/-- The two-process scenario with a ghost on either side, process 1: it owns the
global IDs 3, 4, 5 with the values 40, 50, 60 and registers a ghost for the
global ID 0, with donor rank 0. -/
def scenario1g : Proc :=
  mkProc cfg32 8 [.AddLocalPoint 3, .AddLocalPoint 4, .AddLocalPoint 5, .AddGhostPoint 0]
    [(0, 0)] [40, 50, 60, 0, 0, 0, 0]

/-- The method `HasCGlobal ()`. -/
def HasCGlobal (s : State) : Bool := s._CGlobalValid

/-- The method `InvalidateCGlobal ()`. -/
def InvalidateCGlobal (s : State) : State := { s with _CGlobalValid := false, _CGlobal := [] }

/-- The method `FreeCGlobal ()`. -/
def FreeCGlobal (s : State) : State := if s._CGlobalValid then InvalidateCGlobal s else s

/-- The method `LocalToCGlobal (LocalID)`, with its two `cf_assert`. -/
def LocalToCGlobal (s : State) (LocalID : Nat) : Except Error Nat :=
  if s._CGlobalValid = false then .error .AssertionFailed
  else if ¬ LocalID < s._CGlobal.length then .error .AssertionFailed
  else .ok (s._CGlobal.getD LocalID 0)

/-- The result of `MPI_Scan (&LocalOwned, &StartID, 1, ..., MPI_SUM, ...)` on the
process of rank `rank`: the sum of `GetLocalSize()` over the ranks up to and
including `rank`, in the unsigned type `CFuint`, which is taken to have the width
of `IndexType`. -/
def mpiScan (c : Config) (procs : List Proc) (rank : Nat) : Nat :=
  ((procs.take (rank + 1)).map (fun p => GetLocalSize p.reg)).sum % 2 ^ c.bits

/-- The loop of `BuildCGlobalLocal` over the slots of the list, on `StartID`,
`_CGlobal` and `Ghosts`: a ghost slot is appended to `Ghosts`, any other slot
takes `StartID`, which is then incremented. -/
def cglobalLoop (c : Config) (s : State) : List Nat → Nat → List Nat → List Nat →
    List Nat × List Nat
  | [], _, CGlobal, Ghosts => (CGlobal, Ghosts)
  | i :: rest, StartID, CGlobal, Ghosts =>
    if IsGhost c s i then cglobalLoop c s rest StartID CGlobal (Ghosts ++ [i])
    else cglobalLoop c s rest ((StartID + 1) % 2 ^ c.bits) (CGlobal.set i StartID) Ghosts

/-- The method `BuildCGlobalLocal (Ghosts)`, given the result `scan` of `MPI_Scan`:
the state with `_CGlobal` filled for the slots that are not ghosts, and `Ghosts`.
The statement `StartID -= LocalOwned` is a subtraction of unsigned values. -/
def BuildCGlobalLocal (c : Config) (scan : Nat) (s : State) : State × List Nat :=
  let StartID := (scan + 2 ^ c.bits - GetLocalSize s % 2 ^ c.bits) % 2 ^ c.bits
  let r := cglobalLoop c s (List.range (size s)) StartID (resizeN s._CGlobal (size s)) []
  ({ s with _CGlobal := r.1 }, r.2)

/-- What a process holds when it enters the ring of `BuildCGlobal`: the registry
with its index and the continuous IDs of its own points, the vector `Ghosts`, and
the entries `SendBuf[1 ..]` (the entry `SendBuf[0]` is their number). -/
structure CGlobalStart where
  reg : State
  Ghosts : List Nat
  SendBuf : List Nat
deriving DecidableEq, Repr

/-- The method `BuildCGlobal ()` on the process `me` of rank `rank`, up to the
ring. Without `InitMPI` the communicator is not set, and the embedding lets the
first collective call fail. -/
def cglobalStart (c : Config) (procs : List Proc) (rank : Nat) (me : Proc) :
    Except Error CGlobalStart :=
  if me.reg._InitMPIOK = false then .error .AssertionFailed
  else
    match (if me.reg._IsIndexed then Except.ok me.reg else CreateIndex c me.reg) with
    | .error e => .error e
    | .ok s1 =>
      let r := BuildCGlobalLocal c (mpiScan c procs rank) s1
      if r.2.length ≠ GetGhostSize r.1 then .error .AssertionFailed
      else
        .ok { reg := r.1, Ghosts := r.2,
              SendBuf := r.2.map (fun i => SetFlag (LocalToGlobal c r.1 i) (_FLAG_GHOST c)) }

/-- The body of the loop over the received entries in `BuildCGlobal`, on the
process of rank `rank`: the new value of `ReceiveBuf[CurID]`. The read
`_CGlobal[LocalID]` is not guarded: for a local index outside the vector it
returns what the memory holds there. -/
def cglobalTranslate (c : Config) (rank : Nat) (s : State) (CurVal : Nat) : Except Error Nat :=
  if IsFlagSet CurVal (_FLAG_GHOST c) = false then .ok CurVal
  else
    match FindLocal c s (NormalIndex c CurVal) with
    | .error e => .error e
    | .ok LocalID =>
      if LocalID = _NOT_FOUND c then .ok CurVal
      else if IsGhost c s LocalID then .error .AssertionFailed
      else .ok (s._CGlobal.getD LocalID (c.beyond rank LocalID))

/-- What the process of rank `rank` does with the buffer it receives in one round
of the ring: `cf_assert (EleCount <= MaxGhostSize)` and the loop over the
entries. -/
def cglobalProcess (c : Config) (MaxGhostSize : Nat) (rank : Nat) (s : State)
    (ReceiveBuf : List Nat) : Except Error (List Nat) :=
  if MaxGhostSize < ReceiveBuf.length then .error .AssertionFailed
  else sequenceE (ReceiveBuf.map (cglobalTranslate c rank s))

/-- One round of the ring of `BuildCGlobal ()` on every process: each process
receives the buffer of the rank before it (the last rank for rank 0), works on
it, and keeps it as its next `SendBuf`. A process that has raised stays as it is,
and the process after it waits for its message for ever. -/
def cglobalRound (c : Config) (MaxGhostSize : Nat) (regs : List State)
    (bufs : List (Except Error (List Nat))) (_Round : Nat) : List (Except Error (List Nat)) :=
  regs.enum.map (fun rs =>
    match (bufs[rs.1]? : Option (Except Error (List Nat))) with
    | some (Except.ok _) =>
      match (bufs[if rs.1 = 0 then regs.length - 1 else rs.1 - 1]? :
          Option (Except Error (List Nat))) with
      | some (Except.ok ReceiveBuf) => cglobalProcess c MaxGhostSize rs.1 rs.2 ReceiveBuf
      | _ => .error .NoTermination
    | some (Except.error e) => .error e
    | none => .error .NoTermination)

/-- The `_CommSize` rounds of the ring of `BuildCGlobal ()`: for every rank the
entries of `SendBuf` it holds in the end, or what it raised. -/
def cglobalRing (c : Config) (MaxGhostSize : Nat) (starts : List CGlobalStart) :
    List (Except Error (List Nat)) :=
  (List.range starts.length).foldl
    (cglobalRound c MaxGhostSize (starts.map CGlobalStart.reg))
    (starts.map (fun t => Except.ok t.SendBuf))

/-- The end of `BuildCGlobal ()`, after the ring: the `cf_assert` on the number
of entries, and the loop that stores the entries under `cf_assert
(!IsFlagSet (SendBuf[i+1], _FLAG_GHOST))`. -/
def cglobalFinish (c : Config) (st : CGlobalStart) (SendBuf : List Nat) : Except Error State :=
  if SendBuf.length ≠ GetGhostSize st.reg then .error .AssertionFailed
  else if st.Ghosts.length ≠ GetGhostSize st.reg then .error .AssertionFailed
  else if SendBuf.any (fun v => IsFlagSet v (_FLAG_GHOST c)) then .error .AssertionFailed
  else
    .ok { st.reg with
      _CGlobal := (st.Ghosts.zip SendBuf).foldl (fun cg w => cg.set w.1 w.2) st.reg._CGlobal,
      _CGlobalValid := true }

/-- The method `BuildCGlobal ()` run by every process of the communicator: for
each rank, the process with its continuous IDs, or what it raised. A process that
raises before the ring leaves the others waiting in it. -/
def BuildCGlobal (c : Config) (procs : List Proc) : List (Except Error Proc) :=
  let r0 := procs.enum.map (fun rp => cglobalStart c procs rp.1 rp.2)
  match allOk r0 with
  | none => blocked r0
  | some starts =>
    procs.enum.map (fun rp =>
      match starts[rp.1]?, ((cglobalRing c (maxGhostSize procs) starts)[rp.1]? :
          Option (Except Error (List Nat))) with
      | some st, some (Except.ok SendBuf) =>
        match cglobalFinish c st SendBuf with
        | .ok s => .ok { rp.2 with reg := s }
        | .error e => .error e
      | _, some (Except.error e) => .error e
      | _, _ => .error .NoTermination)

/-- The scenario with a ghost registered before an owned point, process 0: it
registers a ghost for the global ID 3 (local index 0) and then owns the global
ID 0 (local index 1). -/
def mixed0 : Proc := mkProc cfg32 8 [.AddGhostPoint 3, .AddLocalPoint 0] [(3, 1)] [0, 10]

/-- The scenario with a ghost registered before an owned point, process 1: it
owns the global ID 3. -/
def mixed1 : Proc := mkProc cfg32 8 [.AddLocalPoint 3] [] [40]

/-- A process right after the registration and `reserve` calls `calls` on a fresh
pattern of element size `ESize`, with donor relation `donors` and payload `data`;
no pattern has been built. -/
def mkProcStore (c : Config) (ESize : Nat) (calls : List StoreCall) (donors : TMap)
    (data : List Int) : Proc :=
  { reg := runStore c (fresh c ESize) calls, m_mapGhost2Donor := donors, data := data,
    _GhostSendList := [], _GhostReceiveList := [], m_sendCount := [], m_recvCount := [],
    m_sendDispl := [], m_recvDispl := [], m_sendLocalIDs := [], m_recvLocalIDs := [],
    m_sendBuf := [], m_recvBuf := [] }

/-- The scenario of a store with spare slots, process 0: after `reserve(4)` it
owns the global IDs 0, 1, 2 and registers a ghost for the global ID 4, with donor
rank 1; its store is full. -/
def spare0 : Proc :=
  mkProcStore cfg32 8
    [.reserve 4 8, .add (.AddLocalPoint 0), .add (.AddLocalPoint 1), .add (.AddLocalPoint 2),
      .add (.AddGhostPoint 4)] [(4, 1)] [10, 20, 30, 0]

/-- The scenario of a store with spare slots, process 1: after `reserve(7)` it
owns the global IDs 3, 4, 5 at the local indices 0, 1, 2; the slots 3 .. 6 of its
store are free. -/
def spare1 : Proc :=
  mkProcStore cfg32 8
    [.reserve 7 8, .add (.AddLocalPoint 3), .add (.AddLocalPoint 4), .add (.AddLocalPoint 5)]
    [] [40, 50, 60]

/-- Process 1 of the scenario with spare slots when it has reserved no more than
it uses: after `reserve(3)` it owns the global IDs 3, 4, 5. -/
def exact1 : Proc :=
  mkProcStore cfg32 8
    [.reserve 3 8, .add (.AddLocalPoint 3), .add (.AddLocalPoint 4), .add (.AddLocalPoint 5)]
    [] [40, 50, 60]

/-- The shape of the registry and the store that registration and `reserve` calls
keep once `InitMPI` has run: the store is well formed, the ghost map has
`GetGhostSize()` entries, and the slots below `size()` that carry the ghost flag
are `GetGhostSize()` many. -/
structure Dense (c : Config) (s : State) : Prop where
  wf : WF c s
  init : s._InitMPIOK = true
  ghosts : s._GhostSize = s._GhostMap.length
  counted : (List.range (size s)).countP (IsGhost c s) = s._GhostSize

/-- The free list as the claims speak of it: the slots visited by following the
links stored in `GlobalIndex` from `Current` until `_NO_MORE_FREE` is met; `none`
when `_NO_MORE_FREE` is not met within `fuel` steps. -/
def freeList (c : Config) (md : List Nat) : Nat → Nat → Option (List Nat)
  | 0, _ => none
  | fuel + 1, Current =>
    if Current = _NO_MORE_FREE c then some []
    else (freeList c md fuel (md.getD Current 0)).map (fun l => Current :: l)

theorem flagDeleted_eq (c : Config) (h : 1 ≤ c.bits) : _FLAG_DELETED c = 2 ^ (c.bits - 1) := by
  unfold _FLAG_DELETED
  obtain ⟨k, hk⟩ : ∃ k, c.bits = k + 1 := ⟨c.bits - 1, by omega⟩
  rw [hk, Nat.add_sub_cancel, pow_succ]
  have : 0 < 2 ^ k := Nat.two_pow_pos k
  omega

theorem flagGhost_eq (c : Config) (h : 2 ≤ c.bits) : _FLAG_GHOST c = 2 ^ (c.bits - 2) := by
  unfold _FLAG_GHOST
  rw [flagDeleted_eq c (by omega), Nat.shiftRight_eq_div_pow]
  obtain ⟨k, hk⟩ : ∃ k, c.bits = k + 2 := ⟨c.bits - 2, by omega⟩
  rw [hk]
  have h1 : k + 2 - 1 = k + 1 := by omega
  have h2 : k + 2 - 2 = k := by omega
  rw [h1, h2, pow_succ]
  simp

theorem isFlagSet_iff (x f : Nat) : IsFlagSet x f = true ↔ ∃ i, x.testBit i = true ∧ f.testBit i = true := by
  unfold IsFlagSet
  constructor
  · intro h
    have hne : x &&& f ≠ 0 := by simpa using h
    obtain ⟨i, hi⟩ := Nat.ne_zero_implies_bit_true hne
    exact ⟨i, by simpa [Nat.testBit_land] using hi⟩
  · rintro ⟨i, h1, h2⟩
    have : (x &&& f).testBit i = true := by simp [Nat.testBit_land, h1, h2]
    have hne : x &&& f ≠ 0 := by
      intro h0
      rw [h0] at this
      simp at this
    simpa using hne

theorem isFlagSet_setFlag_ghost (c : Config) (h : 2 ≤ c.bits) (g : Nat) :
    IsFlagSet (SetFlag g (_FLAG_GHOST c)) (_FLAG_GHOST c) = true := by
  rw [isFlagSet_iff]
  refine ⟨c.bits - 2, ?_, ?_⟩
  · simp [SetFlag, Nat.testBit_lor, flagGhost_eq c h, Nat.testBit_two_pow_self]
  · simp [flagGhost_eq c h, Nat.testBit_two_pow_self]

theorem testBit_clearFlag (c : Config) (g f i : Nat) :
    (ClearFlag c g f).testBit i = (g.testBit i && (decide (i < c.bits) ^^ f.testBit i)) := by
  simp [ClearFlag, Nat.testBit_land]

theorem isFlagSet_clearFlag_ghost (c : Config) (h : 2 ≤ c.bits) (g : Nat) :
    IsFlagSet (ClearFlag c g (_FLAG_GHOST c)) (_FLAG_GHOST c) = false := by
  rw [Bool.eq_false_iff]
  intro hset
  rw [isFlagSet_iff] at hset
  obtain ⟨i, h1, h2⟩ := hset
  rw [flagGhost_eq c h, Nat.testBit_two_pow] at h2
  have hi : c.bits - 2 = i := by simpa using h2
  rw [testBit_clearFlag, flagGhost_eq c h, Nat.testBit_two_pow] at h1
  have : i < c.bits := by omega
  simp [hi, this] at h1

theorem testBit_flags (c : Config) (h : 2 ≤ c.bits) (i : Nat) :
    (_FLAG_DELETED c ||| _FLAG_GHOST c).testBit i = (decide (i = c.bits - 1) || decide (i = c.bits - 2)) := by
  rw [Nat.testBit_lor, flagGhost_eq c h, flagDeleted_eq c (by omega), Nat.testBit_two_pow,
    Nat.testBit_two_pow]
  congr 1 <;> simp [eq_comm]

theorem testBit_false_of_lt (x n i : Nat) (hx : x < 2 ^ n) (hi : n ≤ i) : x.testBit i = false := by
  apply Nat.testBit_lt_two_pow
  exact lt_of_lt_of_le hx (Nat.pow_le_pow_right (by norm_num) hi)

theorem normalIndex_of_lt (c : Config) (h : 2 ≤ c.bits) (g : Nat) (hg : g < _FLAG_GHOST c) :
    NormalIndex c g = g := by
  rw [flagGhost_eq c h] at hg
  apply Nat.eq_of_testBit_eq
  intro i
  unfold NormalIndex
  rw [testBit_clearFlag, testBit_flags c h]
  by_cases hi : i < c.bits - 2
  · have h1 : i < c.bits := by omega
    have h2 : ¬ i = c.bits - 1 := by omega
    have h3 : ¬ i = c.bits - 2 := by omega
    simp [h1, h2, h3]
  · rw [testBit_false_of_lt g (c.bits - 2) i hg (by omega)]
    simp

theorem clearFlag_ghost_of_lt (c : Config) (h : 2 ≤ c.bits) (g : Nat) (hg : g < _FLAG_GHOST c) :
    ClearFlag c g (_FLAG_GHOST c) = g := by
  have hg2 := hg
  rw [flagGhost_eq c h] at hg2
  apply Nat.eq_of_testBit_eq
  intro i
  rw [testBit_clearFlag, flagGhost_eq c h, Nat.testBit_two_pow]
  by_cases hi : i < c.bits - 2
  · have h1 : i < c.bits := by omega
    have h3 : ¬ c.bits - 2 = i := by omega
    simp [h1, h3]
  · rw [testBit_false_of_lt g (c.bits - 2) i hg2 (by omega)]
    simp

theorem isFlagSet_flags_of_lt (c : Config) (h : 2 ≤ c.bits) (x : Nat) (hx : x < _FLAG_GHOST c) :
    IsFlagSet (x % 2 ^ c.bits) (_FLAG_DELETED c ||| _FLAG_GHOST c) = false := by
  rw [flagGhost_eq c h] at hx
  have hlt : x < 2 ^ c.bits := lt_of_lt_of_le hx (Nat.pow_le_pow_right (by norm_num) (by omega))
  rw [Nat.mod_eq_of_lt hlt, Bool.eq_false_iff]
  intro hset
  rw [isFlagSet_iff] at hset
  obtain ⟨i, h1, h2⟩ := hset
  rw [testBit_flags c h] at h2
  have hi : c.bits - 2 ≤ i := by
    simp at h2
    omega
  rw [testBit_false_of_lt x (c.bits - 2) i hx hi] at h1
  exact Bool.noConfusion h1

/-! ## Maps -/

theorem mapFind_mapSet (m : TMap) (k v k' : Nat) :
    mapFind (mapSet m k v) k' = if k' = k then some v else mapFind m k' := by
  induction m with
  | nil =>
    by_cases h : k' = k
    · simp [mapSet, mapFind, h]
    · have h' : ¬ k = k' := fun e => h e.symm
      simp [mapSet, mapFind, h, h']
  | cons p rest ih =>
    obtain ⟨a, b⟩ := p
    unfold mapSet
    by_cases h1 : a = k
    · subst h1
      by_cases h : k' = a
      · simp [mapFind, h]
      · have h' : ¬ a = k' := fun e => h e.symm
        simp [mapFind, h, h']
    · by_cases h2 : k < a
      · by_cases h : k' = k
        · simp [mapFind, h, h1, h2]
        · have h' : ¬ k = k' := fun e => h e.symm
          simp [mapFind, h, h', h1, h2]
      · simp only [h1, h2, if_false, mapFind, ih]
        by_cases h : k' = k
        · subst h
          simp [h1]
        · simp [h]

/-! ## The store -/

theorem isFlagSet_flags_iff (c : Config) (h : 2 ≤ c.bits) (x : Nat) (hx : x < 2 ^ c.bits) :
    IsFlagSet x (_FLAG_DELETED c ||| _FLAG_GHOST c) = false ↔ x < _FLAG_GHOST c := by
  constructor
  · intro hf
    rw [flagGhost_eq c h]
    apply Nat.lt_pow_two_of_testBit
    intro i hi
    by_cases hw : c.bits ≤ i
    · exact testBit_false_of_lt x c.bits i hx hw
    · by_contra hb
      have hb' : x.testBit i = true := by simpa using hb
      have : IsFlagSet x (_FLAG_DELETED c ||| _FLAG_GHOST c) = true := by
        rw [isFlagSet_iff]
        refine ⟨i, hb', ?_⟩
        rw [testBit_flags c h]
        have : i = c.bits - 1 ∨ i = c.bits - 2 := by omega
        rcases this with e | e <;> simp [e]
      rw [hf] at this
      exact Bool.noConfusion this
  · intro hlt
    have := isFlagSet_flags_of_lt c h x hlt
    rwa [Nat.mod_eq_of_lt hx] at this

theorem flagGhost_lt (c : Config) (h : 2 ≤ c.bits) : _FLAG_GHOST c < 2 ^ c.bits - 1 := by
  rw [flagGhost_eq c h]
  obtain ⟨k, hk⟩ : ∃ k, c.bits = k + 2 := ⟨c.bits - 2, by omega⟩
  have h2 : k + 2 - 2 = k := by omega
  rw [hk, h2, pow_succ, pow_succ]
  have : 0 < 2 ^ k := Nat.two_pow_pos k
  omega

theorem getD_set (md : List Nat) (i j v : Nat) :
    (md.set i v).getD j 0 = if i = j ∧ i < md.length then v else md.getD j 0 := by
  simp only [List.getD_eq_getElem?_getD, List.getElem?_set]
  by_cases h : i = j
  · subst h
    by_cases h2 : i < md.length
    · simp [h2]
    · have : md[i]? = none := List.getElem?_eq_none (by omega)
      simp [h2, this]
  · simp [h]

theorem linkNew_length (md : List Nat) (n i : Nat) : (linkNew md n i).length = md.length := by
  induction n generalizing md i with
  | zero => rfl
  | succ n ih => simp [linkNew, ih]

theorem linkNew_getD (md : List Nat) (n i j : Nat) :
    (linkNew md n i).getD j 0 =
      if i ≤ j ∧ j < i + n ∧ j < md.length then j + 1 else md.getD j 0 := by
  induction n generalizing md i with
  | zero =>
    have : ¬ (i ≤ j ∧ j < i + 0 ∧ j < md.length) := by omega
    rw [if_neg this]
    rfl
  | succ n ih =>
    rw [linkNew, ih, getD_set, List.length_set]
    by_cases h1 : i = j
    · subst h1
      by_cases h2 : i < md.length
      · have : ¬ (i + 1 ≤ i) := by omega
        simp [h2, this]
      · have : ¬ (i + 1 ≤ i) := by omega
        simp [h2, this]
    · by_cases h3 : i + 1 ≤ j ∧ j < i + 1 + n ∧ j < md.length
      · have : i ≤ j ∧ j < i + (n + 1) ∧ j < md.length := by omega
        simp [h3, this]
      · have : ¬ (i ≤ j ∧ j < i + (n + 1) ∧ j < md.length) := by omega
        simp [h3, this, h1]

theorem getD_append_replicate (md : List Nat) (k j : Nat) :
    (md ++ List.replicate k 0).getD j 0 = md.getD j 0 := by
  simp only [List.getD_eq_getElem?_getD, List.getElem?_append]
  by_cases h : j < md.length
  · simp [h]
  · have : md[j]? = none := List.getElem?_eq_none (by omega)
    simp [h, this, List.getElem?_replicate]
    split <;> simp

/-- The method `grow()` on a store whose free list is empty: the new slots become the free
list. -/
theorem grow_full (c : Config) (s : State) (hnext : s._NextFree = _NO_MORE_FREE c)
    (hgrow : s._MetaData.length < c.growTo s._MetaData.length) :
    ∃ md, grow c s 0 = .ok { s with _MetaData := md, _NextFree := s._MetaData.length } ∧
      md.length = c.growTo s._MetaData.length ∧
      (∀ j, j < s._MetaData.length → md.getD j 0 = s._MetaData.getD j 0) ∧
      (∀ j, s._MetaData.length ≤ j → j + 1 < md.length → md.getD j 0 = j + 1) ∧
      md.getD (md.length - 1) 0 = _NO_MORE_FREE c := by
  refine ⟨(linkNew (s._MetaData ++ List.replicate (c.growTo s._MetaData.length - s._MetaData.length) 0)
      (c.growTo s._MetaData.length - 1 - s._MetaData.length) s._MetaData.length).set
        (c.growTo s._MetaData.length - 1) (_NO_MORE_FREE c), ?_, ?_, ?_, ?_, ?_⟩
  · unfold grow
    simp [hgrow, hnext, walkFree]
  · simp [linkNew_length]
    omega
  · intro j hj
    rw [getD_set, linkNew_getD, getD_append_replicate]
    split
    · omega
    · split
      · omega
      · rfl
  · intro j hj hj2
    simp only [List.length_set, linkNew_length, List.length_append, List.length_replicate] at hj2
    rw [getD_set, linkNew_getD]
    simp only [List.length_append, List.length_replicate, linkNew_length]
    split
    · omega
    · split
      · rfl
      · omega
  · simp only [List.length_set, linkNew_length, List.length_append, List.length_replicate]
    rw [getD_set]
    simp only [linkNew_length, List.length_append, List.length_replicate]
    split
    · rfl
    · omega

/-! ## Allocation and registration -/

theorem size_succ_lt (c : Config) (s : State) (hc : GrowOk c) (hwf : WF c s)
    (hne : IsFlagSet ((size s + 1) % 2 ^ c.bits) (_FLAG_DELETED c ||| _FLAG_GHOST c) = false) :
    size s + 1 < _FLAG_GHOST c := by
  have h1 := flagGhost_lt c hc.1
  have h2 := hwf.size_lt
  have hlt : size s + 1 < 2 ^ c.bits := by omega
  rw [Nat.mod_eq_of_lt hlt] at hne
  exact (isFlagSet_flags_iff c hc.1 _ hlt).1 hne

theorem allocNext_exhausted (c : Config) (s : State)
    (hex : IsFlagSet ((size s + 1) % 2 ^ c.bits) (_FLAG_DELETED c ||| _FLAG_GHOST c) = true) :
    AllocNext c s = .ok (_NO_MORE_FREE c, s) := by
  unfold AllocNext
  rw [if_pos hex]

theorem allocNext_ok (c : Config) (s : State) (hc : GrowOk c) (hwf : WF c s)
    (hne : IsFlagSet ((size s + 1) % 2 ^ c.bits) (_FLAG_DELETED c ||| _FLAG_GHOST c) = false) :
    ∃ md, AllocNext c s = .ok (size s, { s with
        _MetaData := md
        _NextFree := if size s + 1 < md.length then size s + 1 else _NO_MORE_FREE c }) ∧
      size s < md.length ∧ md.length < 2 ^ c.bits ∧
      (∀ j, j < size s → md.getD j 0 = metaAt s j) ∧
      (∀ j, size s + 1 ≤ j → j + 1 < md.length → md.getD j 0 = j + 1) ∧
      (size s + 1 < md.length → md.getD (md.length - 1) 0 = _NO_MORE_FREE c) := by
  have hfg := flagGhost_lt c hc.1
  have hsz := hwf.size_lt
  have hsne : size s ≠ _NO_MORE_FREE c := by unfold _NO_MORE_FREE; omega
  by_cases hfree : size s < s._MetaData.length
  · have hnext : s._NextFree = size s := by rw [hwf.next, if_pos hfree]
    refine ⟨s._MetaData, ?_, hfree, hwf.cap_lt, fun j _ => rfl, ?_, ?_⟩
    · have hval : s._MetaData.getD (size s) 0 =
          if size s + 1 < s._MetaData.length then size s + 1 else _NO_MORE_FREE c := by
        by_cases h1 : size s + 1 < s._MetaData.length
        · rw [if_pos h1]
          exact hwf.link (size s) (le_refl _) h1
        · rw [if_neg h1]
          have h2 : s._MetaData.length - 1 = size s := by omega
          have := hwf.last hfree
          rwa [h2] at this
      unfold AllocNext
      simp only [hne, hnext, hsne, if_false, Bool.false_eq_true, hval]
    · intro j hj hj2
      exact hwf.link j (by omega) hj2
    · intro h
      exact hwf.last hfree
  · have hlen : s._MetaData.length = size s := by have := hwf.size_le; omega
    have hnext : s._NextFree = _NO_MORE_FREE c := by rw [hwf.next, if_neg hfree]
    have hg := hc.2 (size s) hsz
    obtain ⟨md, hgrow, hmdlen, hold, hlink, hlast⟩ :=
      grow_full c s hnext (by rw [hlen]; exact hg.1)
    rw [hlen] at hmdlen hold hlink hgrow
    refine ⟨md, ?_, by omega, by omega, fun j hj => hold j hj, ?_, ?_⟩
    · have hval : md.getD (size s) 0 =
          if size s + 1 < md.length then size s + 1 else _NO_MORE_FREE c := by
        by_cases h1 : size s + 1 < md.length
        · rw [if_pos h1]
          exact hlink (size s) (le_refl _) h1
        · rw [if_neg h1]
          have h2 : md.length - 1 = size s := by omega
          rwa [h2] at hlast
      unfold AllocNext
      simp only [hne, hnext, hsne, if_false, if_true, Bool.false_eq_true, hgrow, hval]
    · intro j hj hj2
      exact hlink j (by omega) hj2
    · intro _
      exact hlast

theorem wf_after_alloc (c : Config) (s p : State) (md : List Nat) (v : Nat)
    (hsz : size s + 1 < _FLAG_GHOST c) (hlt : size s < md.length) (hcap : md.length < 2 ^ c.bits)
    (hlink : ∀ j, size s + 1 ≤ j → j + 1 < md.length → md.getD j 0 = j + 1)
    (hlast : size s + 1 < md.length → md.getD (md.length - 1) 0 = _NO_MORE_FREE c)
    (hmeta : p._MetaData = md.set (size s) v)
    (hnext : p._NextFree = if size s + 1 < md.length then size s + 1 else _NO_MORE_FREE c)
    (hsize : size p = size s + 1) : WF c p := by
  have hlen : p._MetaData.length = md.length := by rw [hmeta, List.length_set]
  refine ⟨?_, ?_, ?_, ?_, ?_, ?_⟩
  · rw [hlen, hsize]; omega
  · rw [hsize]; exact hsz
  · rw [hlen]; exact hcap
  · rw [hnext, hlen, hsize]
  · intro i hi hi2
    rw [hlen] at hi2
    rw [hsize] at hi
    unfold metaAt
    rw [hmeta, getD_set]
    split
    · omega
    · exact hlink i hi hi2
  · intro h
    rw [hlen, hsize] at h
    unfold metaAt
    rw [hlen, hmeta, getD_set]
    split
    · omega
    · exact hlast h

theorem addLocalPoint_exhausted (c : Config) (s : State) (g : Nat)
    (hex : IsFlagSet ((size s + 1) % 2 ^ c.bits) (_FLAG_DELETED c ||| _FLAG_GHOST c) = true) :
    AddLocalPoint c s g = (.error .StorageException, s) := by
  unfold AddLocalPoint
  rw [allocNext_exhausted c s hex]
  simp

theorem addLocalPoint_spec (c : Config) (s : State) (g : Nat) (hc : GrowOk c) (hwf : WF c s)
    (hne : IsFlagSet ((size s + 1) % 2 ^ c.bits) (_FLAG_DELETED c ||| _FLAG_GHOST c) = false) :
    ∃ p, AddLocalPoint c s g =
        ((if (mapFind s._IndexMap g).isSome then .error .DoubleElementException
          else .ok (size s)), p) ∧
      WF c p ∧ size p = size s + 1 ∧ p._GhostMap = s._GhostMap ∧
      p._IndexMap = (if (mapFind s._IndexMap g).isSome then s._IndexMap
          else mapSet s._IndexMap g (size s)) ∧
      metaAt p (size s) = ClearFlag c g (_FLAG_GHOST c) ∧
      (∀ j, j < size s → metaAt p j = metaAt s j) := by
  obtain ⟨md, halloc, hlt, hcap, hold, hlink, hlast⟩ := allocNext_ok c s hc hwf hne
  have hsz1 := size_succ_lt c s hc hwf hne
  have hfg := flagGhost_lt c hc.1
  have hsne : size s ≠ _NO_MORE_FREE c := by unfold _NO_MORE_FREE; omega
  have hget : ∀ v j, (md.set (size s) v).getD j 0 = if j = size s then v else md.getD j 0 := by
    intro v j
    rw [getD_set]
    by_cases h : j = size s
    · subst h; simp [hlt]
    · have : ¬ (size s = j ∧ size s < md.length) := fun h' => h h'.1.symm
      rw [if_neg this, if_neg h]
  unfold AddLocalPoint
  rw [halloc]
  simp only [hsne, if_false]
  by_cases hdup : (mapFind s._IndexMap g).isSome = true
  · simp only [hdup, if_true]
    refine ⟨_, rfl, ?_, ?_, rfl, rfl, ?_, ?_⟩
    · exact wf_after_alloc c s _ md _ hsz1 hlt hcap hlink hlast rfl rfl
        (by simp only [size, GetLocalSize, GetGhostSize]; omega)
    · simp only [size, GetLocalSize, GetGhostSize]; omega
    · simp only [metaAt, hget, if_true]
    · intro j hj
      simp only [metaAt, hget]
      rw [if_neg (by omega)]
      exact hold j hj
  · simp only [hdup, if_false]
    refine ⟨_, rfl, ?_, ?_, rfl, rfl, ?_, ?_⟩
    · exact wf_after_alloc c s _ md _ hsz1 hlt hcap hlink hlast rfl rfl
        (by simp only [size, GetLocalSize, GetGhostSize]; omega)
    · simp only [size, GetLocalSize, GetGhostSize]; omega
    · simp only [metaAt, hget, if_true]
    · intro j hj
      simp only [metaAt, hget]
      rw [if_neg (by omega)]
      exact hold j hj

theorem addGhostPoint_dup (c : Config) (s : State) (g : Nat)
    (hdup : (mapFind s._GhostMap g).isSome = true ∨ (mapFind s._IndexMap g).isSome = true) :
    AddGhostPoint c s g = (.error .DoubleElementException, s) := by
  unfold AddGhostPoint
  rcases hdup with h | h
  · rw [if_pos h]
  · by_cases h1 : (mapFind s._GhostMap g).isSome = true
    · rw [if_pos h1]
    · rw [if_neg h1, if_pos h]

theorem addGhostPoint_exhausted (c : Config) (s : State) (g : Nat)
    (h1 : (mapFind s._GhostMap g).isSome = false) (h2 : (mapFind s._IndexMap g).isSome = false)
    (hex : IsFlagSet ((size s + 1) % 2 ^ c.bits) (_FLAG_DELETED c ||| _FLAG_GHOST c) = true) :
    AddGhostPoint c s g = (.error .AssertionFailed, s) := by
  unfold AddGhostPoint
  rw [allocNext_exhausted c s hex]
  simp [h1, h2]

theorem addGhostPoint_spec (c : Config) (s : State) (g : Nat) (hc : GrowOk c) (hwf : WF c s)
    (h1 : (mapFind s._GhostMap g).isSome = false) (h2 : (mapFind s._IndexMap g).isSome = false)
    (hne : IsFlagSet ((size s + 1) % 2 ^ c.bits) (_FLAG_DELETED c ||| _FLAG_GHOST c) = false) :
    ∃ p, AddGhostPoint c s g = (.ok (size s), p) ∧
      WF c p ∧ size p = size s + 1 ∧ p._IndexMap = s._IndexMap ∧
      p._GhostMap = mapSet s._GhostMap g (size s) ∧
      metaAt p (size s) = SetFlag g (_FLAG_GHOST c) ∧
      (∀ j, j < size s → metaAt p j = metaAt s j) := by
  obtain ⟨md, halloc, hlt, hcap, hold, hlink, hlast⟩ := allocNext_ok c s hc hwf hne
  have hsz1 := size_succ_lt c s hc hwf hne
  have hfg := flagGhost_lt c hc.1
  have hsne : size s ≠ _NO_MORE_FREE c := by unfold _NO_MORE_FREE; omega
  have hget : ∀ v j, (md.set (size s) v).getD j 0 = if j = size s then v else md.getD j 0 := by
    intro v j
    rw [getD_set]
    by_cases h : j = size s
    · subst h; simp [hlt]
    · have : ¬ (size s = j ∧ size s < md.length) := fun h' => h h'.1.symm
      rw [if_neg this, if_neg h]
  unfold AddGhostPoint
  rw [halloc]
  simp only [h1, h2, hsne, if_false, Bool.false_eq_true]
  refine ⟨_, rfl, ?_, ?_, rfl, rfl, ?_, ?_⟩
  · exact wf_after_alloc c s _ md _ hsz1 hlt hcap hlink hlast rfl rfl
      (by simp only [size, GetLocalSize, GetGhostSize]; omega)
  · simp only [size, GetLocalSize, GetGhostSize]; omega
  · simp only [metaAt, hget, if_true]
  · intro j hj
    simp only [metaAt, hget]
    rw [if_neg (by omega)]
    exact hold j hj

theorem wf_fresh (c : Config) (ESize : Nat) (hc : GrowOk c) : WF c (fresh c ESize) := by
  refine ⟨?_, ?_, ?_, ?_, ?_, ?_⟩
  · simp [fresh, size, GetLocalSize, GetGhostSize]
  · rw [flagGhost_eq c hc.1]
    simp [fresh, size, GetLocalSize, GetGhostSize]
  · simp [fresh]
  · simp [fresh, size, GetLocalSize, GetGhostSize]
  · intro i _ h
    simp [fresh] at h
  · intro h
    simp [fresh, size, GetLocalSize, GetGhostSize] at h

/-! ## Sequences of registration calls -/

theorem isSome_eq_false_iff (o : Option Nat) : o.isSome = false ↔ o = none := by
  cases o <;> simp

theorem hist_failed (c : Config) (s : State) (tr : List (AddCall × Except Error Nat))
    (call : AddCall) (e : Error) (h : Hist c s tr) : Hist c s (tr ++ [(call, Except.error e)]) := by
  refine ⟨h.wf, ?_, ?_, ?_⟩
  · intro g i
    rw [h.imap]
    simp
  · intro g i
    rw [h.gmap]
    simp
  · intro call' i hm
    apply h.slot
    simpa using hm

theorem hist_step (c : Config) (hc : GrowOk c) (s : State)
    (tr : List (AddCall × Except Error Nat)) (call : AddCall) (h : Hist c s tr) :
    Hist c (call.run c s).2 (tr ++ [(call, (call.run c s).1)]) := by
  by_cases hex : IsFlagSet ((size s + 1) % 2 ^ c.bits) (_FLAG_DELETED c ||| _FLAG_GHOST c) = true
  · cases call with
    | AddLocalPoint g =>
      simp only [AddCall.run, addLocalPoint_exhausted c s g hex]
      exact hist_failed c s tr _ _ h
    | AddGhostPoint g =>
      simp only [AddCall.run]
      by_cases hd : (mapFind s._GhostMap g).isSome = true ∨ (mapFind s._IndexMap g).isSome = true
      · rw [addGhostPoint_dup c s g hd]
        exact hist_failed c s tr _ _ h
      · have h1 : (mapFind s._GhostMap g).isSome = false := by
          cases hh : (mapFind s._GhostMap g).isSome
          · rfl
          · exact absurd (Or.inl hh) hd
        have h2 : (mapFind s._IndexMap g).isSome = false := by
          cases hh : (mapFind s._IndexMap g).isSome
          · rfl
          · exact absurd (Or.inr hh) hd
        rw [addGhostPoint_exhausted c s g h1 h2 hex]
        exact hist_failed c s tr _ _ h
  · have hne : IsFlagSet ((size s + 1) % 2 ^ c.bits) (_FLAG_DELETED c ||| _FLAG_GHOST c) = false := by
      simpa using hex
    cases call with
    | AddLocalPoint g =>
      obtain ⟨p, hrun, hwf, hsize, hgm, him, hnew, hold⟩ := addLocalPoint_spec c s g hc h.wf hne
      simp only [AddCall.run, hrun]
      by_cases hdup : (mapFind s._IndexMap g).isSome = true
      · simp only [hdup, if_true] at him ⊢
        refine ⟨hwf, ?_, ?_, ?_⟩
        · intro g' i
          rw [him, h.imap]
          simp
        · intro g' i
          rw [hgm, h.gmap]
          simp
        · intro call' i hm
          have hm' : (call', Except.ok i) ∈ tr := by simpa using hm
          obtain ⟨hi, hv⟩ := h.slot call' i hm'
          exact ⟨by omega, by rw [hold i hi, hv]⟩
      · have hnone : mapFind s._IndexMap g = none := by
          rw [← isSome_eq_false_iff]
          simpa using hdup
        have hdupf : (mapFind s._IndexMap g).isSome = false := by simpa using hdup
        simp only [hdupf, Bool.false_eq_true, if_false] at him ⊢
        refine ⟨hwf, ?_, ?_, ?_⟩
        · intro g' i
          rw [him, mapFind_mapSet]
          by_cases hg : g' = g
          · subst hg
            have : ¬ (AddCall.AddLocalPoint g', (Except.ok i : Except Error Nat)) ∈ tr := by
              rw [← h.imap, hnone]
              simp
            simp [this, eq_comm]
          · simp [hg, h.imap]
        · intro g' i
          rw [hgm, h.gmap]
          simp
        · intro call' i hm
          simp only [List.mem_append, List.mem_singleton, Prod.mk.injEq, Except.ok.injEq] at hm
          rcases hm with hm | ⟨rfl, rfl⟩
          · obtain ⟨hi, hv⟩ := h.slot call' i hm
            exact ⟨by omega, by rw [hold i hi, hv]⟩
          · exact ⟨by omega, hnew⟩
    | AddGhostPoint g =>
      simp only [AddCall.run]
      by_cases hd : (mapFind s._GhostMap g).isSome = true ∨ (mapFind s._IndexMap g).isSome = true
      · rw [addGhostPoint_dup c s g hd]
        exact hist_failed c s tr _ _ h
      · have h1 : (mapFind s._GhostMap g).isSome = false := by
          cases hh : (mapFind s._GhostMap g).isSome
          · rfl
          · exact absurd (Or.inl hh) hd
        have h2 : (mapFind s._IndexMap g).isSome = false := by
          cases hh : (mapFind s._IndexMap g).isSome
          · rfl
          · exact absurd (Or.inr hh) hd
        have hnone : mapFind s._GhostMap g = none := (isSome_eq_false_iff _).1 h1
        obtain ⟨p, hrun, hwf, hsize, him, hgm, hnew, hold⟩ :=
          addGhostPoint_spec c s g hc h.wf h1 h2 hne
        simp only [hrun]
        refine ⟨hwf, ?_, ?_, ?_⟩
        · intro g' i
          rw [him, h.imap]
          simp
        · intro g' i
          rw [hgm, mapFind_mapSet]
          by_cases hg : g' = g
          · subst hg
            have : ¬ (AddCall.AddGhostPoint g', (Except.ok i : Except Error Nat)) ∈ tr := by
              rw [← h.gmap, hnone]
              simp
            simp [this, eq_comm]
          · simp [hg, h.gmap]
        · intro call' i hm
          simp only [List.mem_append, List.mem_singleton, Prod.mk.injEq, Except.ok.injEq] at hm
          rcases hm with hm | ⟨rfl, rfl⟩
          · obtain ⟨hi, hv⟩ := h.slot call' i hm
            exact ⟨by omega, by rw [hold i hi, hv]⟩
          · exact ⟨by omega, hnew⟩

theorem hist_run (c : Config) (hc : GrowOk c) (calls : List AddCall) :
    ∀ (s : State) (tr : List (AddCall × Except Error Nat)), Hist c s tr →
      Hist c (runCalls c s calls).2 (tr ++ (runCalls c s calls).1) := by
  induction calls with
  | nil =>
    intro s tr h
    simpa [runCalls] using h
  | cons call rest ih =>
    intro s tr h
    have h1 := hist_step c hc s tr call h
    have h2 := ih _ _ h1
    simpa [runCalls] using h2

theorem hist_fresh (c : Config) (hc : GrowOk c) (ESize : Nat) : Hist c (fresh c ESize) [] := by
  refine ⟨wf_fresh c ESize hc, ?_, ?_, ?_⟩
  · intro g i
    simp [fresh, mapFind]
  · intro g i
    simp [fresh, mapFind]
  · intro call i hm
    simp at hm

theorem hist_reach (c : Config) (hc : GrowOk c) (ESize : Nat) (calls : List AddCall) :
    Hist c (runCalls c (fresh c ESize) calls).2 (runCalls c (fresh c ESize) calls).1 := by
  have := hist_run c hc calls _ _ (hist_fresh c hc ESize)
  simpa using this

theorem runCalls_append (c : Config) (xs ys : List AddCall) :
    ∀ s : State, runCalls c s (xs ++ ys) =
      ((runCalls c s xs).1 ++ (runCalls c (runCalls c s xs).2 ys).1,
        (runCalls c (runCalls c s xs).2 ys).2) := by
  induction xs with
  | nil => intro s; simp [runCalls]
  | cons x xs ih => intro s; simp [runCalls, ih]

theorem runCalls_fst (c : Config) (calls : List AddCall) :
    ∀ s : State, (runCalls c s calls).1.map Prod.fst = calls := by
  induction calls with
  | nil => intro s; simp [runCalls]
  | cons x xs ih => intro s; simp [runCalls, ih]

theorem run_locals (c : Config) (hc : GrowOk c) :
    ∀ (gs : List Nat) (s : State), WF c s → gs.Nodup →
      (∀ g ∈ gs, mapFind s._IndexMap g = none) → size s + gs.length < _FLAG_GHOST c →
      (runCalls c s (gs.map AddCall.AddLocalPoint)).1 =
          (gs.enumFrom (size s)).map (fun p => (AddCall.AddLocalPoint p.2, Except.ok p.1)) ∧
        WF c (runCalls c s (gs.map AddCall.AddLocalPoint)).2 ∧
        size (runCalls c s (gs.map AddCall.AddLocalPoint)).2 = size s + gs.length ∧
        ∀ g', g' ∉ gs →
          mapFind (runCalls c s (gs.map AddCall.AddLocalPoint)).2._IndexMap g' =
            mapFind s._IndexMap g' := by
  intro gs
  induction gs with
  | nil =>
    intro s hwf _ _ _
    simp [runCalls, hwf]
  | cons g rest ih =>
    intro s hwf hnd hnone hlen
    have hlen' : size s + (rest.length + 1) < _FLAG_GHOST c := by simpa using hlen
    have hne : IsFlagSet ((size s + 1) % 2 ^ c.bits) (_FLAG_DELETED c ||| _FLAG_GHOST c) = false :=
      isFlagSet_flags_of_lt c hc.1 _ (by omega)
    obtain ⟨p, hrun, hwfp, hsize, _, him, _, _⟩ := addLocalPoint_spec c s g hc hwf hne
    have hg : mapFind s._IndexMap g = none := hnone g (List.mem_cons_self _ _)
    simp only [hg, Option.isSome_none, Bool.false_eq_true, if_false] at hrun him
    have hnd' := List.nodup_cons.1 hnd
    have hnone' : ∀ g' ∈ rest, mapFind p._IndexMap g' = none := by
      intro g' hg'
      rw [him, mapFind_mapSet]
      have : g' ≠ g := fun e => hnd'.1 (e ▸ hg')
      rw [if_neg this]
      exact hnone g' (List.mem_cons_of_mem _ hg')
    obtain ⟨h1, h2, h3, h4⟩ := ih p hwfp hnd'.2 hnone' (by omega)
    simp only [List.map_cons, runCalls, AddCall.run, hrun, List.enumFrom_cons]
    refine ⟨?_, h2, ?_, ?_⟩
    · rw [h1, hsize]
    · rw [h3, hsize, List.length_cons]; omega
    · intro g' hg'
      have hg1 : g' ≠ g := fun e => hg' (e ▸ List.mem_cons_self _ _)
      have hg2 : g' ∉ rest := fun e => hg' (List.mem_cons_of_mem _ e)
      rw [h4 g' hg2, him, mapFind_mapSet, if_neg hg1]

theorem flagGhost_cfg32 : _FLAG_GHOST cfg32 = 1073741824 := by decide

theorem growOk_cfg32 : GrowOk cfg32 := by
  refine ⟨by decide, ?_⟩
  intro n hn
  rw [flagGhost_cfg32] at hn
  show n < 2 * n + 1 ∧ 2 * n + 1 < 2 ^ 32
  omega

theorem mem_trace_call (c : Config) (calls : List AddCall) (s : State) (call : AddCall)
    (r : Except Error Nat) (h : (call, r) ∈ (runCalls c s calls).1) : call ∈ calls := by
  have := List.mem_map_of_mem Prod.fst h
  rwa [runCalls_fst] at this

theorem globalToLocal_of_index (s : State) (g i : Nat) (h : mapFind s._IndexMap g = some i) :
    GlobalToLocal s g = .ok i := by
  simp [GlobalToLocal, h]

theorem hist_after (c : Config) (hc : GrowOk c) (ESize : Nat) (pre mid : List AddCall)
    (call : AddCall) :
    Hist c (stateAfter c (call.run c (stateAfter c (fresh c ESize) pre)).2 mid)
      ((traceOf c (fresh c ESize) pre ++ [(call, (call.run c (stateAfter c (fresh c ESize) pre)).1)])
        ++ traceOf c (call.run c (stateAfter c (fresh c ESize) pre)).2 mid) := by
  have h0 := hist_reach c hc ESize pre
  have h1 := hist_step c hc _ _ call h0
  exact hist_run c hc mid _ _ h1

/-- C1, as the claim states it, fails: on a fresh pattern with a 32-bit index type
`AddLocalPoint` registers the global ID `2^30` (the value of `_FLAG_GHOST`) at local
index 0, and `LocalToGlobal(0)` is then 0, not the registered ID. -/
theorem roundTrip_flagged_id_counterexample :
    traceOf cfg32 (fresh cfg32 1) [AddCall.AddLocalPoint 1073741824]
        = [(AddCall.AddLocalPoint 1073741824, Except.ok 0)] ∧
      GlobalToLocal (stateAfter cfg32 (fresh cfg32 1) [AddCall.AddLocalPoint 1073741824])
        1073741824 = Except.ok 0 ∧
      LocalToGlobal cfg32 (stateAfter cfg32 (fresh cfg32 1) [AddCall.AddLocalPoint 1073741824]) 0
        ≠ 1073741824 := by
  decide

/-- C1, amended: for every sequence of pairwise distinct global IDs without flag
bits (each below `_FLAG_GHOST`) passed to `AddLocalPoint` on a fresh pattern, every
ID whose call returned a local index `i` has `GlobalToLocal` equal to `i` and
`LocalToGlobal(i)` equal to the ID; and when the sequence is shorter than
`_FLAG_GHOST` every call succeeds, the k-th one returning local index k. -/
theorem roundTrip_addLocalPoint (c : Config) (hc : GrowOk c) (ESize : Nat) (gs : List Nat)
    (hnd : gs.Nodup) (hflag : ∀ g ∈ gs, g < _FLAG_GHOST c) :
    (∀ g i, (AddCall.AddLocalPoint g, Except.ok i)
          ∈ traceOf c (fresh c ESize) (gs.map AddCall.AddLocalPoint) →
        GlobalToLocal (stateAfter c (fresh c ESize) (gs.map AddCall.AddLocalPoint)) g = Except.ok i ∧
        LocalToGlobal c (stateAfter c (fresh c ESize) (gs.map AddCall.AddLocalPoint)) i = g) ∧
      (gs.length < _FLAG_GHOST c →
        traceOf c (fresh c ESize) (gs.map AddCall.AddLocalPoint)
          = gs.enum.map (fun p => (AddCall.AddLocalPoint p.2, Except.ok p.1))) := by
  have hh := hist_reach c hc ESize (gs.map AddCall.AddLocalPoint)
  constructor
  · intro g i hm
    have hg : g ∈ gs := by
      have := mem_trace_call c _ _ _ _ hm
      simpa using this
    refine ⟨globalToLocal_of_index _ g i ((hh.imap g i).2 hm), ?_⟩
    have hs := (hh.slot _ i hm).2
    unfold LocalToGlobal stateAfter
    rw [hs]
    show NormalIndex c (ClearFlag c g (_FLAG_GHOST c)) = g
    rw [clearFlag_ghost_of_lt c hc.1 g (hflag g hg), normalIndex_of_lt c hc.1 g (hflag g hg)]
  · intro hlen
    have := (run_locals c hc gs (fresh c ESize) (wf_fresh c ESize hc) hnd (fun g _ => rfl)
      (by simpa [fresh, size, GetLocalSize, GetGhostSize] using hlen)).1
    simpa [traceOf, List.enum, fresh, size, GetLocalSize, GetGhostSize] using this

/-- Witness for C1: the IDs 3, 1, 2 registered on a fresh 32-bit pattern; the ID 1
is found at local index 1 and read back from it. -/
theorem roundTrip_addLocalPoint_witness :
    GrowOk cfg32 ∧ [3, 1, 2].Nodup ∧ (∀ g ∈ [3, 1, 2], g < _FLAG_GHOST cfg32) ∧
      (GlobalToLocal (stateAfter cfg32 (fresh cfg32 1) ([3, 1, 2].map AddCall.AddLocalPoint)) 1
          = Except.ok 1 ∧
        LocalToGlobal cfg32 (stateAfter cfg32 (fresh cfg32 1) ([3, 1, 2].map AddCall.AddLocalPoint)) 1
          = 1) ∧
      traceOf cfg32 (fresh cfg32 1) ([3, 1, 2].map AddCall.AddLocalPoint)
        = [(AddCall.AddLocalPoint 3, Except.ok 0), (AddCall.AddLocalPoint 1, Except.ok 1),
            (AddCall.AddLocalPoint 2, Except.ok 2)] :=
  ⟨growOk_cfg32, by decide, by decide,
    (roundTrip_addLocalPoint cfg32 growOk_cfg32 1 [3, 1, 2] (by decide) (by decide)).1 1 1
      (by decide),
    (roundTrip_addLocalPoint cfg32 growOk_cfg32 1 [3, 1, 2] (by decide) (by decide)).2
      (by decide)⟩

/-- C3 fails on the code: on a fresh 32-bit pattern `AddGhostPoint(5)` returns local
index 0, and the following `AddLocalPoint(5)` does not raise: it returns local index
1, and global ID 5 is then a key of both maps. -/
theorem addLocalPoint_accepts_registered_ghost :
    traceOf cfg32 (fresh cfg32 1) [AddCall.AddGhostPoint 5, AddCall.AddLocalPoint 5]
        = [(AddCall.AddGhostPoint 5, Except.ok 0), (AddCall.AddLocalPoint 5, Except.ok 1)] ∧
      mapFind (stateAfter cfg32 (fresh cfg32 1)
        [AddCall.AddGhostPoint 5, AddCall.AddLocalPoint 5])._GhostMap 5 = some 0 ∧
      mapFind (stateAfter cfg32 (fresh cfg32 1)
        [AddCall.AddGhostPoint 5, AddCall.AddLocalPoint 5])._IndexMap 5 = some 1 := by
  decide

/-- C5 fails on the code: on the 32-bit pattern that holds global ID 7 as owned, a
second `AddLocalPoint(7)` raises `DoubleElementException` and yet leaves the registry
changed: `GetLocalSize` has gone from 1 to 2, slot 1 has been taken off the free list
and holds global index 7. -/
theorem addLocalPoint_duplicate_not_atomic :
    (AddLocalPoint cfg32 (AddLocalPoint cfg32 (fresh cfg32 1) 7).2 7).1
        = Except.error Error.DoubleElementException ∧
      GetLocalSize (AddLocalPoint cfg32 (fresh cfg32 1) 7).2 = 1 ∧
      GetLocalSize (AddLocalPoint cfg32 (AddLocalPoint cfg32 (fresh cfg32 1) 7).2 7).2 = 2 ∧
      (AddLocalPoint cfg32 (fresh cfg32 1) 7).2._MetaData = [7] ∧
      (AddLocalPoint cfg32 (AddLocalPoint cfg32 (fresh cfg32 1) 7).2 7).2._MetaData
        = [7, 7, 4294967295] ∧
      (AddLocalPoint cfg32 (AddLocalPoint cfg32 (fresh cfg32 1) 7).2 7).2._NextFree = 2 ∧
      (AddLocalPoint cfg32 (AddLocalPoint cfg32 (fresh cfg32 1) 7).2 7).2
        ≠ (AddLocalPoint cfg32 (fresh cfg32 1) 7).2 := by
  decide

/-- C6 fails on the code: after `AddGhostPoint(5)`, `AddLocalPoint(5)` on a fresh
32-bit pattern global ID 5 is a key of both maps; and after `AddLocalPoint(7)`,
`AddLocalPoint(7)` (the second call raises) `size()` is 2 while the two maps together
hold the single entry 7 -> 0, so the allocated local index 1 is in neither map. -/
theorem registry_invariant_broken :
    (mapFind (stateAfter cfg32 (fresh cfg32 1)
        [AddCall.AddGhostPoint 5, AddCall.AddLocalPoint 5])._GhostMap 5).isSome = true ∧
      (mapFind (stateAfter cfg32 (fresh cfg32 1)
        [AddCall.AddGhostPoint 5, AddCall.AddLocalPoint 5])._IndexMap 5).isSome = true ∧
      size (stateAfter cfg32 (fresh cfg32 1)
        [AddCall.AddLocalPoint 7, AddCall.AddLocalPoint 7]) = 2 ∧
      (stateAfter cfg32 (fresh cfg32 1)
        [AddCall.AddLocalPoint 7, AddCall.AddLocalPoint 7])._IndexMap = [(7, 0)] ∧
      (stateAfter cfg32 (fresh cfg32 1)
        [AddCall.AddLocalPoint 7, AddCall.AddLocalPoint 7])._GhostMap = [] := by
  decide

/-- C7: on a pattern reached from a fresh one by any registration calls (calls that
raise included), a local index returned by a successful `AddGhostPoint` has `IsGhost`
true and one returned by a successful `AddLocalPoint` has `IsGhost` false, right after
the call and after any further registration calls. -/
theorem partition_invariant (c : Config) (hc : GrowOk c) (ESize : Nat) (pre post : List AddCall)
    (call : AddCall) (i : Nat)
    (hok : (call.run c (stateAfter c (fresh c ESize) pre)).1 = Except.ok i) :
    IsGhost c (call.run c (stateAfter c (fresh c ESize) pre)).2 i = call.ghost ∧
      IsGhost c (stateAfter c (call.run c (stateAfter c (fresh c ESize) pre)).2 post) i
        = call.ghost := by
  have key : ∀ mid : List AddCall,
      IsGhost c (stateAfter c (call.run c (stateAfter c (fresh c ESize) pre)).2 mid) i
        = call.ghost := by
    intro mid
    have hh := hist_after c hc ESize pre mid call
    have hs := (hh.slot call i (by rw [hok]; simp)).2
    unfold IsGhost
    rw [hs]
    cases call with
    | AddLocalPoint g => exact isFlagSet_clearFlag_ghost c hc.1 g
    | AddGhostPoint g => exact isFlagSet_setFlag_ghost c hc.1 g
  exact ⟨key [], key post⟩

/-- Witness for C7: `AddGhostPoint(9)` after an owned point and a rejected duplicate,
followed by two more registrations, on a 32-bit pattern. -/
theorem partition_invariant_witness :
    GrowOk cfg32 ∧
      (AddCall.run cfg32 (stateAfter cfg32 (fresh cfg32 1)
          [AddCall.AddLocalPoint 4, AddCall.AddLocalPoint 4]) (AddCall.AddGhostPoint 9)).1
        = Except.ok 2 ∧
      (IsGhost cfg32 (AddCall.run cfg32 (stateAfter cfg32 (fresh cfg32 1)
          [AddCall.AddLocalPoint 4, AddCall.AddLocalPoint 4]) (AddCall.AddGhostPoint 9)).2 2
          = (AddCall.AddGhostPoint 9).ghost ∧
        IsGhost cfg32 (stateAfter cfg32 (AddCall.run cfg32 (stateAfter cfg32 (fresh cfg32 1)
            [AddCall.AddLocalPoint 4, AddCall.AddLocalPoint 4]) (AddCall.AddGhostPoint 9)).2
            [AddCall.AddLocalPoint 1, AddCall.AddGhostPoint 2]) 2
          = (AddCall.AddGhostPoint 9).ghost) :=
  ⟨growOk_cfg32, by decide,
    partition_invariant cfg32 growOk_cfg32 1 [AddCall.AddLocalPoint 4, AddCall.AddLocalPoint 4]
      [AddCall.AddLocalPoint 1, AddCall.AddGhostPoint 2] (AddCall.AddGhostPoint 9) 2 (by decide)⟩

/-- C9 fails on the code: on a fresh 32-bit pattern after `reserve(3)` (three free
slots, `size()` 0) the scan of `FindLocal(1)` gives `_NOT_FOUND`, and after
`CreateIndex` the map lookup of `FindLocal(1)` gives local index 0: `CreateIndex`
runs over all `m_data->size()` slots and takes the free-list link stored in a free
slot for the global index of an owned point. -/
theorem createIndex_indexes_free_slots :
    (reserve cfg32 (fresh cfg32 1) 3 1).bind (fun s => FindLocal cfg32 s 1)
        = Except.ok (_NOT_FOUND cfg32) ∧
      ((reserve cfg32 (fresh cfg32 1) 3 1).bind (CreateIndex cfg32)).bind
          (fun s => FindLocal cfg32 s 1) = Except.ok 0 ∧
      ((reserve cfg32 (fresh cfg32 1) 3 1).bind (CreateIndex cfg32)).map
          (fun s => (size s, s._IndexMap)) = Except.ok (0, [(1, 0), (2, 1)]) := by
  decide

/-- C10 fails on the code: on the 32-bit pattern that holds global ID 7 as owned,
`GlobalToLocal(7)` returns local index 0 before `CreateIndex` and after it, and after
the following `DestroyIndex` it raises `NotFoundException`: `DestroyIndex` clears the
two maps and `GlobalToLocal` reads only the maps. -/
theorem globalToLocal_after_destroyIndex :
    (AddLocalPoint cfg32 (fresh cfg32 1) 7).1 = Except.ok 0 ∧
      GlobalToLocal (AddLocalPoint cfg32 (fresh cfg32 1) 7).2 7 = Except.ok 0 ∧
      (CreateIndex cfg32 (AddLocalPoint cfg32 (fresh cfg32 1) 7).2).bind
          (fun s => GlobalToLocal s 7) = Except.ok 0 ∧
      ((CreateIndex cfg32 (AddLocalPoint cfg32 (fresh cfg32 1) 7).2).bind DestroyIndex).bind
          (fun s => GlobalToLocal s 7) = Except.error Error.NotFoundException := by
  decide

/-! ## The store under `reserve` -/

theorem walkFree_chain (c : Config) (md : List Nat) (n : Nat)
    (hlast : md.getD (n - 1) 0 = _NO_MORE_FREE c) (hn : n ≤ _NO_MORE_FREE c) :
    ∀ (fuel a : Nat), a < n → n - a ≤ fuel →
      (∀ i, a ≤ i → i + 1 < n → md.getD i 0 = i + 1) →
      walkFree c md fuel a = some (n - 1) := by
  intro fuel
  induction fuel with
  | zero => intro a han hf _; omega
  | succ fuel ih =>
    intro a han hf hlink
    unfold walkFree
    by_cases ha : a + 1 < n
    · have h1 := hlink a (le_refl _) ha
      have h2 : a ≠ _NO_MORE_FREE c := by omega
      have h3 : md.getD a 0 ≠ _NO_MORE_FREE c := by rw [h1]; omega
      rw [if_pos ⟨h2, h3⟩, h1]
      exact ih (a + 1) ha (by omega) (fun i hi hi2 => hlink i (by omega) hi2)
    · have hEq : a = n - 1 := by omega
      have h3 : ¬ (a ≠ _NO_MORE_FREE c ∧ md.getD a 0 ≠ _NO_MORE_FREE c) := by
        rw [hEq, hlast]
        intro h
        exact h.2 rfl
      rw [if_neg h3, hEq]

theorem grow_wf (c : Config) (s : State) (growBy newSize : Nat) (hwf : WF c s)
    (hsize : newSize = if growBy ≠ 0 then s._MetaData.length + growBy
      else c.growTo s._MetaData.length)
    (hnew : s._MetaData.length < newSize) (hcap : newSize < 2 ^ c.bits) :
    ∃ md, grow c s growBy = .ok { s with _MetaData := md, _NextFree := size s } ∧
      md.length = newSize ∧
      (∀ j, j < size s → md.getD j 0 = s._MetaData.getD j 0) ∧
      (∀ j, size s ≤ j → j + 1 < md.length → md.getD j 0 = j + 1) ∧
      md.getD (md.length - 1) 0 = _NO_MORE_FREE c := by
  have hfg := flagGhost_lt c (show 2 ≤ c.bits by
    by_contra h
    have h1 : c.bits ≤ 1 := by omega
    have h2 := hwf.size_lt
    have h3 : _FLAG_GHOST c = 0 := by
      unfold _FLAG_GHOST _FLAG_DELETED
      interval_cases c.bits <;> simp
    omega)
  have hsz := hwf.size_lt
  have hlen2 : (s._MetaData ++ List.replicate (newSize - s._MetaData.length) 0).length = newSize := by
    simp; omega
  by_cases hfree : size s < s._MetaData.length
  · -- the free list is not empty: the walk ends at the last old slot
    have hnext : s._NextFree = size s := by rw [hwf.next, if_pos hfree]
    have hsne : size s ≠ _NO_MORE_FREE c := by unfold _NO_MORE_FREE; omega
    have hlastne : s._MetaData.length - 1 ≠ _NO_MORE_FREE c := by unfold _NO_MORE_FREE; omega
    have hwalk : walkFree c (s._MetaData ++ List.replicate (newSize - s._MetaData.length) 0)
        ((s._MetaData ++ List.replicate (newSize - s._MetaData.length) 0).length + 1) (size s)
        = some (s._MetaData.length - 1) := by
      apply walkFree_chain c _ s._MetaData.length
      · rw [getD_append_replicate]; exact hwf.last hfree
      · unfold _NO_MORE_FREE; have := hwf.cap_lt; omega
      · exact hfree
      · rw [hlen2]; omega
      · intro i hi hi2
        rw [getD_append_replicate]
        exact hwf.link i hi hi2
    have hmd2 : ((linkNew (s._MetaData ++ List.replicate (newSize - s._MetaData.length) 0)
        (newSize - 1 - s._MetaData.length) s._MetaData.length).set (newSize - 1)
        (_NO_MORE_FREE c)).getD (s._MetaData.length - 1) 0 = _NO_MORE_FREE c := by
      rw [getD_set, linkNew_getD, getD_append_replicate]
      split
      · rfl
      · split
        · have := hwf.size_le; omega
        · exact hwf.last hfree
    refine ⟨((linkNew (s._MetaData ++ List.replicate (newSize - s._MetaData.length) 0)
        (newSize - 1 - s._MetaData.length) s._MetaData.length).set (newSize - 1)
        (_NO_MORE_FREE c)).set (s._MetaData.length - 1) s._MetaData.length, ?_, ?_, ?_, ?_, ?_⟩
    · unfold grow
      dsimp only
      rw [← hsize]
      simp only [hnew, gt_iff_lt, not_true_eq_false, if_false, hnext, hwalk, hmd2, hlastne,
        ne_eq, not_false_eq_true, and_false, if_true, hsne]
    · simp only [List.length_set, linkNew_length, hlen2]
    · intro j hj
      rw [getD_set, getD_set, linkNew_getD, getD_append_replicate]
      simp only [List.length_set, linkNew_length, hlen2]
      split
      · omega
      · split
        · omega
        · split
          · omega
          · rfl
    · intro j hj hj2
      simp only [List.length_set, linkNew_length, hlen2] at hj2
      rw [getD_set, getD_set, linkNew_getD, getD_append_replicate]
      simp only [List.length_set, linkNew_length, hlen2]
      split
      · omega
      · split
        · omega
        · split
          · rfl
          · exact hwf.link j hj (by omega)
    · simp only [List.length_set, linkNew_length, hlen2]
      rw [getD_set, getD_set]
      simp only [List.length_set, linkNew_length, hlen2, true_and]
      split
      · omega
      · split
        · rfl
        · omega
  · -- the free list is empty
    have hlen : s._MetaData.length = size s := by have := hwf.size_le; omega
    have hnext : s._NextFree = _NO_MORE_FREE c := by rw [hwf.next, if_neg hfree]
    refine ⟨(linkNew (s._MetaData ++ List.replicate (newSize - s._MetaData.length) 0)
        (newSize - 1 - s._MetaData.length) s._MetaData.length).set (newSize - 1)
        (_NO_MORE_FREE c), ?_, ?_, ?_, ?_, ?_⟩
    · unfold grow
      dsimp only
      rw [← hsize]
      simp only [hnew, gt_iff_lt, not_true_eq_false, if_false, hnext, walkFree, ne_eq,
        not_true_eq_false, false_and, if_true]
      rw [hlen]
    · simp only [List.length_set, linkNew_length, hlen2]
    · intro j hj
      rw [getD_set, linkNew_getD, getD_append_replicate]
      split
      · omega
      · split
        · omega
        · rfl
    · intro j hj hj2
      simp only [List.length_set, linkNew_length, hlen2] at hj2
      rw [getD_set, linkNew_getD]
      simp only [linkNew_length, hlen2]
      split
      · omega
      · split
        · rfl
        · omega
    · simp only [List.length_set, linkNew_length, hlen2]
      rw [getD_set]
      simp only [linkNew_length, hlen2, true_and]
      split
      · rfl
      · omega

theorem grow_frame (c : Config) (s s1 : State) (n : Nat) (h : grow c s n = .ok s1) :
    s1 = { s with _MetaData := s1._MetaData, _NextFree := s1._NextFree } := by
  unfold grow at h
  simp only at h
  repeat' split at h
  all_goals first | (cases h; done) | (cases h; rfl)

theorem allocNext_frame (c : Config) (s s1 : State) (i : Nat) (h : AllocNext c s = .ok (i, s1)) :
    s1 = { s with _MetaData := s1._MetaData, _NextFree := s1._NextFree } := by
  unfold AllocNext at h
  split at h
  · injection h with h
    injection h with _ h
    subst h
    rfl
  · split at h
    · cases h
    · rename_i s2 hs2
      have hm : s2 = { s with _MetaData := s2._MetaData, _NextFree := s2._NextFree } := by
        split at hs2
        · exact grow_frame c s s2 0 hs2
        · injection hs2 with hs2
          subst hs2
          rfl
      split at h
      · cases h
      · injection h with h
        injection h with _ h
        subst h
        rw [hm]

theorem run_frame (c : Config) (s : State) (call : AddCall) :
    (call.run c s).2._InitMPIOK = s._InitMPIOK ∧
      (call.run c s).2._ElementSize = s._ElementSize ∧
      (call.run c s).2._IsIndexed = s._IsIndexed ∧
      (call.run c s).2._CGlobalValid = s._CGlobalValid ∧
      (call.run c s).2._CGlobal = s._CGlobal := by
  cases call with
  | AddLocalPoint g =>
    simp only [AddCall.run, AddLocalPoint]
    split
    · exact ⟨rfl, rfl, rfl, rfl, rfl⟩
    · rename_i id s1 heq
      have hm := allocNext_frame c s s1 id heq
      split
      · rw [hm]; exact ⟨rfl, rfl, rfl, rfl, rfl⟩
      · split <;> (rw [hm]; exact ⟨rfl, rfl, rfl, rfl, rfl⟩)
  | AddGhostPoint g =>
    simp only [AddCall.run, AddGhostPoint]
    split
    · exact ⟨rfl, rfl, rfl, rfl, rfl⟩
    · split
      · exact ⟨rfl, rfl, rfl, rfl, rfl⟩
      · split
        · exact ⟨rfl, rfl, rfl, rfl, rfl⟩
        · rename_i id s1 heq
          have hm := allocNext_frame c s s1 id heq
          split <;> (rw [hm]; exact ⟨rfl, rfl, rfl, rfl, rfl⟩)

theorem run_wf (c : Config) (hc : GrowOk c) (s : State) (call : AddCall) (hwf : WF c s) :
    WF c (call.run c s).2 := by
  by_cases hex : IsFlagSet ((size s + 1) % 2 ^ c.bits) (_FLAG_DELETED c ||| _FLAG_GHOST c) = true
  · cases call with
    | AddLocalPoint g =>
      simp only [AddCall.run, addLocalPoint_exhausted c s g hex]
      exact hwf
    | AddGhostPoint g =>
      simp only [AddCall.run]
      by_cases hd : (mapFind s._GhostMap g).isSome = true ∨ (mapFind s._IndexMap g).isSome = true
      · rw [addGhostPoint_dup c s g hd]
        exact hwf
      · have h1 : (mapFind s._GhostMap g).isSome = false := by
          cases hh : (mapFind s._GhostMap g).isSome
          · rfl
          · exact absurd (Or.inl hh) hd
        have h2 : (mapFind s._IndexMap g).isSome = false := by
          cases hh : (mapFind s._IndexMap g).isSome
          · rfl
          · exact absurd (Or.inr hh) hd
        rw [addGhostPoint_exhausted c s g h1 h2 hex]
        exact hwf
  · have hne : IsFlagSet ((size s + 1) % 2 ^ c.bits) (_FLAG_DELETED c ||| _FLAG_GHOST c) = false := by
      simpa using hex
    cases call with
    | AddLocalPoint g =>
      obtain ⟨p, hrun, hwfp, -⟩ := addLocalPoint_spec c s g hc hwf hne
      simp only [AddCall.run, hrun]
      exact hwfp
    | AddGhostPoint g =>
      simp only [AddCall.run]
      by_cases hd : (mapFind s._GhostMap g).isSome = true ∨ (mapFind s._IndexMap g).isSome = true
      · rw [addGhostPoint_dup c s g hd]
        exact hwf
      · have h1 : (mapFind s._GhostMap g).isSome = false := by
          cases hh : (mapFind s._GhostMap g).isSome
          · rfl
          · exact absurd (Or.inl hh) hd
        have h2 : (mapFind s._IndexMap g).isSome = false := by
          cases hh : (mapFind s._IndexMap g).isSome
          · rfl
          · exact absurd (Or.inr hh) hd
        obtain ⟨p, hrun, hwfp, -⟩ := addGhostPoint_spec c s g hc hwf h1 h2 hne
        simp only [hrun]
        exact hwfp

theorem reserve_spec (c : Config) (s : State) (n e : Nat) (hwf : WF c s)
    (hinit : s._InitMPIOK = true) (hn : n < 2 ^ c.bits) :
    ∃ s1, reserve c s n e = .ok s1 ∧ WF c s1 ∧ s1._InitMPIOK = true ∧
      s1._LocalSize = s._LocalSize ∧ s1._GhostSize = s._GhostSize ∧
      s1._IndexMap = s._IndexMap ∧ s1._GhostMap = s._GhostMap ∧
      (∀ j, j < size s → metaAt s1 j = metaAt s j) ∧
      s1._MetaData.length = max s._MetaData.length n ∧
      (n ≤ s._MetaData.length → s1 = s) := by
  by_cases hle : n ≤ s._MetaData.length
  · refine ⟨s, ?_, hwf, hinit, rfl, rfl, rfl, rfl, fun _ _ => rfl, ?_, fun _ => rfl⟩
    · unfold reserve
      simp [hinit, hle]
    · rw [max_eq_left hle]
  · have hgb : n - s._MetaData.length ≠ 0 := by omega
    obtain ⟨md, hgrow, hlen, hold, hlink, hlast⟩ := grow_wf c s (n - s._MetaData.length) n hwf
      (by rw [if_pos hgb]; omega) (by omega) hn
    refine ⟨{ s with _MetaData := md, _NextFree := size s }, ?_, ?_, hinit, rfl, rfl, rfl, rfl,
      ?_, ?_, fun h => absurd h hle⟩
    · unfold reserve
      simp only [hinit, not_true_eq_false, if_false, hle, hgrow]
    · have hsz : size ({ s with _MetaData := md, _NextFree := size s } : State) = size s := rfl
      refine ⟨?_, ?_, ?_, ?_, ?_, ?_⟩
      · rw [hsz]; show size s ≤ md.length; have := hwf.size_le; omega
      · rw [hsz]; exact hwf.size_lt
      · show md.length < 2 ^ c.bits; omega
      · rw [hsz]
        show size s = if size s < md.length then size s else _NO_MORE_FREE c
        have := hwf.size_le
        rw [if_pos (by omega)]
      · intro i hi hi2
        exact hlink i hi hi2
      · intro _
        exact hlast
    · intro j hj
      exact hold j hj
    · show md.length = max s._MetaData.length n
      rw [hlen, max_eq_right (by omega)]

theorem allocNext_cases (c : Config) (hc : GrowOk c) (s : State) (hwf : WF c s)
    (hne : Exhausted c s = false) :
    ∃ s1, AllocNext c s = .ok (size s, s1) ∧ size s ≠ _NO_MORE_FREE c ∧
      size s < s1._MetaData.length ∧
      (s._NextFree = _NO_MORE_FREE c → s._MetaData.length < s1._MetaData.length) ∧
      (s._NextFree ≠ _NO_MORE_FREE c → s1._MetaData = s._MetaData) := by
  have hfg := flagGhost_lt c hc.1
  have hsz := hwf.size_lt
  have hsne : size s ≠ _NO_MORE_FREE c := by unfold _NO_MORE_FREE; omega
  obtain ⟨md, halloc, hlt, -⟩ := allocNext_ok c s hc hwf hne
  refine ⟨_, halloc, hsne, hlt, ?_, ?_⟩
  · intro hnf
    show s._MetaData.length < md.length
    have hnext := hwf.next
    rw [hnf] at hnext
    by_cases hfree : size s < s._MetaData.length
    · rw [if_pos hfree] at hnext
      exact absurd hnext.symm hsne
    · omega
  · intro hnf
    show md = s._MetaData
    have h2 := halloc
    unfold AllocNext at h2
    have hne' : IsFlagSet ((size s + 1) % 2 ^ c.bits) (_FLAG_DELETED c ||| _FLAG_GHOST c) = false :=
      hne
    simp only [hne', Bool.false_eq_true, if_false, hnf] at h2
    injection h2 with h2
    injection h2 with _ h2
    have := congrArg State._MetaData h2
    exact this.symm

theorem allOk_eq_some {α : Type} (rs : List (Except Error α)) (as : List α)
    (h : allOk rs = some as) : rs = as.map Except.ok := by
  induction rs generalizing as with
  | nil =>
    simp only [allOk, Option.some.injEq] at h
    subst h
    rfl
  | cons r rest ih =>
    cases r with
    | error e => simp [allOk] at h
    | ok a =>
      simp only [allOk, Option.map_eq_some'] at h
      obtain ⟨as', h1, h2⟩ := h
      subst h2
      rw [ih as' h1]
      rfl

theorem allOk_map_ok {α : Type} (as : List α) : allOk (as.map Except.ok) = some as := by
  induction as with
  | nil => rfl
  | cons a rest ih => simp [allOk, ih]

theorem allOk_blocked {α β : Type} (rs : List (Except Error α)) (h : rs ≠ []) :
    allOk (blocked rs : List (Except Error β)) = none := by
  cases rs with
  | nil => exact absurd rfl h
  | cons r rest =>
    cases r <;> simp [blocked, allOk]

theorem lookupAll_isSome (m : TMap) : ∀ xs : List Nat,
    (∀ x ∈ xs, (mapFind m x).isSome = true) → ∃ ls, lookupAll m xs = some ls := by
  intro xs
  induction xs with
  | nil => intro _; exact ⟨[], rfl⟩
  | cons x xs ih =>
    intro h
    obtain ⟨ls, hls⟩ := ih (fun y hy => h y (List.mem_cons_of_mem _ hy))
    have hx := h x (List.mem_cons_self _ _)
    cases hm : mapFind m x with
    | none => rw [hm] at hx; cases hx
    | some l => exact ⟨l :: ls, by simp [lookupAll, hm, hls]⟩

/-! ## Global IDs read back from the registry -/

theorem rank_length {α β γ : Type} (L : List α) (f : Nat × α → γ) (g : β → γ) (built : List β)
    (h : L.enum.map f = built.map g) : built.length = L.length := by
  have := congrArg List.length h
  simpa using this.symm

theorem mapSet_length (m : TMap) (k v : Nat) (h : mapFind m k = none) :
    (mapSet m k v).length = m.length + 1 := by
  induction m with
  | nil => rfl
  | cons a rest ih =>
    obtain ⟨k', v'⟩ := a
    by_cases hk : k' = k
    · simp [mapFind, hk] at h
    · simp only [mapFind, hk, if_false] at h
      simp only [mapSet, hk, if_false]
      split
      · simp
      · simp [ih h]

theorem run_ghostSize (c : Config) (s : State) (call : AddCall)
    (h : s._GhostSize = s._GhostMap.length) :
    (call.run c s).2._GhostSize = (call.run c s).2._GhostMap.length := by
  cases call with
  | AddLocalPoint g =>
    simp only [AddCall.run, AddLocalPoint]
    split
    · exact h
    · rename_i id s1 heq
      have hm := allocNext_frame c s s1 id heq
      have h1 : s1._GhostSize = s1._GhostMap.length := by rw [hm]; exact h
      split
      · exact h1
      · split <;> exact h1
  | AddGhostPoint g =>
    simp only [AddCall.run, AddGhostPoint]
    split
    · exact h
    · rename_i hg
      split
      · exact h
      · split
        · exact h
        · rename_i id s1 heq
          have hm := allocNext_frame c s s1 id heq
          have h1 : s1._GhostSize = s1._GhostMap.length := by rw [hm]; exact h
          have h2 : s1._GhostMap = s._GhostMap := by rw [hm]
          split
          · exact h1
          · show s1._GhostSize + 1 = (mapSet s1._GhostMap g id).length
            rw [mapSet_length, h1]
            rw [h2]
            cases hf : mapFind s._GhostMap g with
            | none => rfl
            | some v => rw [hf] at hg; simp at hg

theorem enum_map_getD {α β : Type} (L : List α) (f : Nat × α → β) (i : Nat) (a : α) (d : β)
    (h : L[i]? = some a) : (L.enum.map f).getD i d = f (i, a) := by
  simp [List.getD_eq_getElem?_getD, List.getElem?_map, List.getElem?_enum, h]

theorem getD_set_int (d : List Int) (i j : Nat) (v : Int) :
    (d.set i v).getD j 0 = if i = j ∧ i < d.length then v else d.getD j 0 := by
  simp only [List.getD_eq_getElem?_getD, List.getElem?_set]
  by_cases h : i = j
  · subst h
    by_cases h2 : i < d.length
    · simp [h2]
    · simp [h2, List.getElem?_eq_none (Nat.le_of_not_lt h2)]
  · simp [h]

theorem writes_length (ws : List (Nat × Int)) : ∀ d : List Int,
    (ws.foldl (fun d w => d.set w.1 w.2) d).length = d.length := by
  induction ws with
  | nil => intro d; rfl
  | cons w rest ih => intro d; simp only [List.foldl_cons, ih, List.length_set]

theorem writes_getD (ws : List (Nat × Int)) : ∀ (d : List Int) (pos : Nat),
    (ws.foldl (fun d w => d.set w.1 w.2) d).getD pos 0 =
      match lastWrite ws pos with
      | some v => if pos < d.length then v else 0
      | none => d.getD pos 0 := by
  induction ws with
  | nil => intro d pos; rfl
  | cons w rest ih =>
    intro d pos
    simp only [List.foldl_cons, ih, lastWrite, List.length_set]
    cases hl : lastWrite rest pos with
    | some v => rfl
    | none =>
      simp only [getD_set_int]
      by_cases h1 : w.1 = pos
      · by_cases h2 : pos < d.length
        · simp [h1, h2]
        · simp [h1, h2, List.getElem?_eq_none (Nat.le_of_not_lt h2)]
      · simp [h1]

theorem ext_getD (l1 l2 : List Int) (hlen : l1.length = l2.length)
    (h : ∀ i, l1.getD i 0 = l2.getD i 0) : l1 = l2 := by
  apply List.ext_getElem hlen
  intro i h1 h2
  have := h i
  simp only [List.getD_eq_getElem?_getD, List.getElem?_eq_getElem h1,
    List.getElem?_eq_getElem h2, Option.getD_some] at this
  exact this

theorem writes_idem (ws : List (Nat × Int)) (d : List Int) :
    ws.foldl (fun d w => d.set w.1 w.2) (ws.foldl (fun d w => d.set w.1 w.2) d)
      = ws.foldl (fun d w => d.set w.1 w.2) d := by
  apply ext_getD
  · rw [writes_length]
  · intro i
    rw [writes_getD ws (ws.foldl (fun d w => d.set w.1 w.2) d) i, writes_getD ws d i,
      writes_length]
    cases lastWrite ws i <;> rfl

theorem lastWrite_none (ws : List (Nat × Int)) (pos : Nat) (h : pos ∉ ws.map Prod.fst) :
    lastWrite ws pos = none := by
  induction ws with
  | nil => rfl
  | cons w rest ih =>
    simp only [List.map_cons, List.mem_cons, not_or] at h
    simp only [lastWrite, ih h.2]
    rw [if_neg (fun hw => h.1 hw.symm)]

theorem mem_positions (e : Nat) (ids : List Nat) (pos : Nat) :
    pos ∈ positions e ids ↔ ∃ l ∈ ids, ∃ k, k < e ∧ pos = l * e + k := by
  unfold positions
  simp only [List.mem_flatMap, List.mem_map, List.mem_range]
  constructor
  · rintro ⟨l, hl, k, hk, rfl⟩
    exact ⟨l, hl, k, hk, rfl⟩
  · rintro ⟨l, hl, k, hk, rfl⟩
    exact ⟨l, hl, k, hk, rfl⟩

theorem block_inj (e l k l' k' : Nat) (hk : k < e) (hk' : k' < e)
    (h : l * e + k = l' * e + k') : l = l' := by
  have h1 : (l * e + k) / e = l := by
    rw [Nat.mul_comm, Nat.mul_add_div (by omega), Nat.div_eq_of_lt hk, Nat.add_zero]
  have h2 : (l' * e + k') / e = l' := by
    rw [Nat.mul_comm, Nat.mul_add_div (by omega), Nat.div_eq_of_lt hk', Nat.add_zero]
  rw [← h1, h, h2]

theorem scatter_getD_other (e : Nat) (d : List Int) (ids : List Nat) (buf : List Int)
    (pos : Nat) (h : pos ∉ positions e ids) :
    (scatter e d ids buf).getD pos 0 = d.getD pos 0 := by
  unfold scatter
  rw [writes_getD, lastWrite_none]
  intro hmem
  apply h
  obtain ⟨w, hw, rfl⟩ := List.mem_map.1 hmem
  obtain ⟨a, b⟩ := w
  exact (List.of_mem_zip hw).1


theorem gather_scatter (e : Nat) (d : List Int) (sendIDs recvIDs : List Nat) (buf : List Int)
    (hdisj : ∀ l ∈ sendIDs, l ∉ recvIDs) :
    gather e (scatter e d recvIDs buf) sendIDs = gather e d sendIDs := by
  unfold gather
  apply List.flatMap_congr
  intro l hl
  apply List.map_congr_left
  intro k hk
  apply scatter_getD_other
  intro hmem
  obtain ⟨l', hl', k', hk', heq⟩ := (mem_positions e recvIDs _).1 hmem
  have := block_inj e l k l' k' (List.mem_range.1 hk) hk' heq
  subst this
  exact hdisj l hl hl'

theorem scatter_idem (e : Nat) (d : List Int) (ids : List Nat) (buf : List Int) :
    scatter e (scatter e d ids buf) ids buf = scatter e d ids buf := by
  unfold scatter
  exact writes_idem _ d

theorem recvAt_idem {α : Type} (dflt : α) (msgs : List (Nat × List α)) (old : List α) (n : Nat) :
    (List.range n).map (recvAt dflt msgs ((List.range n).map (recvAt dflt msgs old)))
      = (List.range n).map (recvAt dflt msgs old) := by
  apply List.map_congr_left
  intro pos hpos
  have hlt := List.mem_range.1 hpos
  unfold recvAt
  cases hf : msgs.find? (fun dm => decide (dm.1 ≤ pos) && decide (pos < dm.1 + dm.2.length)) with
  | some dm => rfl
  | none =>
    simp only
    rw [List.getD_eq_getElem?_getD, List.getElem?_map, List.getElem?_range hlt]
    simp only [Option.map_some', Option.getD_some, recvAt, hf]

/-! ## `MPI_Alltoallv` on buffers that hold what it delivered -/

theorem enum_map_enum {α β : Type} (l : List α) (F : Nat × α → β) :
    (l.enum.map F).enum = l.enum.map (fun ia => (ia.1, F ia)) := by
  apply List.ext_getElem?
  intro i
  simp only [List.getElem?_enum, List.getElem?_map]
  cases l[i]? <;> rfl

theorem enum_all_snd {α : Type} (l : List α) (g : α → Bool) :
    l.enum.all (fun ia => g ia.2) = l.all g := by
  apply Bool.eq_iff_iff.2
  simp only [List.all_eq_true]
  constructor
  · intro h a ha
    obtain ⟨i, hi⟩ := List.mem_iff_getElem?.1 ha
    exact h (i, a) (List.mk_mem_enum_iff_getElem?.2 hi)
  · intro h ia hia
    obtain ⟨i, a⟩ := ia
    exact h a (List.getElem?_mem (List.mk_mem_enum_iff_getElem?.1 hia))

theorem all_map_gen {α β : Type} (f : α → β) (p : β → Bool) : ∀ l : List α,
    (l.map f).all p = l.all (fun a => p (f a)) := by
  intro l
  induction l with
  | nil => rfl
  | cons a rest ih => simp only [List.map_cons, List.all_cons, ih]

theorem alltoallvOk_refill {α : Type} (dflt : α) (xs : List (Exchange α)) :
    alltoallvOk (xs.enum.map (refill dflt xs)) = alltoallvOk xs := by
  unfold alltoallvOk
  simp only [all_map_gen, enum_map_enum, List.length_map, List.enum_length,
    List.length_range, refill]
  rw [enum_all_snd xs (fun a =>
    decide (a.sendCount.length = xs.length) && decide (a.sendDispl.length = xs.length)
      && decide (a.recvCount.length = xs.length) && decide (a.recvDispl.length = xs.length)
      && (a.sendDispl.zip a.sendCount).all (fun dn =>
            decide (dn.2 = 0) || decide (dn.1 + dn.2 ≤ a.sendBuf.length))
      && (a.recvDispl.zip a.recvCount).all (fun dn =>
            decide (dn.2 = 0) || decide (dn.1 + dn.2 ≤ a.recvBuf.length))
      && decide ((a.recvDispl.zip a.recvCount).Pairwise (fun s t =>
            s.2 = 0 ∨ t.2 = 0 ∨ s.1 + s.2 ≤ t.1 ∨ t.1 + t.2 ≤ s.1)))]

theorem incoming_refill {α : Type} (dflt : α) (xs : List (Exchange α)) (jb : Nat × Exchange α) :
    incoming (xs.enum.map (refill dflt xs)) jb.1 (refill dflt xs jb) = incoming xs jb.1 jb.2 := by
  unfold incoming
  simp only [enum_map_enum, List.map_map, refill]
  rfl

theorem alltoallv_refill {α : Type} (dflt : α) (xs : List (Exchange α)) :
    alltoallv dflt (xs.enum.map (refill dflt xs)) = alltoallv dflt xs := by
  unfold alltoallv
  rw [alltoallvOk_refill]
  split
  · congr 1
    rw [enum_map_enum, List.map_map]
    apply List.map_congr_left
    intro jb _
    simp only [Function.comp]
    rw [incoming_refill dflt xs jb]
    simp only [refill, List.length_map, List.length_range]
    exact recvAt_idem dflt _ _ _
  · rfl

theorem alltoallv_eq {α : Type} (dflt : α) (xs : List (Exchange α)) (bufs : List (List α))
    (h : alltoallv dflt xs = some bufs) :
    bufs = xs.enum.map (fun jb => (refill dflt xs jb).recvBuf) := by
  unfold alltoallv at h
  split at h
  · injection h with h
    rw [← h]
    rfl
  · cases h

/-! ## C19: `synchronize` run twice -/

theorem map_ok_of_allOk {α β : Type} (l : List α) (f : α → Except Error β) (g : α → β)
    (out : List β) (h : allOk (l.map f) = some out)
    (hfg : ∀ a ∈ l, ∀ b, f a = .ok b → b = g a) :
    out = l.map g ∧ ∀ a ∈ l, f a = .ok (g a) := by
  have h1 := allOk_eq_some _ _ h
  have h2 : ∀ a ∈ l, f a = .ok (g a) := by
    intro a ha
    have hm : f a ∈ out.map Except.ok := by rw [← h1]; exact List.mem_map_of_mem f ha
    obtain ⟨b, _, hb⟩ := List.mem_map.1 hm
    rw [← hb, hfg a ha b hb.symm]
  refine ⟨?_, h2⟩
  have h3 : l.map f = (l.map g).map Except.ok := by
    rw [List.map_map]
    exact List.map_congr_left h2
  rw [h3, allOk_map_ok] at h
  injection h with h
  exact h.symm

theorem allOk_errors {α β : Type} (l : List α) (e : Error) (h : l ≠ []) :
    allOk (l.map (fun _ => (Except.error e : Except Error β))) = none := by
  cases l with
  | nil => exact absurd rfl h
  | cons a rest => rfl

theorem syncGather_ok (x : Ext) (p : Proc) (ex : Exchange Int) (h : syncGather x p = .ok ex) :
    ex = syncExchange x p := by
  unfold syncGather at h
  split at h
  · cases h
  · split at h
    · cases h
    · split at h
      · injection h with h; exact h.symm
      · cases h

theorem syncScatter_ok (x : Ext) (p : Proc) (R : List Int) (p1 : Proc)
    (h : syncScatter x p R = .ok p1) : p1 = syncResult x p R := by
  unfold syncScatter at h
  split at h
  · injection h with h; exact h.symm
  · cases h

theorem syncGather_again (x : Ext) (p : Proc) (R : List Int)
    (h : syncGather x p = .ok (syncExchange x p)) :
    syncGather x (syncResult x p R) = .ok (syncExchange x (syncResult x p R)) := by
  unfold syncGather at h ⊢
  split at h
  · cases h
  · rename_i h1
    split at h
    · cases h
    · rename_i h2
      split at h
      · rename_i h3
        have h1' : ¬ (syncResult x p R).m_sendLocalIDs.length
            * elemsize x (syncResult x p R).reg = 0 := h1
        have h2' : ¬ (syncResult x p R).m_recvLocalIDs.length
            * elemsize x (syncResult x p R).reg = 0 := h2
        rw [if_neg h1', if_neg h2']
        exact if_pos h3
      · cases h

theorem syncScatter_again (x : Ext) (p : Proc) (R R' : List Int)
    (h : syncScatter x p R = .ok (syncResult x p R)) :
    syncScatter x (syncResult x p R) R' = .ok (syncResult x (syncResult x p R) R') := by
  unfold syncScatter at h ⊢
  split at h
  · rename_i h1
    exact if_pos h1
  · cases h

theorem resize_self (l : List Int) (n : Nat) (h : l.length = n) : resize l n = l := by
  unfold resize
  rw [← h, List.take_length, Nat.sub_self]
  simp

theorem resize_length (l : List Int) (n : Nat) : (resize l n).length = n := by
  unfold resize
  simp only [List.length_append, List.length_take, List.length_replicate]
  omega

theorem map_enum {α β : Type} (l : List α) (f : α → β) :
    (l.map f).enum = l.enum.map (fun ia => (ia.1, f ia.2)) := by
  apply List.ext_getElem?
  intro i
  simp only [List.getElem?_enum, List.getElem?_map]
  cases l[i]? <;> rfl

theorem MPI_Alltoallv_some {α : Type} (c : Config) (dflt : α) (xs : List (Exchange α))
    (bufs : List (List α)) (h : MPI_Alltoallv c dflt xs = some bufs) :
    xs.all (intArgsOk c) = true ∧ alltoallv dflt xs = some bufs := by
  unfold MPI_Alltoallv at h
  split at h
  · rename_i hall
    exact ⟨hall, h⟩
  · cases h

theorem MPI_Alltoallv_eq {α : Type} (c : Config) (dflt : α) (xs : List (Exchange α))
    (h : xs.all (intArgsOk c) = true) : MPI_Alltoallv c dflt xs = alltoallv dflt xs := by
  unfold MPI_Alltoallv
  rw [if_pos h]

theorem intArgsOk_refill {α : Type} (c : Config) (dflt : α) (xs : List (Exchange α)) :
    (xs.enum.map (refill dflt xs)).all (intArgsOk c) = xs.all (intArgsOk c) := by
  rw [all_map_gen, ← enum_all_snd xs (intArgsOk c)]
  rfl

theorem synchronize_mpi (c : Config) (x : Ext) (procs once : List Proc)
    (hlen : 1 < procs.length) (h : allOk (synchronize c x procs) = some once) :
    ∃ bufs, MPI_Alltoallv c 0 (procs.map (syncExchange x)) = some bufs ∧
      (∀ p ∈ procs, syncGather x p = .ok (syncExchange x p)) ∧
      (∀ rp ∈ procs.enum,
        syncScatter x rp.2 (bufs.getD rp.1 []) = .ok (syncResult x rp.2 (bufs.getD rp.1 []))) ∧
      once = procs.enum.map (fun rp => syncResult x rp.2 (bufs.getD rp.1 [])) := by
  have hne : procs ≠ [] := by
    intro h0; rw [h0] at hlen; simp at hlen
  unfold synchronize at h
  rw [if_neg (by omega)] at h
  cases hA : allOk (procs.map (syncGather x)) with
  | none =>
    rw [hA] at h
    simp only at h
    rw [allOk_blocked _ (by simpa using hne)] at h
    cases h
  | some exs =>
    rw [hA] at h
    simp only at h
    obtain ⟨hexs, hg⟩ := map_ok_of_allOk procs (syncGather x) (syncExchange x) exs hA
      (fun p _ b hb => syncGather_ok x p b hb)
    cases hV : MPI_Alltoallv c 0 exs with
    | none =>
      rw [hV] at h
      simp only at h
      rw [allOk_errors procs _ hne] at h
      cases h
    | some bufs =>
      rw [hV] at h
      simp only at h
      obtain ⟨honce, hs⟩ := map_ok_of_allOk procs.enum
        (fun rp => syncScatter x rp.2 (bufs.getD rp.1 []))
        (fun rp => syncResult x rp.2 (bufs.getD rp.1 [])) once h
        (fun rp _ b hb => syncScatter_ok x rp.2 _ b hb)
      rw [hexs] at hV
      exact ⟨bufs, hV, hg, hs, honce⟩

/-- C19 (amended): when on every process no local index of `m_sendLocalIDs` is
also in `m_recvLocalIDs`, and `synchronize` has completed on every process, a
second `synchronize` with no write in between completes on every process and
leaves every process as the first call left it, the payload of every slot
included. -/
theorem synchronize_idempotent (c : Config) (x : Ext) (procs once : List Proc)
    (hdisj : ∀ p ∈ procs, ∀ l ∈ p.m_sendLocalIDs, l ∉ p.m_recvLocalIDs)
    (h : allOk (synchronize c x procs) = some once) :
    synchronize c x once = once.map Except.ok := by
  by_cases hlen : procs.length ≤ 1
  · have h1 : synchronize c x procs = procs.map Except.ok := by
      unfold synchronize; rw [if_pos hlen]
    rw [h1, allOk_map_ok] at h
    injection h with h
    rw [← h]
    exact h1
  · obtain ⟨bufs, hVm, hg, hs, honce⟩ := synchronize_mpi c x procs once (by omega) h
    obtain ⟨hint, hV⟩ := MPI_Alltoallv_some c 0 _ bufs hVm
    have hbufs := alltoallv_eq 0 _ bufs hV
    have hR : ∀ rp ∈ procs.enum, bufs.getD rp.1 []
        = (refill 0 (procs.map (syncExchange x)) (rp.1, syncExchange x rp.2)).recvBuf := by
      intro rp hrp
      obtain ⟨i, p⟩ := rp
      have hp := List.mk_mem_enum_iff_getElem?.1 hrp
      rw [hbufs, map_enum, List.map_map]
      exact enum_map_getD procs _ i p [] hp
    have hex : ∀ rp ∈ procs.enum, syncExchange x (syncResult x rp.2 (bufs.getD rp.1 []))
        = refill 0 (procs.map (syncExchange x)) (rp.1, syncExchange x rp.2) := by
      intro rp hrp
      have hmem : rp.2 ∈ procs := by
        obtain ⟨i, p⟩ := rp
        exact List.getElem?_mem (List.mk_mem_enum_iff_getElem?.1 hrp)
      rw [hR rp hrp]
      show ({ sendBuf := gather (elemsize x rp.2.reg)
                (scatter (elemsize x rp.2.reg) rp.2.data rp.2.m_recvLocalIDs _)
                rp.2.m_sendLocalIDs,
              sendCount := rp.2.m_sendCount, sendDispl := rp.2.m_sendDispl,
              recvCount := rp.2.m_recvCount, recvDispl := rp.2.m_recvDispl,
              recvBuf := resize _ (rp.2.m_recvLocalIDs.length * elemsize x rp.2.reg) }
            : Exchange Int) = _
      rw [gather_scatter _ _ _ _ _ (hdisj rp.2 hmem), resize_self]
      · rfl
      · simp only [syncResult, refill, List.length_map, List.length_range, syncExchange,
          resize_length]
    have hres : ∀ rp ∈ procs.enum,
        syncResult x (syncResult x rp.2 (bufs.getD rp.1 [])) (bufs.getD rp.1 [])
          = syncResult x rp.2 (bufs.getD rp.1 []) := by
      intro rp hrp
      have hmem : rp.2 ∈ procs := by
        obtain ⟨i, p⟩ := rp
        exact List.getElem?_mem (List.mk_mem_enum_iff_getElem?.1 hrp)
      show ({ syncResult x rp.2 (bufs.getD rp.1 []) with
              m_sendBuf := gather (elemsize x rp.2.reg)
                (scatter (elemsize x rp.2.reg) rp.2.data rp.2.m_recvLocalIDs _)
                rp.2.m_sendLocalIDs,
              m_recvBuf := bufs.getD rp.1 [],
              data := scatter (elemsize x rp.2.reg)
                (scatter (elemsize x rp.2.reg) rp.2.data rp.2.m_recvLocalIDs _)
                rp.2.m_recvLocalIDs (bufs.getD rp.1 []) } : Proc) = _
      rw [gather_scatter _ _ _ _ _ (hdisj rp.2 hmem), scatter_idem]
      rfl
    have hlen1 : ¬ once.length ≤ 1 := by
      rw [honce]; simpa using hlen
    have hgather : once.map (syncGather x)
        = (((procs.map (syncExchange x)).enum.map
            (refill 0 (procs.map (syncExchange x))))).map Except.ok := by
      rw [honce, map_enum, List.map_map, List.map_map, List.map_map]
      apply List.map_congr_left
      intro rp hrp
      have hmem : rp.2 ∈ procs := by
        obtain ⟨i, p⟩ := rp
        exact List.getElem?_mem (List.mk_mem_enum_iff_getElem?.1 hrp)
      simp only [Function.comp]
      rw [syncGather_again x rp.2 _ (hg rp.2 hmem), hex rp hrp]
    unfold synchronize
    rw [if_neg hlen1, hgather, allOk_map_ok]
    simp only
    rw [MPI_Alltoallv_eq c 0 _ (by rw [intArgsOk_refill]; exact hint), alltoallv_refill, hV]
    simp only
    rw [honce, enum_map_enum, List.map_map, List.map_map]
    apply List.map_congr_left
    intro rp hrp
    simp only [Function.comp]
    rw [syncScatter_again x rp.2 _ _ (hs rp hrp), hres rp hrp]

/-- C19 (as stated) fails: rank 0 owns the global ID 5 with the value 100, rank 1
has it as a ghost with donor rank 0, and rank 2 has it as a ghost for which the
donor relation names rank 1. `BuildGhostMapAllToAll` resolves the request of
rank 2 on rank 1 through `GlobalToLocal`, which finds the ghost slot. The first
`synchronize` leaves the ghost of rank 2 at 0, the second one at 100. -/
theorem synchronize_twice_differs :
    (andThen (BuildGhostMap cfg32 ext8 "AllToAll" [chain0, chain1, chain2])
        (synchronize cfg32 ext8)).map (fun r => r.map Proc.data)
      = [.ok [100, 200, 300], .ok [200, 100, 0], .ok [300, 0, 0]] ∧
    (andThen (andThen (BuildGhostMap cfg32 ext8 "AllToAll" [chain0, chain1, chain2])
        (synchronize cfg32 ext8)) (synchronize cfg32 ext8)).map (fun r => r.map Proc.data)
      = [.ok [100, 200, 300], .ok [200, 100, 0], .ok [300, 100, 0]] := by
  decide

theorem synchronize_idempotent_witness :
    (∀ p ∈ completed (BuildGhostMap cfg32 ext8 "AllToAll" [scenario0, scenario1g]),
      ∀ l ∈ p.m_sendLocalIDs, l ∉ p.m_recvLocalIDs) ∧
    (completed (synchronize cfg32 ext8
      (completed (BuildGhostMap cfg32 ext8 "AllToAll" [scenario0, scenario1g])))).map Proc.data
      = [[10, 20, 30, 40, 0, 0, 0], [40, 50, 60, 10, 0, 0, 0]] ∧
    synchronize cfg32 ext8 (completed (synchronize cfg32 ext8
      (completed (BuildGhostMap cfg32 ext8 "AllToAll" [scenario0, scenario1g]))))
      = (completed (synchronize cfg32 ext8
      (completed (BuildGhostMap cfg32 ext8 "AllToAll" [scenario0, scenario1g])))).map
        Except.ok :=
  ⟨by decide, by decide,
    synchronize_idempotent cfg32 ext8
      (completed (BuildGhostMap cfg32 ext8 "AllToAll" [scenario0, scenario1g]))
      (completed (synchronize cfg32 ext8
        (completed (BuildGhostMap cfg32 ext8 "AllToAll" [scenario0, scenario1g]))))
      (by decide) (by decide)⟩

/-! ## What `MPI_Alltoallv` delivers -/

theorem allOk_enum {α β : Type} (L : List α) (f : Nat × α → Except Error β) (out : List β)
    (h : allOk (L.enum.map f) = some out) :
    out.length = L.length ∧
      ∀ i a, L[i]? = some a → ∃ b, out[i]? = some b ∧ f (i, a) = .ok b := by
  have h1 := allOk_eq_some _ _ h
  refine ⟨rank_length L f Except.ok out h1, ?_⟩
  intro i a ha
  have h2 := congrArg (fun l => l[i]?) h1
  simp only [List.getElem?_map, List.getElem?_enum, ha, Option.map_some'] at h2
  cases hb : out[i]? with
  | none => rw [hb] at h2; cases h2
  | some b =>
    rw [hb] at h2
    simp only [Option.map_some', Option.some.injEq] at h2
    exact ⟨b, rfl, h2⟩

theorem allOk_none_ne_nil {α : Type} (rs : List (Except Error α)) (h : allOk rs = none) :
    rs ≠ [] := by
  intro h0
  rw [h0] at h
  cases h

theorem resizeN_length (v : List Nat) (n : Nat) : (resizeN v n).length = n := by
  unfold resizeN
  simp only [List.length_append, List.length_take, List.length_replicate]
  omega

theorem countP_take_succ (P : Nat → Bool) (i0 : Nat) (rest : List Nat) (k : Nat) :
    ((i0 :: rest).take (k + 1)).countP P = (if P i0 then 1 else 0) + (rest.take k).countP P := by
  rw [List.take_succ_cons, List.countP_cons]
  omega

theorem cglobalLoop_spec (c : Config) (s : State) :
    ∀ (is : List Nat) (StartID : Nat) (cg gh : List Nat), StartID < 2 ^ c.bits →
      (cglobalLoop c s is StartID cg gh).2 = gh ++ is.filter (IsGhost c s) ∧
      (cglobalLoop c s is StartID cg gh).1.length = cg.length ∧
      (∀ j, (j ∉ is ∨ IsGhost c s j = true) →
        (cglobalLoop c s is StartID cg gh).1.getD j 0 = cg.getD j 0) ∧
      (is.Nodup → (∀ i ∈ is, i < cg.length) → ∀ k i, is[k]? = some i →
        IsGhost c s i = false →
        (cglobalLoop c s is StartID cg gh).1.getD i 0
          = (StartID + (is.take k).countP (fun j => !IsGhost c s j)) % 2 ^ c.bits) := by
  intro is
  induction is with
  | nil =>
    intro StartID cg gh _
    refine ⟨by simp [cglobalLoop], rfl, fun _ _ => rfl, ?_⟩
    intro _ _ k i hk
    simp at hk
  | cons i0 rest ih =>
    intro StartID cg gh hS
    by_cases hg : IsGhost c s i0 = true
    · have hstep : cglobalLoop c s (i0 :: rest) StartID cg gh
          = cglobalLoop c s rest StartID cg (gh ++ [i0]) := by
        rw [cglobalLoop, if_pos hg]
      obtain ⟨h1, h2, h3, h4⟩ := ih StartID cg (gh ++ [i0]) hS
      rw [hstep]
      refine ⟨?_, h2, ?_, ?_⟩
      · rw [h1, List.filter_cons_of_pos hg, List.append_assoc]
        rfl
      · intro j hj
        apply h3 j
        rcases hj with hj | hj
        · left
          intro hmem
          exact hj (List.mem_cons_of_mem _ hmem)
        · right; exact hj
      · intro hnd hlt k i hk hgi
        cases k with
        | zero =>
          simp only [List.getElem?_cons_zero, Option.some.injEq] at hk
          subst hk
          rw [hg] at hgi
          cases hgi
        | succ k =>
          simp only [List.getElem?_cons_succ] at hk
          rw [h4 (List.nodup_cons.1 hnd).2 (fun i hi => hlt i (List.mem_cons_of_mem _ hi))
            k i hk hgi, countP_take_succ]
          simp [hg]
    · have hg' : IsGhost c s i0 = false := by
        cases h : IsGhost c s i0
        · rfl
        · exact absurd h hg
      have hstep : cglobalLoop c s (i0 :: rest) StartID cg gh
          = cglobalLoop c s rest ((StartID + 1) % 2 ^ c.bits) (cg.set i0 StartID) gh := by
        rw [cglobalLoop, if_neg hg]
      have hpos : 0 < 2 ^ c.bits := Nat.pos_of_ne_zero (by positivity)
      obtain ⟨h1, h2, h3, h4⟩ := ih ((StartID + 1) % 2 ^ c.bits) (cg.set i0 StartID) gh
        (Nat.mod_lt _ hpos)
      rw [hstep]
      refine ⟨?_, ?_, ?_, ?_⟩
      · rw [h1, List.filter_cons_of_neg hg]
      · rw [h2, List.length_set]
      · intro j hj
        have hj0 : ¬ (i0 = j ∧ i0 < cg.length) := by
          intro h0
          rcases hj with hj | hj
          · exact hj (h0.1 ▸ List.mem_cons_self _ _)
          · rw [← h0.1, hg'] at hj
            cases hj
        rw [h3 j (by
          rcases hj with hj | hj
          · left
            intro hmem
            exact hj (List.mem_cons_of_mem _ hmem)
          · right; exact hj), getD_set, if_neg hj0]
      · intro hnd hlt k i hk hgi
        cases k with
        | zero =>
          simp only [List.getElem?_cons_zero, Option.some.injEq] at hk
          subst hk
          rw [h3 i0 (Or.inl (List.nodup_cons.1 hnd).1), getD_set,
            if_pos ⟨rfl, hlt i0 (List.mem_cons_self _ _)⟩]
          simp [Nat.mod_eq_of_lt hS]
        | succ k =>
          simp only [List.getElem?_cons_succ] at hk
          rw [h4 (List.nodup_cons.1 hnd).2
            (fun i hi => by rw [List.length_set]; exact hlt i (List.mem_cons_of_mem _ hi))
            k i hk hgi, countP_take_succ]
          simp only [hg', Bool.not_false, if_true]
          rw [Nat.mod_add_mod, Nat.add_assoc]

theorem scan_start (M a L : Nat) (hM : 0 < M) :
    ((a + L) % M + M - L % M) % M = a % M := by
  have h1 : L % M < M := Nat.mod_lt _ hM
  have h2 : ((a + L) % M + M - L % M) + L % M = (a + L) % M + M := by omega
  have h3 : (((a + L) % M + M - L % M) + L % M) % M = (a + L % M) % M := by
    rw [h2, Nat.add_mod_right, Nat.mod_mod, Nat.add_mod a L, Nat.add_mod a (L % M), Nat.mod_mod]
  have h4 : ((a + L) % M + M - L % M) % M = a % M := by
    have := Nat.ModEq.add_right_cancel' (L % M) (show Nat.ModEq M
      (((a + L) % M + M - L % M) + L % M) (a + L % M) from h3)
    exact this
  exact h4

theorem take_succ_sum (procs : List Proc) (p : Nat) (q : Proc) (hq : procs[p]? = some q) :
    ((procs.take (p + 1)).map (fun r => GetLocalSize r.reg)).sum
      = ((procs.take p).map (fun r => GetLocalSize r.reg)).sum + GetLocalSize q.reg := by
  have hp : p < procs.length := (List.getElem?_eq_some.1 hq).1
  have hq' : procs[p] = q := (List.getElem?_eq_some.1 hq).2
  rw [List.take_succ, List.getElem?_eq_getElem hp, hq']
  simp

theorem createIndex_frame (c : Config) (s s1 : State) (h : CreateIndex c s = .ok s1) :
    s1._MetaData = s._MetaData ∧ s1._LocalSize = s._LocalSize ∧ s1._GhostSize = s._GhostSize ∧
      s1._CGlobal = s._CGlobal ∧ s1._CGlobalValid = s._CGlobalValid ∧ s1._IsIndexed = true := by
  unfold CreateIndex at h
  split at h
  · cases h
  · injection h with h
    subst h
    exact ⟨rfl, rfl, rfl, rfl, rfl, rfl⟩

/-- The registry in which the ring of `BuildCGlobal` looks up global IDs: the
index is created first when there is none. -/
theorem indexed_frame (c : Config) (s s1 : State)
    (h : (if s._IsIndexed then Except.ok s else CreateIndex c s) = .ok s1) :
    s1._MetaData = s._MetaData ∧ s1._LocalSize = s._LocalSize ∧ s1._GhostSize = s._GhostSize ∧
      s1._CGlobal = s._CGlobal ∧ s1._CGlobalValid = s._CGlobalValid ∧ s1._IsIndexed = true := by
  split at h
  · rename_i hidx
    injection h with h
    subst h
    exact ⟨rfl, rfl, rfl, rfl, rfl, hidx⟩
  · exact createIndex_frame c s s1 h

theorem isGhost_congr (c : Config) (s s1 : State) (h : s1._MetaData = s._MetaData) (i : Nat) :
    IsGhost c s1 i = IsGhost c s i := by
  unfold IsGhost metaAt
  rw [h]

theorem cglobalLoop_congr (c : Config) (s s1 : State) (h : s1._MetaData = s._MetaData) :
    ∀ (is : List Nat) (StartID : Nat) (cg gh : List Nat),
      cglobalLoop c s1 is StartID cg gh = cglobalLoop c s is StartID cg gh := by
  intro is
  induction is with
  | nil => intro _ _ _; rfl
  | cons i rest ih =>
    intro S cg gh
    simp only [cglobalLoop, isGhost_congr c s s1 h, ih]

/-- What a process holds when it enters the ring of `BuildCGlobal`. -/
theorem cglobalStart_ok (c : Config) (procs : List Proc) (p : Nat) (q : Proc)
    (hq : procs[p]? = some q) (st : CGlobalStart) (h : cglobalStart c procs p q = .ok st) :
    q.reg._InitMPIOK = true ∧
    st.reg._MetaData = q.reg._MetaData ∧ st.reg._LocalSize = q.reg._LocalSize ∧
    st.reg._GhostSize = q.reg._GhostSize ∧ st.reg._IsIndexed = true ∧
    st.reg._CGlobalValid = q.reg._CGlobalValid ∧
    st.Ghosts = (List.range (size q.reg)).filter (IsGhost c q.reg) ∧
    st.Ghosts.length = q.reg._GhostSize ∧
    st.SendBuf = st.Ghosts.map (fun i => SetFlag (LocalToGlobal c q.reg i) (_FLAG_GHOST c)) ∧
    st.reg._CGlobal.length = size q.reg ∧
    (∀ i, i < size q.reg → IsGhost c q.reg i = false →
      st.reg._CGlobal.getD i 0
        = (((procs.take p).map (fun r => GetLocalSize r.reg)).sum
            + (List.range i).countP (fun j => !IsGhost c q.reg j)) % 2 ^ c.bits) ∧
    (st.reg._IsIndexed = q.reg._IsIndexed → st.reg._IndexMap = q.reg._IndexMap) := by
  unfold cglobalStart at h
  split at h
  · cases h
  · rename_i hinit
    split at h
    · cases h
    · rename_i s1 hs1
      obtain ⟨hmd, hls, hgs, hcg, hcv, hix⟩ := indexed_frame c q.reg s1 hs1
      have hsize : size s1 = size q.reg := by
        unfold size GetLocalSize GetGhostSize
        rw [hls, hgs]
      have hpos : 0 < 2 ^ c.bits := Nat.pos_of_ne_zero (by positivity)
      obtain ⟨l1, l2, l3, l4⟩ := cglobalLoop_spec c q.reg (List.range (size q.reg))
        ((mpiScan c procs p + 2 ^ c.bits - GetLocalSize s1 % 2 ^ c.bits) % 2 ^ c.bits)
        (resizeN s1._CGlobal (size s1)) [] (Nat.mod_lt _ hpos)
      simp only [BuildCGlobalLocal, hsize, cglobalLoop_congr c q.reg s1 hmd] at h
      split at h
      · cases h
      · rename_i hlen
        injection h with h
        subst h
        have hlen' := not_not.1 hlen
        simp only [GetGhostSize] at hlen'
        have hstart : (mpiScan c procs p + 2 ^ c.bits - GetLocalSize s1 % 2 ^ c.bits)
            % 2 ^ c.bits
            = ((procs.take p).map (fun r => GetLocalSize r.reg)).sum % 2 ^ c.bits := by
          unfold mpiScan
          rw [take_succ_sum procs p q hq]
          have : GetLocalSize s1 = GetLocalSize q.reg := hls
          rw [this]
          exact scan_start _ _ _ hpos
        refine ⟨by simpa using hinit, hmd, hls, hgs, hix, hcv, ?_, ?_, ?_, ?_, ?_, ?_⟩
        · show (cglobalLoop c q.reg _ _ _ _).2 = _
          rw [hsize] at l1
          rw [l1]
          rfl
        · rw [hlen']
          exact hgs
        · show List.map _ _ = List.map _ _
          apply List.map_congr_left
          intro i _
          unfold LocalToGlobal metaAt
          rw [show ({ s1 with _CGlobal := _ } : State)._MetaData = s1._MetaData from rfl, hmd]
        · show (cglobalLoop c q.reg _ _ _ _).1.length = _
          rw [hsize] at l2
          rw [l2, resizeN_length]
        · intro i hi hgi
          show (cglobalLoop c q.reg _ _ _ _).1.getD i 0 = _
          rw [hsize] at l4
          rw [l4 (List.nodup_range _)
            (fun j hj => by rw [resizeN_length]; exact List.mem_range.1 hj) i i
            (by rw [List.getElem?_range hi]) hgi, hstart, List.take_range,
            Nat.min_eq_left (le_of_lt hi), Nat.mod_add_mod]
        · intro hsame
          split at hs1
          · injection hs1 with hs1
            rw [← hs1]
          · rename_i hni
            rw [hix] at hsame
            exact absurd hsame.symm hni

theorem setAll_length : ∀ (ws : List (Nat × Nat)) (cg : List Nat),
    (ws.foldl (fun cg w => cg.set w.1 w.2) cg).length = cg.length := by
  intro ws
  induction ws with
  | nil => intro cg; rfl
  | cons w rest ih =>
    intro cg
    rw [List.foldl_cons, ih, List.length_set]

theorem setAll_getD_other : ∀ (ws : List (Nat × Nat)) (cg : List Nat) (j : Nat),
    j ∉ ws.map Prod.fst →
    (ws.foldl (fun cg w => cg.set w.1 w.2) cg).getD j 0 = cg.getD j 0 := by
  intro ws
  induction ws with
  | nil => intro cg j _; rfl
  | cons w rest ih =>
    intro cg j hj
    rw [List.foldl_cons, ih _ j (fun h => hj (by simp [h])), getD_set,
      if_neg (fun h => hj (by simp [h.1]))]

theorem setAll_getD_at : ∀ (ws : List (Nat × Nat)) (cg : List Nat) (k : Nat) (w : Nat × Nat),
    (ws.map Prod.fst).Nodup → ws[k]? = some w → w.1 < cg.length →
    (ws.foldl (fun cg w => cg.set w.1 w.2) cg).getD w.1 0 = w.2 := by
  intro ws
  induction ws with
  | nil => intro cg k w _ hk; simp at hk
  | cons w0 rest ih =>
    intro cg k w hnd hk hlt
    rw [List.map_cons, List.nodup_cons] at hnd
    rw [List.foldl_cons]
    cases k with
    | zero =>
      simp only [List.getElem?_cons_zero, Option.some.injEq] at hk
      subst hk
      rw [setAll_getD_other rest _ _ hnd.1, getD_set, if_pos ⟨rfl, hlt⟩]
    | succ k =>
      simp only [List.getElem?_cons_succ] at hk
      exact ih _ k w hnd.2 hk (by rw [List.length_set]; exact hlt)

theorem cglobalFinish_ok (c : Config) (st : CGlobalStart) (buf : List Nat) (s : State)
    (h : cglobalFinish c st buf = .ok s) :
    buf.length = GetGhostSize st.reg ∧ st.Ghosts.length = GetGhostSize st.reg ∧
    (∀ v ∈ buf, IsFlagSet v (_FLAG_GHOST c) = false) ∧
    s = { st.reg with
      _CGlobal := (st.Ghosts.zip buf).foldl (fun cg w => cg.set w.1 w.2) st.reg._CGlobal,
      _CGlobalValid := true } := by
  unfold cglobalFinish at h
  split at h
  · cases h
  · rename_i h1
    split at h
    · cases h
    · rename_i h2
      split at h
      · cases h
      · rename_i h3
        injection h with h
        refine ⟨not_not.1 h1, not_not.1 h2, ?_, h.symm⟩
        intro v hv
        cases hf : IsFlagSet v (_FLAG_GHOST c)
        · rfl
        · exact absurd (List.any_eq_true.2 ⟨v, hv, hf⟩) h3

/-- The steps of `BuildCGlobal` on a process when every process has completed. -/
theorem buildCGlobal_ok (c : Config) (procs built : List Proc)
    (h : allOk (BuildCGlobal c procs) = some built) :
    ∃ starts : List CGlobalStart,
      allOk (procs.enum.map (fun rp => cglobalStart c procs rp.1 rp.2)) = some starts ∧
      starts.length = procs.length ∧ built.length = procs.length ∧
      ∀ p q, procs[p]? = some q → ∃ st buf s,
        starts[p]? = some st ∧ cglobalStart c procs p q = .ok st ∧
        (cglobalRing c (maxGhostSize procs) starts)[p]? = some (.ok buf) ∧
        cglobalFinish c st buf = .ok s ∧ built[p]? = some { q with reg := s } := by
  unfold BuildCGlobal at h
  simp only at h
  cases h0 : allOk (procs.enum.map (fun rp => cglobalStart c procs rp.1 rp.2)) with
  | none =>
    rw [h0] at h
    simp only at h
    rw [allOk_blocked _ (allOk_none_ne_nil _ h0)] at h
    cases h
  | some starts =>
    rw [h0] at h
    simp only at h
    obtain ⟨hlens, hst⟩ := allOk_enum _ _ _ h0
    obtain ⟨hlenb, hfin⟩ := allOk_enum _ _ _ h
    refine ⟨starts, rfl, hlens, hlenb, ?_⟩
    intro p q hq
    obtain ⟨st, hst1, hst2⟩ := hst p q hq
    obtain ⟨b, hb1, hb2⟩ := hfin p q hq
    simp only [hst1] at hb2
    split at hb2
    · rename_i st' buf hst' hbuf
      injection hst' with hst'
      subst hst'
      split at hb2
      · rename_i s hs
        injection hb2 with hb2
        exact ⟨_, buf, s, hst1, hst2, hbuf, hs, by rw [hb1, hb2]⟩
      · cases hb2
    · cases hb2
    · cases hb2

/-- The continuous IDs of the points a process owns, after `BuildCGlobal`. -/
theorem cglobal_owned (c : Config) (procs built : List Proc)
    (h : allOk (BuildCGlobal c procs) = some built)
    (p : Nat) (q b : Proc) (hq : procs[p]? = some q) (hb : built[p]? = some b)
    (i : Nat) (hi : i < size q.reg) (hown : IsGhost c q.reg i = false) :
    b.reg._MetaData = q.reg._MetaData ∧ b.reg._LocalSize = q.reg._LocalSize ∧
    b.reg._GhostSize = q.reg._GhostSize ∧
    LocalToCGlobal b.reg i = .ok
      ((((procs.take p).map (fun r => GetLocalSize r.reg)).sum
        + (List.range i).countP (fun j => !IsGhost c q.reg j)) % 2 ^ c.bits) := by
  obtain ⟨starts, -, -, -, hall⟩ := buildCGlobal_ok c procs built h
  obtain ⟨st, buf, s, -, hst, -, hfin, hb'⟩ := hall p q hq
  rw [hb] at hb'
  injection hb' with hb'
  obtain ⟨-, hmd, hls, hgs, -, -, hgh, -, -, hlen, hval, -⟩ := cglobalStart_ok c procs p q hq st hst
  obtain ⟨-, -, -, hs⟩ := cglobalFinish_ok c st buf s hfin
  subst hb'
  subst hs
  refine ⟨hmd, hls, hgs, ?_⟩
  unfold LocalToCGlobal
  simp only [Bool.true_eq_false, if_false, setAll_length, hlen, hi, not_true_eq_false]
  rw [setAll_getD_other _ _ _ (by
    intro hmem
    obtain ⟨w, hw, hw1⟩ := List.mem_map.1 hmem
    have := (List.of_mem_zip hw).1
    rw [hgh, hw1] at this
    have := (List.mem_filter.1 this).2
    rw [hown] at this
    cases this), hval i hi hown]

/-! ## C22: the continuous IDs of owned points -/

/-- C22 (as stated) fails: process 0 registers a ghost for the global ID 3 and
then owns the global ID 0, at local index 1; process 1 owns the global ID 3. Both
processes complete `BuildCGlobal`. The offset of process 0 is 0, and its owned
local index 1 has the continuous ID 0, not 0 + 1: `BuildCGlobalLocal` counts the
owned slots and skips the ghost slot 0. -/
theorem cglobal_owned_not_offset_plus_index :
    IsGhost cfg32 mixed0.reg 0 = true ∧ IsGhost cfg32 mixed0.reg 1 = false ∧
    (BuildCGlobal cfg32 [mixed0, mixed1]).map
        (fun r => r.map (fun p => (HasCGlobal p.reg, p.reg._CGlobal)))
      = [.ok (true, [1, 0]), .ok (true, [1])] ∧
    (BuildCGlobal cfg32 [mixed0, mixed1]).map
        (fun r => r.bind (fun p => LocalToCGlobal p.reg 1))
      = [.ok 0, .error .AssertionFailed] := by
  decide

/-- C22 (amended): when every process has completed `BuildCGlobal`, on every
process p, with offset the sum of `GetLocalSize()` over the processes of lower
rank, every local index i below `size()` that is not a ghost has
`LocalToCGlobal(i)` equal to the offset plus the number of local indices below i
that are not ghosts, taken in the unsigned arithmetic of `IndexType`; this is the
offset plus i when no ghost was registered at a local index below i. -/
theorem cglobal_owned_numbering (c : Config) (procs built : List Proc)
    (h : allOk (BuildCGlobal c procs) = some built)
    (p : Nat) (q b : Proc) (hq : procs[p]? = some q) (hb : built[p]? = some b)
    (i : Nat) (hi : i < size q.reg) (hown : IsGhost c q.reg i = false) :
    LocalToCGlobal b.reg i = .ok
      ((((procs.take p).map (fun r => GetLocalSize r.reg)).sum
        + (List.range i).countP (fun j => !IsGhost c q.reg j)) % 2 ^ c.bits) ∧
    ((∀ j, j < i → IsGhost c q.reg j = false) →
      LocalToCGlobal b.reg i = .ok
        ((((procs.take p).map (fun r => GetLocalSize r.reg)).sum + i) % 2 ^ c.bits)) := by
  obtain ⟨-, -, -, hval⟩ := cglobal_owned c procs built h p q b hq hb i hi hown
  refine ⟨hval, ?_⟩
  intro hall
  rw [hval]
  have hcount : (List.range i).countP (fun j => !IsGhost c q.reg j) = i := by
    have := List.countP_eq_length.2 (fun j hj => by
      show (!IsGhost c q.reg j) = true
      rw [hall j (List.mem_range.1 hj)]
      rfl)
    rw [this, List.length_range]
  rw [hcount]

theorem cglobal_owned_numbering_witness :
    allOk (BuildCGlobal cfg32 [scenario0, scenario1])
      = some (completed (BuildCGlobal cfg32 [scenario0, scenario1])) ∧
    1 < size scenario1.reg ∧ IsGhost cfg32 scenario1.reg 1 = false ∧
    LocalToCGlobal ((completed (BuildCGlobal cfg32 [scenario0, scenario1])).getD 1 scenario1).reg 1
      = .ok 4 ∧
    LocalToCGlobal ((completed (BuildCGlobal cfg32 [scenario0, scenario1])).getD 1 scenario1).reg 1
      = .ok (((([scenario0, scenario1].take 1).map (fun r => GetLocalSize r.reg)).sum
        + (List.range 1).countP (fun j => !IsGhost cfg32 scenario1.reg j)) % 2 ^ cfg32.bits) :=
  ⟨by decide, by decide, by decide, by decide,
    (cglobal_owned_numbering cfg32 [scenario0, scenario1]
      (completed (BuildCGlobal cfg32 [scenario0, scenario1])) (by decide) 1 scenario1
      ((completed (BuildCGlobal cfg32 [scenario0, scenario1])).getD 1 scenario1)
      (by decide) (by decide) 1 (by decide) (by decide)).1⟩

/-! ## C26: registration after `BuildCGlobal` -/

/-- C26 fails on the code: neither `AddLocalPoint` nor `AddGhostPoint` calls
`InvalidateCGlobal`. Whatever the state and the call, `HasCGlobal()` and every
`LocalToCGlobal` are after the call what they were before it; and on the process
that owns the global IDs 3, 4, 5 and has completed `BuildCGlobal`, a successful
`AddLocalPoint(9)` leaves `HasCGlobal()` true with continuous IDs for three of
the four local indices. -/
theorem add_keeps_cglobal :
    (∀ (c : Config) (s : State) (call : AddCall),
      HasCGlobal (call.run c s).2 = HasCGlobal s ∧
      ∀ i, LocalToCGlobal (call.run c s).2 i = LocalToCGlobal s i) ∧
    (completed (BuildCGlobal cfg32 [scenario0, scenario1])).map
        (fun p => (HasCGlobal p.reg, (AddLocalPoint cfg32 p.reg 9).1,
          HasCGlobal (AddLocalPoint cfg32 p.reg 9).2,
          size (AddLocalPoint cfg32 p.reg 9).2,
          (AddLocalPoint cfg32 p.reg 9).2._CGlobal))
      = [(true, .ok 4, true, 5, [0, 1, 2, 3]), (true, .ok 3, true, 4, [3, 4, 5])] := by
  refine ⟨?_, by decide⟩
  intro c s call
  obtain ⟨-, -, -, h1, h2⟩ := run_frame c s call
  refine ⟨h1, ?_⟩
  intro i
  unfold LocalToCGlobal
  rw [h1, h2]

/-! ## The number of ghost slots -/

theorem countP_range_succ (P : Nat → Bool) (n : Nat) :
    (List.range (n + 1)).countP P = (List.range n).countP P + if P n then 1 else 0 := by
  rw [List.range_succ, List.countP_append]
  simp [List.countP_cons]

theorem countP_range_congr (P Q : Nat → Bool) (n : Nat) (h : ∀ j, j < n → P j = Q j) :
    (List.range n).countP P = (List.range n).countP Q := by
  apply List.countP_congr
  intro j hj
  rw [h j (List.mem_range.1 hj)]

/-- One registration call keeps the count of the ghost slots equal to
`GetGhostSize()`. -/
theorem run_counted (c : Config) (hc : GrowOk c) (s : State) (call : AddCall) (hwf : WF c s)
    (h1 : s._GhostSize = s._GhostMap.length)
    (h2 : (List.range (size s)).countP (IsGhost c s) = s._GhostSize) :
    (List.range (size (call.run c s).2)).countP (IsGhost c (call.run c s).2)
      = (call.run c s).2._GhostSize := by
  have hgs := run_ghostSize c s call h1
  by_cases hex : IsFlagSet ((size s + 1) % 2 ^ c.bits) (_FLAG_DELETED c ||| _FLAG_GHOST c) = true
  · cases call with
    | AddLocalPoint g =>
      simp only [AddCall.run, addLocalPoint_exhausted c s g hex]
      exact h2
    | AddGhostPoint g =>
      simp only [AddCall.run]
      by_cases hd : (mapFind s._GhostMap g).isSome = true ∨ (mapFind s._IndexMap g).isSome = true
      · rw [addGhostPoint_dup c s g hd]
        exact h2
      · rw [addGhostPoint_exhausted c s g (by simpa using fun h => hd (Or.inl h))
          (by simpa using fun h => hd (Or.inr h)) hex]
        exact h2
  · have hne : IsFlagSet ((size s + 1) % 2 ^ c.bits) (_FLAG_DELETED c ||| _FLAG_GHOST c)
        = false := by
      cases h : IsFlagSet ((size s + 1) % 2 ^ c.bits) (_FLAG_DELETED c ||| _FLAG_GHOST c)
      · rfl
      · exact absurd h hex
    cases call with
    | AddLocalPoint g =>
      obtain ⟨p, hrun, -, hsz, hgm, -, hmeta, hold⟩ := addLocalPoint_spec c s g hc hwf hne
      simp only [AddCall.run, hrun] at hgs ⊢
      rw [hsz, countP_range_succ, hgs, hgm, ← h1, ← h2]
      have hng : IsGhost c p (size s) = false := by
        unfold IsGhost
        rw [hmeta]
        exact isFlagSet_clearFlag_ghost c hc.1 g
      rw [hng]
      simp only [Bool.false_eq_true, if_false, Nat.add_zero]
      apply countP_range_congr
      intro j hj
      unfold IsGhost
      rw [hold j hj]
    | AddGhostPoint g =>
      by_cases hd : (mapFind s._GhostMap g).isSome = true ∨ (mapFind s._IndexMap g).isSome = true
      · simp only [AddCall.run, addGhostPoint_dup c s g hd]
        exact h2
      · have hd1 : (mapFind s._GhostMap g).isSome = false := by simpa using fun h => hd (Or.inl h)
        have hd2 : (mapFind s._IndexMap g).isSome = false := by simpa using fun h => hd (Or.inr h)
        obtain ⟨p, hrun, -, hsz, -, hgm, hmeta, hold⟩ :=
          addGhostPoint_spec c s g hc hwf hd1 hd2 hne
        simp only [AddCall.run, hrun] at hgs ⊢
        have hnone : mapFind s._GhostMap g = none := by
          cases h : mapFind s._GhostMap g
          · rfl
          · rw [h] at hd1; cases hd1
        rw [hsz, countP_range_succ, hgs, hgm, mapSet_length _ _ _ hnone, ← h1, ← h2]
        have hng : IsGhost c p (size s) = true := by
          unfold IsGhost
          rw [hmeta]
          exact isFlagSet_setFlag_ghost c hc.1 g
        rw [hng]
        simp only [if_true]
        congr 1
        apply countP_range_congr
        intro j hj
        unfold IsGhost
        rw [hold j hj]

/-- An entry without the ghost flag passes through the loop of the ring as it
is. -/
theorem cglobalTranslate_plain (c : Config) (rank : Nat) (s : State) (v : Nat)
    (hv : IsFlagSet v (_FLAG_GHOST c) = false) : cglobalTranslate c rank s v = .ok v := by
  unfold cglobalTranslate
  rw [if_pos hv]

/-- An entry with the ghost flag whose global ID the index maps to a local index
outside `_CGlobal`, at a slot that is not a ghost: the loop of the ring stores
what the memory holds there. -/
theorem cglobalTranslate_beyond (c : Config) (b : Nat → Nat → Nat) (rank : Nat) (s : State)
    (x LocalID : Nat) (h1 : IsFlagSet x (_FLAG_GHOST c) = true)
    (h2 : FindLocal c s (NormalIndex c x) = .ok LocalID) (h3 : LocalID ≠ _NOT_FOUND c)
    (h4 : IsGhost c s LocalID = false) (h5 : s._CGlobal.length ≤ LocalID) :
    cglobalTranslate { c with beyond := b } rank s x = .ok (b rank LocalID) := by
  have e1 : _FLAG_GHOST { c with beyond := b } = _FLAG_GHOST c := rfl
  have e2 : FindLocal { c with beyond := b } s (NormalIndex { c with beyond := b } x)
      = FindLocal c s (NormalIndex c x) := rfl
  have e3 : _NOT_FOUND { c with beyond := b } = _NOT_FOUND c := rfl
  have e4 : IsGhost { c with beyond := b } s LocalID = IsGhost c s LocalID := rfl
  unfold cglobalTranslate
  rw [e1, e2, h1, h2]
  simp only [e3, e4, h3, h4, if_false, Bool.true_eq_false, Bool.false_eq_true]
  rw [List.getD_eq_default _ _ h5]

/-- The scenario with spare slots when the two processes enter the ring. -/
theorem spare_start :
    ∃ st0 st1, allOk ([spare0, spare1].enum.map
        (fun rp => cglobalStart cfg32 [spare0, spare1] rp.1 rp.2)) = some [st0, st1] ∧
      maxGhostSize [spare0, spare1] = 1 ∧
      st0.SendBuf = [SetFlag 4 (_FLAG_GHOST cfg32)] ∧ st1.SendBuf = [] ∧
      FindLocal cfg32 st1.reg (NormalIndex cfg32 (SetFlag 4 (_FLAG_GHOST cfg32))) = .ok 3 ∧
      IsGhost cfg32 st1.reg 3 = false ∧ st1.reg._CGlobal = [3, 4, 5] ∧
      st0.Ghosts = [3] ∧ GetGhostSize st0.reg = 1 ∧ st0.reg._CGlobal = [0, 1, 2, 0] ∧
      st1.Ghosts = [] ∧ GetGhostSize st1.reg = 0 := by
  refine ⟨_, _, rfl, ?_, ?_, ?_, ?_, ?_, ?_, ?_, ?_, ?_, ?_, ?_⟩ <;> decide

/-- What the memory past `_CGlobal` holds has no part in the steps before the
ring. -/
theorem spare_start_mem (v : Nat) (st0 st1 : CGlobalStart)
    (hs : allOk ([spare0, spare1].enum.map
      (fun rp => cglobalStart cfg32 [spare0, spare1] rp.1 rp.2)) = some [st0, st1]) :
    allOk ([spare0, spare1].enum.map
      (fun rp => cglobalStart (cfg32Mem v) [spare0, spare1] rp.1 rp.2)) = some [st0, st1] :=
  hs

theorem flagGhost_cfg32Mem (v : Nat) (hv : IsFlagSet v (_FLAG_GHOST cfg32) = false) :
    IsFlagSet v (_FLAG_GHOST (cfg32Mem v)) = false := hv

/-- Process 1 of the scenario with spare slots, on the entry for the global ID 4:
it stores what its memory holds at `_CGlobal[3]`. -/
theorem spare_translate (v : Nat) (st1 : CGlobalStart)
    (hf : FindLocal cfg32 st1.reg (NormalIndex cfg32 (SetFlag 4 (_FLAG_GHOST cfg32))) = .ok 3)
    (hg : IsGhost cfg32 st1.reg 3 = false) (hc1 : st1.reg._CGlobal = [3, 4, 5]) :
    cglobalTranslate (cfg32Mem v) 1 st1.reg (SetFlag 4 (_FLAG_GHOST cfg32)) = .ok v :=
  cglobalTranslate_beyond cfg32 (fun _ _ => v) 1 st1.reg _ 3 (by decide) hf (by decide) hg
    (by rw [hc1]; decide)

/-- The two rounds of the ring between two processes of which the first sends one
entry, which the second replaces by `v`, and the second sends none. -/
theorem ring_of_two (c : Config) (v g : Nat) (st0 st1 : CGlobalStart)
    (hv : IsFlagSet v (_FLAG_GHOST c) = false)
    (hb0 : st0.SendBuf = [g]) (hb1 : st1.SendBuf = [])
    (ht : cglobalTranslate c 1 st1.reg g = .ok v) :
    cglobalRing c 1 [st0, st1] = [.ok [v], .ok []] := by
  unfold cglobalRing
  have hr : List.range [st0, st1].length = [0, 1] := rfl
  rw [hr]
  simp only [List.foldl_cons, List.foldl_nil, List.map_cons, List.map_nil, hb0, hb1]
  simp [cglobalRound, List.enum, List.enumFrom, cglobalProcess, sequenceE, ht,
    cglobalTranslate_plain _ _ _ _ hv]

/-- The end of `BuildCGlobal` on two processes of which the first has one ghost,
at local index 3, and the second none, when the ring has brought back the entry
`v` without the ghost flag. -/
theorem buildCGlobal_of_two (c : Config) (v : Nat) (p0 p1 : Proc) (st0 st1 : CGlobalStart)
    (g0 g1 : List Nat) (hv : IsFlagSet v (_FLAG_GHOST c) = false)
    (hs : allOk ([p0, p1].enum.map (fun rp => cglobalStart c [p0, p1] rp.1 rp.2))
      = some [st0, st1])
    (hring : cglobalRing c (maxGhostSize [p0, p1]) [st0, st1] = [.ok [v], .ok []])
    (hc1 : st1.reg._CGlobal = g1) (hG0 : st0.Ghosts = [3]) (hn0 : GetGhostSize st0.reg = 1)
    (hc0 : st0.reg._CGlobal = g0) (hG1 : st1.Ghosts = []) (hn1 : GetGhostSize st1.reg = 0) :
    (BuildCGlobal c [p0, p1]).map (fun r => r.map (fun p => p.reg._CGlobal))
      = [.ok (g0.set 3 v), .ok g1] := by
  unfold BuildCGlobal
  simp only [hs, hring]
  simp [List.enum, List.enumFrom, cglobalFinish, hn0, hn1, hG0, hG1, hc0, hc1, hv, Except.map]

/-- In the scenario with spare slots `BuildCGlobal` returns on both processes, and
the continuous ID of the ghost of process 0 is the word `v` that the memory of
process 1 holds at `_CGlobal[3]`, for every `v` without the ghost flag. -/
theorem spare_ghost_gets_memory (v : Nat) (hv : IsFlagSet v (_FLAG_GHOST cfg32) = false) :
    (BuildCGlobal (cfg32Mem v) [spare0, spare1]).map (fun r => r.map (fun p => p.reg._CGlobal))
      = [.ok [0, 1, 2, v], .ok [3, 4, 5]] := by
  obtain ⟨st0, st1, hs, hM, hb0, hb1, hf, hg, hc1, hG0, hn0, hc0, hG1, hn1⟩ := spare_start
  have h := buildCGlobal_of_two (cfg32Mem v) v spare0 spare1 st0 st1 _ _
    (flagGhost_cfg32Mem v hv) (spare_start_mem v st0 st1 hs)
    (hM ▸ ring_of_two (cfg32Mem v) v _ st0 st1 (flagGhost_cfg32Mem v hv) hb0 hb1
      (spare_translate v st1 hf hg hc1)) hc1 hG0 hn0 hc0 hG1 hn1
  exact h

/-- C24 fails on the code: process 1 owns the global IDs 3, 4, 5 at the local
indices 0, 1, 2 of a store of seven slots (`reserve(7)`), process 0 owns 0, 1, 2
and has a ghost for the global ID 4. `BuildCGlobal` calls `CreateIndex`, which
runs over all seven slots of process 1 and enters the link 4 held by the free
slot 3 as an owned global ID, over the entry of local index 1. In the ring
process 1 then looks up the global ID 4, finds local index 3, and reads
`_CGlobal[3]` in a vector of three entries. No check guards the read:
`BuildCGlobal` returns on both processes, and the continuous ID of the ghost of
process 0 is the word that the memory of process 1 holds behind the vector,
whatever it is: 0 and 77 end up there as they are, as every word without the
ghost flag does, and the word `0x40000001` (ghost flag, global ID 1) is looked up
again on process 0 and leaves the ghost with the continuous ID 1 of a point that
process 0 owns. The claim lets the continuous ID be `LocalToCGlobal(1)` of
process 1, that is 4. With a store of three slots on process 1 (`reserve(3)`) the
ghost gets this value. -/
theorem cglobal_ghost_reads_free_slot :
    GlobalToLocal spare1.reg 4 = .ok 1 ∧ size spare1.reg = 3 ∧
    spare1.reg._MetaData.length = 7 ∧
    (CreateIndex cfg32 spare1.reg).map (fun s => (s._IndexMap, FindLocal cfg32 s 4))
      = .ok ([(3, 0), (4, 3), (5, 4), (6, 5)], .ok 3) ∧
    (BuildCGlobal cfg32 [spare0, spare1]).map (fun r => r.map (fun p => p.reg._CGlobal))
      = [.ok [0, 1, 2, 0], .ok [3, 4, 5]] ∧
    (BuildCGlobal (cfg32Mem 77) [spare0, spare1]).map
        (fun r => r.map (fun p => (p.reg._CGlobal, LocalToCGlobal p.reg 3)))
      = [.ok ([0, 1, 2, 77], .ok 77), .ok ([3, 4, 5], .error .AssertionFailed)] ∧
    (BuildCGlobal (cfg32Mem 1073741825) [spare0, spare1]).map
        (fun r => r.map (fun p => p.reg._CGlobal))
      = [.ok [0, 1, 2, 1], .ok [3, 4, 5]] ∧
    (∀ v, IsFlagSet v (_FLAG_GHOST cfg32) = false →
      (BuildCGlobal (cfg32Mem v) [spare0, spare1]).map (fun r => r.map (fun p => p.reg._CGlobal))
        = [.ok [0, 1, 2, v], .ok [3, 4, 5]]) ∧
    (BuildCGlobal cfg32 [spare0, exact1]).map
        (fun r => r.map (fun p => (p.reg._CGlobal, LocalToCGlobal p.reg 3)))
      = [.ok ([0, 1, 2, 4], .ok 4), .ok ([3, 4, 5], .error .AssertionFailed)] ∧
    (BuildCGlobal cfg32 [spare0, exact1]).map (fun r => r.map (fun p => LocalToCGlobal p.reg 1))
      = [.ok (.ok 1), .ok (.ok 4)] :=
  ⟨by decide, by decide, by decide, by decide, by decide, by decide, by decide,
    spare_ghost_gets_memory, by decide, by decide⟩

/-! ## C25: unresolved ghosts -/

theorem blocked_not_ok {α β : Type} (rs : List (Except Error α)) (p : Nat) (b : β) :
    (blocked rs : List (Except Error β))[p]? ≠ some (.ok b) := by
  unfold blocked
  rw [List.getElem?_map]
  cases rs[p]? with
  | none => simp
  | some r => cases r <;> simp

/-- The steps of `BuildCGlobal` on a process that has completed it. -/
theorem buildCGlobal_ok_at (c : Config) (procs : List Proc) (p : Nat) (b : Proc)
    (h : (BuildCGlobal c procs)[p]? = some (.ok b)) :
    ∃ (starts : List CGlobalStart) (q : Proc) (st : CGlobalStart) (buf : List Nat) (s : State),
      allOk (procs.enum.map (fun rp => cglobalStart c procs rp.1 rp.2)) = some starts ∧
      procs[p]? = some q ∧ starts[p]? = some st ∧ cglobalStart c procs p q = .ok st ∧
      (cglobalRing c (maxGhostSize procs) starts)[p]? = some (.ok buf) ∧
      cglobalFinish c st buf = .ok s ∧ b = { q with reg := s } := by
  unfold BuildCGlobal at h
  simp only at h
  cases h0 : allOk (procs.enum.map (fun rp => cglobalStart c procs rp.1 rp.2)) with
  | none =>
    rw [h0] at h
    exact absurd h (blocked_not_ok _ p b)
  | some starts =>
    rw [h0] at h
    simp only at h
    obtain ⟨hlens, hst⟩ := allOk_enum _ _ _ h0
    rw [List.getElem?_map, List.getElem?_enum] at h
    cases hq : procs[p]? with
    | none => rw [hq] at h; simp at h
    | some q =>
      rw [hq] at h
      simp only [Option.map_some', Option.some.injEq] at h
      obtain ⟨st, hst1, hst2⟩ := hst p q hq
      simp only [hst1] at h
      split at h
      · rename_i st' buf hst' hbuf
        injection hst' with hst'
        subst hst'
        split at h
        · rename_i s hs
          injection h with h
          exact ⟨starts, q, _, buf, s, rfl, rfl, hst1, hst2, hbuf, hs, h.symm⟩
        · cases h
      · cases h
      · cases h

theorem filter_range_nodup (P : Nat → Bool) (n : Nat) : ((List.range n).filter P).Nodup :=
  List.Nodup.sublist (List.filter_sublist _) (List.nodup_range n)

/-- C25 (amended): a process completes `BuildCGlobal` only when every entry it gets
back from the ring is resolved: on a process on which `BuildCGlobal` has
completed, `HasCGlobal()` is true and every ghost slot below `size()` has a
continuous ID without the ghost flag. With an entry that still carries the flag
after the ring the process fails its `cf_assert`; the other processes do not take
part in this check. -/
theorem cglobal_complete_is_resolved (c : Config) (procs : List Proc) (p : Nat) (b : Proc)
    (h : (BuildCGlobal c procs)[p]? = some (.ok b)) :
    HasCGlobal b.reg = true ∧
    ∀ i, i < size b.reg → IsGhost c b.reg i = true →
      ∃ v, LocalToCGlobal b.reg i = .ok v ∧ IsFlagSet v (_FLAG_GHOST c) = false := by
  obtain ⟨starts, q, st, buf, s, -, hq, -, hst, -, hfin, hb⟩ := buildCGlobal_ok_at c procs p b h
  obtain ⟨-, hmd, hls, hgs, -, -, hgh, hghl, -, hlen, -, -⟩ := cglobalStart_ok c procs p q hq st hst
  obtain ⟨hbl, hgl, hnf, hs⟩ := cglobalFinish_ok c st buf s hfin
  subst hb
  subst hs
  refine ⟨rfl, ?_⟩
  intro i hi hg
  have hsize : size ({ st.reg with
      _CGlobal := (st.Ghosts.zip buf).foldl (fun cg w => cg.set w.1 w.2) st.reg._CGlobal,
      _CGlobalValid := true } : State) = size q.reg := by
    unfold size GetLocalSize GetGhostSize
    show st.reg._LocalSize + st.reg._GhostSize = _
    rw [hls, hgs]
  have hi' : i < size q.reg := hsize ▸ hi
  have hg' : IsGhost c q.reg i = true := by
    rw [← hg]
    exact (isGhost_congr c q.reg _ hmd i).symm
  -- the place of the slot in `Ghosts`
  have hmem : i ∈ st.Ghosts := by
    rw [hgh]
    exact List.mem_filter.2 ⟨List.mem_range.2 hi', hg'⟩
  obtain ⟨k, hk⟩ := List.mem_iff_getElem?.1 hmem
  have hkl : k < st.Ghosts.length := (List.getElem?_eq_some.1 hk).1
  have hkb : k < buf.length := by rw [hbl, ← hgl]; exact hkl
  have hzip : (st.Ghosts.zip buf)[k]? = some (i, buf[k]) :=
    List.getElem?_zip_eq_some.2 ⟨hk, List.getElem?_eq_getElem hkb⟩
  have hnd : ((st.Ghosts.zip buf).map Prod.fst).Nodup := by
    rw [List.map_fst_zip _ _ (by omega), hgh]
    exact filter_range_nodup _ _
  have hval := setAll_getD_at (st.Ghosts.zip buf) st.reg._CGlobal k (i, buf[k]) hnd hzip
    (by rw [hlen]; exact hi')
  refine ⟨buf[k], ?_, hnf _ (List.getElem_mem hkb)⟩
  unfold LocalToCGlobal
  simp only [Bool.true_eq_false, if_false, setAll_length, hlen, hi', not_true_eq_false]
  rw [hval]

/-- C25 (as stated) fails: process 0 owns the global ID 0 and has a ghost for the
global ID 9, which no process owns; process 1 owns 3 and has a ghost for 0. After
the two hops of the ring the entry of process 0 still carries the ghost flag and
the entry of process 1 is resolved to the continuous ID 0. Process 0 fails its
`cf_assert`; process 1 completes `BuildCGlobal` and ends with `HasCGlobal()`
true. -/
theorem cglobal_unresolved_not_collective :
    (allOk ([lost0, lost1].enum.map (fun rp => cglobalStart cfg32 [lost0, lost1] rp.1 rp.2))).map
        (fun starts => cglobalRing cfg32 (maxGhostSize [lost0, lost1]) starts)
      = some [.ok [SetFlag 9 (_FLAG_GHOST cfg32)], .ok [0]] ∧
    (BuildCGlobal cfg32 [lost0, lost1]).map
        (fun r => r.map (fun p => (HasCGlobal p.reg, p.reg._CGlobal)))
      = [.error .AssertionFailed, .ok (true, [1, 0])] := by
  decide

theorem cglobal_complete_is_resolved_witness :
    (BuildCGlobal cfg32 [lost0, lost1])[1]?
      = some (.ok ((completed (BuildCGlobal cfg32 [lost0, lost1])).getD 0 lost1)) ∧
    ((completed (BuildCGlobal cfg32 [lost0, lost1])).getD 0 lost1).reg._CGlobal = [1, 0] ∧
    IsGhost cfg32 ((completed (BuildCGlobal cfg32 [lost0, lost1])).getD 0 lost1).reg 1 = true ∧
    HasCGlobal ((completed (BuildCGlobal cfg32 [lost0, lost1])).getD 0 lost1).reg = true ∧
    ∀ i, i < size ((completed (BuildCGlobal cfg32 [lost0, lost1])).getD 0 lost1).reg →
      IsGhost cfg32 ((completed (BuildCGlobal cfg32 [lost0, lost1])).getD 0 lost1).reg i = true →
      ∃ v, LocalToCGlobal ((completed (BuildCGlobal cfg32 [lost0, lost1])).getD 0 lost1).reg i
          = .ok v ∧ IsFlagSet v (_FLAG_GHOST cfg32) = false :=
  ⟨by decide, by decide, by decide,
    cglobal_complete_is_resolved cfg32 [lost0, lost1] 1
      ((completed (BuildCGlobal cfg32 [lost0, lost1])).getD 0 lost1) (by decide)⟩

/-! ## Registration and `reserve` calls on a pattern on which `InitMPI` has run -/

theorem dense_step (c : Config) (hc : GrowOk c) (s : State) (call : StoreCall)
    (hty : ∀ n e, call = StoreCall.reserve n e → n < 2 ^ c.bits) (h : Dense c s) :
    Dense c (call.run c s) := by
  cases call with
  | add call =>
    refine ⟨run_wf c hc s call h.wf, ?_, run_ghostSize c s call h.ghosts,
      run_counted c hc s call h.wf h.ghosts h.counted⟩
    show (call.run c s).2._InitMPIOK = true
    rw [(run_frame c s call).1]
    exact h.init
  | reserve n e =>
    obtain ⟨s1, hres, hwf1, hinit1, hl, hg, -, hgm, hold, -⟩ :=
      reserve_spec c s n e h.wf h.init (hty n e rfl)
    simp only [StoreCall.run, hres]
    have hsize : size s1 = size s := by
      unfold size GetLocalSize GetGhostSize
      rw [hl, hg]
    refine ⟨hwf1, hinit1, by rw [hg, hgm]; exact h.ghosts, ?_⟩
    rw [hsize, hg, ← h.counted]
    apply countP_range_congr
    intro j hj
    unfold IsGhost
    rw [hold j hj]

theorem dense_run (c : Config) (hc : GrowOk c) (calls : List StoreCall) :
    ∀ s : State, TypedCalls c calls → Dense c s → Dense c (runStore c s calls) := by
  induction calls with
  | nil => intro s _ h; exact h
  | cons call rest ih =>
    intro s hty h
    exact ih _ (fun n e hm => hty n e (List.mem_cons_of_mem _ hm))
      (dense_step c hc s call (fun n e he => hty n e (by rw [he]; exact List.mem_cons_self _ _)) h)

theorem dense_fresh (c : Config) (hc : GrowOk c) (ESize : Nat) (hE : 0 < ESize) :
    Dense c (fresh c ESize) :=
  ⟨wf_fresh c ESize hc, by simp [fresh, hE], rfl, rfl⟩

/-- The first `reserve` on a pattern constructed with element size 0 runs
`InitMPI` on the empty store. -/
theorem reserve_fresh (c : Config) (hc : GrowOk c) (n e : Nat) (hn : n < 2 ^ c.bits) :
    Dense c ((StoreCall.reserve n e).run c (fresh c 0)) := by
  have hwf0 := wf_fresh c 0 hc
  have hd : Dense c ({ fresh c 0 with _MetaData := [], _ElementSize := e, _InitMPIOK := true }) :=
    ⟨⟨hwf0.size_le, hwf0.size_lt, hwf0.cap_lt, hwf0.next, hwf0.link, hwf0.last⟩, rfl, rfl, rfl⟩
  have hsame : reserve c (fresh c 0) n e
      = reserve c ({ fresh c 0 with _MetaData := [], _ElementSize := e, _InitMPIOK := true })
        n e := by
    unfold reserve
    simp [fresh]
  obtain ⟨s1, hres, -⟩ := reserve_spec c _ n e hd.wf rfl hn
  have hstep := dense_step c hc _ (StoreCall.reserve n e) (fun n' e' he => by
    injection he with h1 h2
    rw [← h1]
    exact hn) hd
  simp only [StoreCall.run, hres] at hstep
  simp only [StoreCall.run, hsame, hres]
  exact hstep

/-- The registry and the store after registration and `reserve` calls on a fresh
pattern, when `InitMPI` has run before the first registration: the pattern was
constructed with a positive element size, or the first call is a `reserve`. -/
theorem dense_reach (c : Config) (hc : GrowOk c) (ESize : Nat) (calls : List StoreCall)
    (hty : TypedCalls c calls)
    (hstart : 0 < ESize ∨ ∃ n e rest, calls = StoreCall.reserve n e :: rest) :
    Dense c (runStore c (fresh c ESize) calls) := by
  by_cases hE : 0 < ESize
  · exact dense_run c hc calls _ hty (dense_fresh c hc ESize hE)
  · have hE0 : ESize = 0 := by omega
    subst hE0
    rcases hstart with h | ⟨n, e, rest, hcalls⟩
    · exact absurd h hE
    · subst hcalls
      show Dense c (runStore c ((StoreCall.reserve n e).run c (fresh c 0)) rest)
      exact dense_run c hc rest _ (fun n' e' hm => hty n' e' (List.mem_cons_of_mem _ hm))
        (reserve_fresh c hc n e (hty n e (List.mem_cons_self _ _)))

theorem run_allocates_size (c : Config) (hc : GrowOk c) (s : State) (hwf : WF c s)
    (call : AddCall) (i : Nat) (h : (call.run c s).1 = .ok i) :
    i = size s ∧ size (call.run c s).2 = size s + 1 := by
  by_cases hex : IsFlagSet ((size s + 1) % 2 ^ c.bits) (_FLAG_DELETED c ||| _FLAG_GHOST c) = true
  · cases call with
    | AddLocalPoint g =>
      simp only [AddCall.run, addLocalPoint_exhausted c s g hex] at h
      cases h
    | AddGhostPoint g =>
      simp only [AddCall.run] at h
      by_cases hd : (mapFind s._GhostMap g).isSome = true ∨ (mapFind s._IndexMap g).isSome = true
      · rw [addGhostPoint_dup c s g hd] at h
        cases h
      · rw [addGhostPoint_exhausted c s g (by simpa using fun h => hd (Or.inl h))
          (by simpa using fun h => hd (Or.inr h)) hex] at h
        cases h
  · have hne : IsFlagSet ((size s + 1) % 2 ^ c.bits) (_FLAG_DELETED c ||| _FLAG_GHOST c)
        = false := by
      cases h' : IsFlagSet ((size s + 1) % 2 ^ c.bits) (_FLAG_DELETED c ||| _FLAG_GHOST c)
      · rfl
      · exact absurd h' hex
    cases call with
    | AddLocalPoint g =>
      obtain ⟨p, hrun, -, hsz, -⟩ := addLocalPoint_spec c s g hc hwf hne
      simp only [AddCall.run, hrun] at h ⊢
      refine ⟨?_, hsz⟩
      split at h
      · cases h
      · injection h with h
        exact h.symm
    | AddGhostPoint g =>
      by_cases hd : (mapFind s._GhostMap g).isSome = true ∨ (mapFind s._IndexMap g).isSome = true
      · simp only [AddCall.run, addGhostPoint_dup c s g hd] at h
        cases h
      · have hd1 : (mapFind s._GhostMap g).isSome = false := by simpa using fun h => hd (Or.inl h)
        have hd2 : (mapFind s._IndexMap g).isSome = false := by simpa using fun h => hd (Or.inr h)
        obtain ⟨p, hrun, -, hsz, -⟩ := addGhostPoint_spec c s g hc hwf hd1 hd2 hne
        simp only [AddCall.run, hrun] at h ⊢
        injection h with h
        exact ⟨h.symm, hsz⟩

theorem ghosts_length (c : Config) (scan : Nat) (s : State) :
    (BuildCGlobalLocal c scan s).2.length = (List.range (size s)).countP (IsGhost c s) := by
  have hpos : 0 < 2 ^ c.bits := Nat.pos_of_ne_zero (by positivity)
  obtain ⟨l1, -, -, -⟩ := cglobalLoop_spec c s (List.range (size s))
    ((scan + 2 ^ c.bits - GetLocalSize s % 2 ^ c.bits) % 2 ^ c.bits)
    (resizeN s._CGlobal (size s)) [] (Nat.mod_lt _ hpos)
  show (cglobalLoop c s _ _ _ _).2.length = _
  rw [l1, List.nil_append, List.countP_eq_length_filter]

/-! ## C27: dense allocation -/

/-- C27 (as stated) fails on a pattern constructed with element size 0, on which
`InitMPI` has not run: after `AddGhostPoint(7)` (local index 0) the call
`reserve(0)` frees the store, and the following `AddLocalPoint(8)` receives the
local index 0 again while `size()` is 1. Afterwards `size()` is 2 and
`GetGhostSize()` is 1, both maps hold the local index 0, and the one slot of the
store is not a ghost. -/
theorem allocation_not_dense_before_initMPI :
    size (runStore cfg32 (fresh cfg32 0)
      [.add (.AddGhostPoint 7), .reserve 0 8]) = 1 ∧
    (AddLocalPoint cfg32 (runStore cfg32 (fresh cfg32 0)
      [.add (.AddGhostPoint 7), .reserve 0 8]) 8).1 = .ok 0 ∧
    size (runStore cfg32 (fresh cfg32 0)
      [.add (.AddGhostPoint 7), .reserve 0 8, .add (.AddLocalPoint 8)]) = 2 ∧
    GetGhostSize (runStore cfg32 (fresh cfg32 0)
      [.add (.AddGhostPoint 7), .reserve 0 8, .add (.AddLocalPoint 8)]) = 1 ∧
    (runStore cfg32 (fresh cfg32 0)
      [.add (.AddGhostPoint 7), .reserve 0 8, .add (.AddLocalPoint 8)])._GhostMap = [(7, 0)] ∧
    (runStore cfg32 (fresh cfg32 0)
      [.add (.AddGhostPoint 7), .reserve 0 8, .add (.AddLocalPoint 8)])._IndexMap = [(8, 0)] ∧
    (runStore cfg32 (fresh cfg32 0)
      [.add (.AddGhostPoint 7), .reserve 0 8, .add (.AddLocalPoint 8)])._MetaData.length = 1 ∧
    IsGhost cfg32 (runStore cfg32 (fresh cfg32 0)
      [.add (.AddGhostPoint 7), .reserve 0 8, .add (.AddLocalPoint 8)]) 0 = false := by
  decide

/-- C27 (amended): in every state reached from a fresh pattern by registration and
`reserve` calls (with `IndexType` arguments), when `InitMPI` has run before the
first registration (the pattern was constructed with a positive element size, or
the first call is a `reserve`): a call of `AllocNext` that returns a slot returns
`size()`, a registration call that returns a local index returns `size()` and
raises `size()` by one, the local indices below `size()` with `IsGhost` are
`GetGhostSize()` many, and `BuildCGlobalLocal` fills `Ghosts` with
`GetGhostSize()` entries, also after `CreateIndex`. -/
theorem allocation_dense (c : Config) (hc : GrowOk c) (ESize : Nat) (calls : List StoreCall)
    (hty : TypedCalls c calls)
    (hstart : 0 < ESize ∨ ∃ n e rest, calls = StoreCall.reserve n e :: rest) :
    (∀ i s1, AllocNext c (runStore c (fresh c ESize) calls) = .ok (i, s1) →
      i ≠ _NO_MORE_FREE c → i = size (runStore c (fresh c ESize) calls)) ∧
    (∀ (call : AddCall) (i : Nat), (call.run c (runStore c (fresh c ESize) calls)).1 = .ok i →
      i = size (runStore c (fresh c ESize) calls) ∧
      size (call.run c (runStore c (fresh c ESize) calls)).2
        = size (runStore c (fresh c ESize) calls) + 1) ∧
    (List.range (size (runStore c (fresh c ESize) calls))).countP
        (IsGhost c (runStore c (fresh c ESize) calls))
      = GetGhostSize (runStore c (fresh c ESize) calls) ∧
    (∀ scan, (BuildCGlobalLocal c scan (runStore c (fresh c ESize) calls)).2.length
      = GetGhostSize (BuildCGlobalLocal c scan (runStore c (fresh c ESize) calls)).1) ∧
    (∀ s1 scan, CreateIndex c (runStore c (fresh c ESize) calls) = .ok s1 →
      (BuildCGlobalLocal c scan s1).2.length = GetGhostSize (BuildCGlobalLocal c scan s1).1) := by
  have hd := dense_reach c hc ESize calls hty hstart
  generalize runStore c (fresh c ESize) calls = s at hd ⊢
  refine ⟨?_, ?_, hd.counted, ?_, ?_⟩
  · intro i s1 halloc hne
    cases hex : Exhausted c s with
    | true =>
      rw [allocNext_exhausted c s hex] at halloc
      injection halloc with halloc
      injection halloc with h1 _
      exact absurd h1.symm hne
    | false =>
      obtain ⟨s2, h2, -⟩ := allocNext_cases c hc s hd.wf hex
      rw [h2] at halloc
      injection halloc with halloc
      injection halloc with h1 _
      exact h1.symm
  · intro call i h
    exact run_allocates_size c hc s hd.wf call i h
  · intro scan
    rw [ghosts_length]
    exact hd.counted
  · intro s1 scan hs1
    obtain ⟨hmd, hls, hgs, -⟩ := createIndex_frame c s s1 hs1
    have hsize : size s1 = size s := by
      unfold size GetLocalSize GetGhostSize
      rw [hls, hgs]
    rw [ghosts_length, hsize]
    show _ = s1._GhostSize
    rw [hgs, ← hd.counted]
    apply countP_range_congr
    intro j _
    exact isGhost_congr c s s1 hmd j

theorem allocation_dense_witness :
    GrowOk cfg32 ∧
    TypedCalls cfg32 [StoreCall.reserve 2 8, StoreCall.add (AddCall.AddLocalPoint 4),
      StoreCall.add (AddCall.AddGhostPoint 9), StoreCall.add (AddCall.AddLocalPoint 4)] ∧
    (0 < 0 ∨ ∃ n e rest, [StoreCall.reserve 2 8, StoreCall.add (AddCall.AddLocalPoint 4),
      StoreCall.add (AddCall.AddGhostPoint 9), StoreCall.add (AddCall.AddLocalPoint 4)]
        = StoreCall.reserve n e :: rest) ∧
    size (runStore cfg32 (fresh cfg32 0) [StoreCall.reserve 2 8,
      StoreCall.add (AddCall.AddLocalPoint 4), StoreCall.add (AddCall.AddGhostPoint 9),
      StoreCall.add (AddCall.AddLocalPoint 4)]) = 3 ∧
    (List.range (size (runStore cfg32 (fresh cfg32 0) [StoreCall.reserve 2 8,
      StoreCall.add (AddCall.AddLocalPoint 4), StoreCall.add (AddCall.AddGhostPoint 9),
      StoreCall.add (AddCall.AddLocalPoint 4)]))).countP
        (IsGhost cfg32 (runStore cfg32 (fresh cfg32 0) [StoreCall.reserve 2 8,
          StoreCall.add (AddCall.AddLocalPoint 4), StoreCall.add (AddCall.AddGhostPoint 9),
          StoreCall.add (AddCall.AddLocalPoint 4)]))
      = GetGhostSize (runStore cfg32 (fresh cfg32 0) [StoreCall.reserve 2 8,
        StoreCall.add (AddCall.AddLocalPoint 4), StoreCall.add (AddCall.AddGhostPoint 9),
        StoreCall.add (AddCall.AddLocalPoint 4)]) :=
  ⟨growOk_cfg32, by intro n e h; simp at h; rcases h with ⟨rfl, rfl⟩; decide,
    Or.inr ⟨2, 8, _, rfl⟩, by decide,
    (allocation_dense cfg32 growOk_cfg32 0 [StoreCall.reserve 2 8,
      StoreCall.add (AddCall.AddLocalPoint 4), StoreCall.add (AddCall.AddGhostPoint 9),
      StoreCall.add (AddCall.AddLocalPoint 4)]
      (by intro n e h; simp at h; rcases h with ⟨rfl, rfl⟩; decide)
      (Or.inr ⟨2, 8, _, rfl⟩)).2.2.1⟩

/-! ## C28: the free list -/

theorem freeList_chain (c : Config) (md : List Nat) (n : Nat) (hn : n ≤ _NO_MORE_FREE c) :
    ∀ (fuel a : Nat), a ≤ n → n - a + 1 ≤ fuel →
      (a < n → md.getD (n - 1) 0 = _NO_MORE_FREE c) →
      (∀ i, a ≤ i → i + 1 < n → md.getD i 0 = i + 1) →
      freeList c md fuel (if a < n then a else _NO_MORE_FREE c)
        = some (List.range' a (n - a)) := by
  intro fuel
  induction fuel with
  | zero => intro a _ hf _ _; omega
  | succ fuel ih =>
    intro a han hf hlast hlink
    unfold freeList
    by_cases ha : a < n
    · have hne : a ≠ _NO_MORE_FREE c := by omega
      rw [if_pos ha, if_neg hne]
      have hnext : md.getD a 0 = if a + 1 < n then a + 1 else _NO_MORE_FREE c := by
        by_cases ha1 : a + 1 < n
        · rw [if_pos ha1]
          exact hlink a (le_refl _) ha1
        · rw [if_neg ha1]
          have : a = n - 1 := by omega
          rw [this]
          exact hlast ha
      rw [hnext, ih (a + 1) ha (by omega) (fun _ => hlast ha)
        (fun i hi hi2 => hlink i (by omega) hi2)]
      have : n - a = (n - (a + 1)) + 1 := by omega
      rw [this, List.range'_succ]
      rfl
    · rw [if_neg ha, if_pos rfl]
      have : n - a = 0 := by omega
      rw [this]
      rfl

/-- The free list of a well formed store: the slots from `size()` to the end of
the store, in increasing order. -/
theorem freeList_wf (c : Config) (s : State) (hwf : WF c s) :
    freeList c s._MetaData (s._MetaData.length + 1) s._NextFree
      = some (List.range' (size s) (s._MetaData.length - size s)) := by
  have hcap := hwf.cap_lt
  rw [hwf.next]
  apply freeList_chain c s._MetaData s._MetaData.length
  · unfold _NO_MORE_FREE; omega
  · exact hwf.size_le
  · omega
  · intro hfree
    exact hwf.last hfree
  · intro i hi hi2
    exact hwf.link i hi hi2

/-- C28 (as stated) fails on a pattern constructed with element size 0, on which
`InitMPI` has not run: after `AddLocalPoint(7)` (local index 0) the call
`reserve(5)` frees the store and links all five slots of the new one. The free
list then starts at the allocated slot 0, where the links from `_NextFree` should
visit the unallocated slots 1 .. 4 only, and the next registration receives the
local index 0 again. After two registrations and `reserve(0)` the head of the
free list lies outside the store. -/
theorem freeList_holds_allocated_slot :
    size (runStore cfg32 (fresh cfg32 0) [.add (.AddLocalPoint 7), .reserve 5 8]) = 1 ∧
    (runStore cfg32 (fresh cfg32 0) [.add (.AddLocalPoint 7), .reserve 5 8])._MetaData.length
      = 5 ∧
    freeList cfg32
        (runStore cfg32 (fresh cfg32 0) [.add (.AddLocalPoint 7), .reserve 5 8])._MetaData 6
        (runStore cfg32 (fresh cfg32 0) [.add (.AddLocalPoint 7), .reserve 5 8])._NextFree
      = some [0, 1, 2, 3, 4] ∧
    (AddLocalPoint cfg32
      (runStore cfg32 (fresh cfg32 0) [.add (.AddLocalPoint 7), .reserve 5 8]) 8).1 = .ok 0 ∧
    (runStore cfg32 (fresh cfg32 0)
      [.add (.AddLocalPoint 7), .add (.AddLocalPoint 8), .reserve 0 8])._NextFree = 2 ∧
    (runStore cfg32 (fresh cfg32 0)
      [.add (.AddLocalPoint 7), .add (.AddLocalPoint 8), .reserve 0 8])._MetaData.length = 0 := by
  decide

/-- C28 (amended): in every state reached from a fresh pattern by registration and
`reserve` calls (with `IndexType` arguments), when `InitMPI` has run before the
first registration (the pattern was constructed with a positive element size, or
the first call is a `reserve`), following the links from `_NextFree` visits the
slots from `size()` to the end of the store, each once, in increasing order, and
ends at `_NO_MORE_FREE`; and a call of `grow` that enlarges the store to a size
that `IndexType` holds returns (its walk over the free list ends), leaves the
sizes as they were, and leaves as free list the old one followed by the new slots
`OldSize .. NewSize-1`. -/
theorem freeList_well_formed (c : Config) (hc : GrowOk c) (ESize : Nat)
    (calls : List StoreCall) (hty : TypedCalls c calls)
    (hstart : 0 < ESize ∨ ∃ n e rest, calls = StoreCall.reserve n e :: rest) :
    freeList c (runStore c (fresh c ESize) calls)._MetaData
        ((runStore c (fresh c ESize) calls)._MetaData.length + 1)
        (runStore c (fresh c ESize) calls)._NextFree
      = some (List.range' (size (runStore c (fresh c ESize) calls))
          ((runStore c (fresh c ESize) calls)._MetaData.length
            - size (runStore c (fresh c ESize) calls))) ∧
    ∀ growBy newSize,
      newSize = (if growBy ≠ 0 then (runStore c (fresh c ESize) calls)._MetaData.length + growBy
        else c.growTo (runStore c (fresh c ESize) calls)._MetaData.length) →
      (runStore c (fresh c ESize) calls)._MetaData.length < newSize → newSize < 2 ^ c.bits →
      ∃ s1, grow c (runStore c (fresh c ESize) calls) growBy = .ok s1 ∧
        s1._MetaData.length = newSize ∧ size s1 = size (runStore c (fresh c ESize) calls) ∧
        freeList c s1._MetaData (s1._MetaData.length + 1) s1._NextFree
          = some (List.range' (size (runStore c (fresh c ESize) calls))
              ((runStore c (fresh c ESize) calls)._MetaData.length
                - size (runStore c (fresh c ESize) calls))
            ++ List.range' (runStore c (fresh c ESize) calls)._MetaData.length
              (newSize - (runStore c (fresh c ESize) calls)._MetaData.length)) := by
  have hd := dense_reach c hc ESize calls hty hstart
  generalize runStore c (fresh c ESize) calls = s at hd ⊢
  have hwf := hd.wf
  refine ⟨freeList_wf c s hwf, ?_⟩
  intro growBy newSize hsize hnew hcap
  obtain ⟨md, hgrow, hlen, hold, hlink, hlast⟩ := grow_wf c s growBy newSize hwf hsize hnew hcap
  have hsz : size ({ s with _MetaData := md, _NextFree := size s } : State) = size s := rfl
  have hle := hwf.size_le
  have hwf1 : WF c ({ s with _MetaData := md, _NextFree := size s } : State) := by
    refine ⟨?_, ?_, ?_, ?_, ?_, ?_⟩
    · rw [hsz]; show size s ≤ md.length; omega
    · rw [hsz]; exact hwf.size_lt
    · show md.length < 2 ^ c.bits; omega
    · rw [hsz]
      show size s = if size s < md.length then size s else _NO_MORE_FREE c
      rw [if_pos (by omega)]
    · intro i hi hi2
      exact hlink i hi hi2
    · intro _
      exact hlast
  refine ⟨_, hgrow, hlen, hsz, ?_⟩
  rw [freeList_wf c _ hwf1, hsz]
  show some (List.range' (size s) (md.length - size s)) = _
  rw [hlen]
  congr 1
  have e1 : newSize - size s = (newSize - s._MetaData.length) + (s._MetaData.length - size s) := by
    omega
  have e2 : size s + (s._MetaData.length - size s) = s._MetaData.length := by omega
  rw [e1, ← List.range'_append_1, e2]

theorem freeList_well_formed_witness :
    GrowOk cfg32 ∧
    TypedCalls cfg32 [StoreCall.reserve 4 8, StoreCall.add (AddCall.AddLocalPoint 4),
      StoreCall.add (AddCall.AddGhostPoint 9)] ∧
    (0 < 0 ∨ ∃ n e rest, [StoreCall.reserve 4 8, StoreCall.add (AddCall.AddLocalPoint 4),
      StoreCall.add (AddCall.AddGhostPoint 9)] = StoreCall.reserve n e :: rest) ∧
    freeList cfg32 (runStore cfg32 (fresh cfg32 0) [StoreCall.reserve 4 8,
        StoreCall.add (AddCall.AddLocalPoint 4), StoreCall.add (AddCall.AddGhostPoint 9)])._MetaData
      5 (runStore cfg32 (fresh cfg32 0) [StoreCall.reserve 4 8,
        StoreCall.add (AddCall.AddLocalPoint 4), StoreCall.add (AddCall.AddGhostPoint 9)])._NextFree
      = some [2, 3] ∧
    freeList cfg32 (runStore cfg32 (fresh cfg32 0) [StoreCall.reserve 4 8,
        StoreCall.add (AddCall.AddLocalPoint 4), StoreCall.add (AddCall.AddGhostPoint 9)])._MetaData
      ((runStore cfg32 (fresh cfg32 0) [StoreCall.reserve 4 8,
        StoreCall.add (AddCall.AddLocalPoint 4),
        StoreCall.add (AddCall.AddGhostPoint 9)])._MetaData.length + 1)
      (runStore cfg32 (fresh cfg32 0) [StoreCall.reserve 4 8,
        StoreCall.add (AddCall.AddLocalPoint 4), StoreCall.add (AddCall.AddGhostPoint 9)])._NextFree
      = some (List.range' (size (runStore cfg32 (fresh cfg32 0) [StoreCall.reserve 4 8,
          StoreCall.add (AddCall.AddLocalPoint 4), StoreCall.add (AddCall.AddGhostPoint 9)]))
        ((runStore cfg32 (fresh cfg32 0) [StoreCall.reserve 4 8,
          StoreCall.add (AddCall.AddLocalPoint 4),
          StoreCall.add (AddCall.AddGhostPoint 9)])._MetaData.length
        - size (runStore cfg32 (fresh cfg32 0) [StoreCall.reserve 4 8,
          StoreCall.add (AddCall.AddLocalPoint 4), StoreCall.add (AddCall.AddGhostPoint 9)]))) :=
  ⟨growOk_cfg32, by intro n e h; simp at h; rcases h with ⟨rfl, rfl⟩; decide,
    Or.inr ⟨4, 8, _, rfl⟩, by decide,
    (freeList_well_formed cfg32 growOk_cfg32 0 [StoreCall.reserve 4 8,
      StoreCall.add (AddCall.AddLocalPoint 4), StoreCall.add (AddCall.AddGhostPoint 9)]
      (by intro n e h; simp at h; rcases h with ⟨rfl, rfl⟩; decide)
      (Or.inr ⟨4, 8, _, rfl⟩)).1⟩

/-! ## C30: displacements -/

end MPICommPattern
